import Mathlib

/-!
CD GDK base driver (`src/gdk/cdgdk.c`): region engine and colour resolver.

A shallow embedding of the region functions (`cdnewregion`, `cdispointinregion`,
`cdgetregionbox`, `sPrepareRegion`, `sCombineRegion`, `cdoffsetregion`, `cdbox`) and of
the colour functions (`find_color`, `truecolor_get_pixel`, `truecolor_get_rgb`, `highbit`)
of the driver, followed by the properties established about them.

The GDK calls the driver makes on its 1-bit pixmaps (`gdk_draw_rectangle`,
`gdk_draw_drawable`, `gdk_drawable_get_image`, `gdk_image_get_pixel`) belong to the
external drawing library; they are given here with the meaning the GDK 2 reference
documents for them, on bitmaps represented by their pixel function.
-/

namespace CdGdk

/-! ## The drawing collaborator (GDK) on 1-bit pixmaps -/

/-- The raster functions of `GdkFunction` that the driver selects on the region GC. -/
inductive GdkFunction where
  | GDK_COPY
  | GDK_OR
  | GDK_AND
  | GDK_AND_INVERT
  | GDK_XOR
  deriving DecidableEq, Repr

/-- A depth-1 `GdkPixmap`: its size and the bit stored at each coordinate.  Only the
coordinates `0 ≤ x < w`, `0 ≤ y < h` belong to the pixmap; the drawing calls below never
change `px` elsewhere. -/
structure GdkBitmap where
  w : Nat
  h : Nat
  px : Int → Int → Bool

/-- The fields of a `GdkGC` the region code sets. -/
structure GdkGC where
  function : GdkFunction
  foreground : Nat
  background : Nat

/-- Whether `(x, y)` is a pixel of the drawable. -/
def GdkBitmap.inside (d : GdkBitmap) (x y : Int) : Bool :=
  decide (0 ≤ x) && decide (x < (d.w : Int)) && decide (0 ≤ y) && decide (y < (d.h : Int))

/-- Result of a raster function: `src` is the incoming bit, `dst` the bit already in the
destination (`GDK_COPY`: src, `GDK_OR`: src OR dst, `GDK_AND`: src AND dst,
`GDK_AND_INVERT`: (NOT src) AND dst, `GDK_XOR`: src XOR dst). -/
def gdk_function_apply (f : GdkFunction) (src dst : Bool) : Bool :=
  match f with
  | .GDK_COPY => src
  | .GDK_OR => src || dst
  | .GDK_AND => src && dst
  | .GDK_AND_INVERT => !src && dst
  | .GDK_XOR => xor src dst

/-- The bit a GC foreground pixel value denotes on a depth-1 drawable. -/
def fg_bit (gc : GdkGC) : Bool := gc.foreground % 2 == 1

/-- A negative extent passed to a GDK drawing call stands for the full extent. -/
def gdk_extent (requested : Int) (full : Nat) : Int :=
  if requested < 0 then (full : Int) else requested

/-- A filled GDK drawing primitive (`gdk_draw_rectangle`, `gdk_draw_arc`,
`gdk_draw_polygon` with `filled = TRUE`): every pixel of `d` that belongs to the shape
receives the GC foreground through the GC function; `shape` tells which coordinates the
primitive covers. -/
def gdk_draw_filled (d : GdkBitmap) (gc : GdkGC) (shape : Int → Int → Bool) : GdkBitmap :=
  { d with px := fun X Y =>
      if d.inside X Y && shape X Y
      then gdk_function_apply gc.function (fg_bit gc) (d.px X Y)
      else d.px X Y }

/-- The pixels a filled rectangle at `(x, y)` of extent `width x height` covers. -/
def rectangle_shape (x y width height : Int) (X Y : Int) : Bool :=
  decide (x ≤ X) && decide (X < x + width) && decide (y ≤ Y) && decide (Y < y + height)

/-- Call `gdk_draw_rectangle(d, gc, TRUE, x, y, width, height)`: the pixels with
`x ≤ X < x + width` and `y ≤ Y < y + height` are filled. -/
def gdk_draw_rectangle (d : GdkBitmap) (gc : GdkGC) (x y width height : Int) : GdkBitmap :=
  gdk_draw_filled d gc (rectangle_shape x y (gdk_extent width d.w) (gdk_extent height d.h))

/-- Call `gdk_draw_drawable(drawable, gc, src, xsrc, ysrc, xdest, ydest, width, height)`:
the first argument is the destination.  The `width x height` area of `src` at
`(xsrc, ysrc)` is combined through the GC function into `drawable` at `(xdest, ydest)`;
pixels that fall outside the destination, or whose source pixel lies outside `src`, are
left alone. -/
def gdk_draw_drawable (drawable : GdkBitmap) (gc : GdkGC) (src : GdkBitmap)
    (xsrc ysrc xdest ydest width height : Int) : GdkBitmap :=
  let wd := gdk_extent width src.w
  let ht := gdk_extent height src.h
  { drawable with px := fun X Y =>
      if drawable.inside X Y && decide (xdest ≤ X) && decide (X < xdest + wd)
          && decide (ydest ≤ Y) && decide (Y < ydest + ht)
          && src.inside (X - xdest + xsrc) (Y - ydest + ysrc)
      then
        let s := src.px (X - xdest + xsrc) (Y - ydest + ysrc)
        gdk_function_apply gc.function s (drawable.px X Y)
      else drawable.px X Y }

/-- Call `gdk_drawable_get_image(d, x, y, width, height)`: a client-side copy of that
area of the drawable; image coordinate `(X, Y)` is drawable coordinate `(x + X, y + Y)`. -/
def gdk_drawable_get_image (d : GdkBitmap) (x y : Int) (width height : Nat) : GdkBitmap :=
  { w := width, h := height, px := fun X Y => d.px (x + X) (y + Y) }

/-- Call `gdk_image_get_pixel(img, x, y)` on a 1-bit image: the pixel value, 0 or 1. -/
def gdk_image_get_pixel (img : GdkBitmap) (x y : Int) : Nat :=
  if img.px x y then 1 else 0

/-! ## Colours -/

/-- Struct `GdkColor`: the device pixel value (`guint32`) and the three 16-bit channel
intensities (`guint16`). -/
structure GdkColor where
  pixel : Nat
  red : Nat
  green : Nat
  blue : Nat
  deriving DecidableEq, Repr

/-- The fields of `GdkVisual` the driver reads. -/
structure GdkVisual where
  red_mask : Nat
  green_mask : Nat
  blue_mask : Nat
  colormap_size : Int
  deriving DecidableEq, Repr

/-- The colour macros of the CD headers (`cdRed`, `cdGreen`, `cdBlue`, `cdCOLOR8TO16`,
`cdCOLOR16TO8`).  The headers are not part of the driver file, so the functions that use
the macros take them as a parameter. -/
structure CdMacros where
  cdRed : Nat → Nat
  cdGreen : Nat → Nat
  cdBlue : Nat → Nat
  cdCOLOR8TO16 : Nat → Nat
  cdCOLOR16TO8 : Nat → Nat

/-- Width of `unsigned long` (LP64). -/
def ULONG_BITS : Nat := 64

/-- Constant `ULONG_MAX` of `limits.h`. -/
def ULONG_MAX : Nat := 2 ^ ULONG_BITS - 1

/-- The scratch block behind `ctxcanvas->xidata`: its address and its bytes (the byte at
offset `k` from the start of the block is `mem k`). -/
structure XiData where
  addr : Nat
  mem : Int → Nat

/-- Outcome of one call to the C allocator (`malloc`, `realloc`): `block = none` is a NULL
result, else the address of the block; `fresh` is the undefined content of newly obtained
bytes. -/
structure AllocOutcome where
  block : Option Nat
  fresh : Int → Nat

/-- Enum `GdkByteOrder`. -/
inductive GdkByteOrder where
  | GDK_LSB_FIRST
  | GDK_MSB_FIRST
  deriving DecidableEq, Repr

/-- The fields of `GdkImage` the packers read or set (`depth`, `bpp`, `bpl` and
`bits_per_pixel` are `guint16`), and the bytes of its pixel memory `mem`. -/
structure GdkImage where
  byte_order : GdkByteOrder
  depth : Nat
  bpp : Nat
  bpl : Nat
  bits_per_pixel : Nat
  mem : Int → Nat

/-! ## Canvas state -/

/-- The region combine modes of `cd.h` (the header is not part of the driver file; only
the four names are used, as `case` labels). -/
inductive CombineMode where
  | CD_UNION
  | CD_INTERSECT
  | CD_DIFFERENCE
  | CD_NOTINTERSECT
  deriving DecidableEq, Repr

/-- A primitive sent to the window drawable `ctxcanvas->wnd` (not a region bitmap). -/
inductive WndDraw where
  | rectangle (filled : Bool) (x y width height : Int)
  deriving DecidableEq, Repr

/-- The fields of `cdCanvas` the region code reads. -/
structure cdCanvas where
  w : Nat
  h : Nat
  combine_mode : CombineMode
  new_region : Bool
  use_matrix : Bool
  bpp : Int := 0

/-- The fields of `cdCtxCanvas` the modelled functions use.  `new_region = none` is the
NULL pointer (no region object); `region_aux` and `region_aux_gc` are meaningful only
while a region object exists.  `wnd_log` records what was drawn on the window.
`color_table` is the array behind the `color_table` pointer, of which the first
`num_colors` entries are in use.  `xidata = none` is the NULL pointer (no scratch buffer)
and `xisize` the recorded capacity. -/
structure cdCtxCanvas where
  canvas : cdCanvas
  new_region : Option GdkBitmap
  region_aux : GdkBitmap
  region_aux_gc : GdkGC
  wnd_log : List WndDraw
  vis : GdkVisual := { red_mask := 0, green_mask := 0, blue_mask := 0, colormap_size := 0 }
  rshift : Int := 0
  gshift : Int := 0
  bshift : Int := 0
  color_table : Nat → GdkColor := fun _ => { pixel := 0, red := 0, green := 0, blue := 0 }
  num_colors : Nat := 0
  xidata : Option XiData := none
  xisize : Int := 0
  depth : Int := 0

/-! ## Colour resolver -/

/-- Distance `this_dist` computed in the loop body of `find_color`: the three channel
differences are `int` (the `guint16` channels are promoted), divided with truncation
toward zero, and the `int` sum of squares is converted to `unsigned long`. -/
def find_color_dist (xc1 xc2 : GdkColor) : Nat :=
  let dr : Int := Int.tdiv ((xc1.red : Int) - (xc2.red : Int)) 850
  let dg : Int := Int.tdiv ((xc1.green : Int) - (xc2.green : Int)) 432
  let db : Int := Int.tdiv ((xc1.blue : Int) - (xc2.blue : Int)) 2318
  ((dr * dr + dg * dg + db * db) % (2 ^ ULONG_BITS : Int)).toNat

/-- Loop body of `find_color` at index `i`; the state is `(pos, min_dist)`. -/
def find_color_step (color_table : Nat → GdkColor) (xc1 : GdkColor) (st : Nat × Nat)
    (i : Nat) : Nat × Nat :=
  let xc2 := color_table i
  let this_dist := find_color_dist xc1 xc2
  if this_dist < st.2 then (i, this_dist) else st

/-- Function `find_color`: `pos = 0`, `min_dist = ULONG_MAX`, then the loop over
`i = 0 .. num_colors - 1`. -/
def find_color (ctxcanvas : cdCtxCanvas) (xc1 : GdkColor) : Nat :=
  ((List.range ctxcanvas.num_colors).foldl
    (find_color_step ctxcanvas.color_table xc1) (0, ULONG_MAX)).1

/-- Function `truecolor_get_pixel`.  `clrRGB` is the content of the uninitialised local
`GdkColor clrRGB` on entry; the function assigns its `red`, `green` and `blue` members
(`guint16`) and returns it.  The canvas is not used (`(void)ctxcanvas`). -/
def truecolor_get_pixel (M : CdMacros) (_ctxcanvas : cdCtxCanvas) (clrRGB : GdkColor)
    (rgb : Nat) : GdkColor :=
  let clrRGB := { clrRGB with red := M.cdCOLOR8TO16 (M.cdRed rgb) % 65536 }
  let clrRGB := { clrRGB with green := M.cdCOLOR8TO16 (M.cdGreen rgb) % 65536 }
  let clrRGB := { clrRGB with blue := M.cdCOLOR8TO16 (M.cdBlue rgb) % 65536 }
  clrRGB

/-- The shift applied to one channel in `truecolor_get_rgb`: right by `-shift` when the
shift is negative, else left by `shift` (in `unsigned long`). -/
def truecolor_shift (v : Nat) (shift : Int) : Nat :=
  if shift < 0 then v >>> (-shift).toNat else (v <<< shift.toNat) % 2 ^ ULONG_BITS

/-- Function `truecolor_get_rgb`: the values stored through `red`, `green`, `blue`
(`unsigned char`). -/
def truecolor_get_rgb (M : CdMacros) (ctxcanvas : cdCtxCanvas) (pixel : Nat) :
    Nat × Nat × Nat :=
  let r := pixel &&& ctxcanvas.vis.red_mask
  let g := pixel &&& ctxcanvas.vis.green_mask
  let b := pixel &&& ctxcanvas.vis.blue_mask
  let r := truecolor_shift r ctxcanvas.rshift
  let g := truecolor_shift g ctxcanvas.gshift
  let b := truecolor_shift b ctxcanvas.bshift
  (M.cdCOLOR16TO8 r % 256, M.cdCOLOR16TO8 g % 256, M.cdCOLOR16TO8 b % 256)

/-- Loop of `highbit`: `for (i = 31; ((ul & hb) == 0) && i >= 0; i--, ul <<= 1);` with
`hb = 0x80000000`; `fuel` bounds the number of iterations. -/
def highbit_loop : Nat → Int → Nat → Int
  | 0, i, _ => i
  | fuel + 1, i, ul =>
    if ul &&& 0x80000000 = 0 ∧ 0 ≤ i then highbit_loop fuel (i - 1) ((ul <<< 1) % 2 ^ ULONG_BITS)
    else i

/-- Function `highbit`.  The loop leaves after at most 32 decrements of `i`, so 33 units
of fuel let it run to its end. -/
def highbit (ul : Nat) : Int := highbit_loop 33 31 ul

/-- The part of `cdgdkCreateCanvas` that stores the channel shifts when `bpp > 8`. -/
def cdgdkCreateCanvas_shifts (ctxcanvas : cdCtxCanvas) : cdCtxCanvas :=
  { ctxcanvas with
    rshift := 15 - highbit ctxcanvas.vis.red_mask
    gshift := 15 - highbit ctxcanvas.vis.green_mask
    bshift := 15 - highbit ctxcanvas.vis.blue_mask }

/-- A `GdkColor` whose three channels fit their `guint16` members. -/
def GdkColor.wf (c : GdkColor) : Prop :=
  c.red < 65536 ∧ c.green < 65536 ∧ c.blue < 65536

/-- The weighted squared distance as the specification words it:
`(dr/850)^2 + (dg/432)^2 + (db/2318)^2` with `dr`, `dg`, `db` the signed differences of
the 16-bit channels and division truncating toward zero. -/
def spec_color_dist (a b : GdkColor) : Int :=
  (Int.tdiv ((a.red : Int) - (b.red : Int)) 850) ^ 2 +
  (Int.tdiv ((a.green : Int) - (b.green : Int)) 432) ^ 2 +
  (Int.tdiv ((a.blue : Int) - (b.blue : Int)) 2318) ^ 2

/-- One 8-bit channel placed in a visual mask as the specification words it: shifted so
that its high bit is aligned on the highest set bit of the mask, then ANDed with the
mask. -/
def spec_channel_in_mask (c mask : Nat) : Nat :=
  (if highbit mask < 7 then c >>> (7 - highbit mask).toNat
   else c <<< (highbit mask - 7).toNat) &&& mask

/-- The device pixel value of a true-colour display as the specification words it: the
bitwise OR of the three channels, each placed in its visual mask. -/
def spec_truecolor_pixel (vis : GdkVisual) (r g b : Nat) : Nat :=
  spec_channel_in_mask r vis.red_mask ||| spec_channel_in_mask g vis.green_mask |||
    spec_channel_in_mask b vis.blue_mask

/-- The usual 24-bit visual: masks 0xFF0000, 0x00FF00, 0x0000FF. -/
def vis888 : GdkVisual :=
  { red_mask := 0xFF0000, green_mask := 0x00FF00, blue_mask := 0x0000FF, colormap_size := 256 }

/-- A palette context: three table entries differing in red only. -/
def palette_ctx : cdCtxCanvas :=
  { canvas := { w := 4, h := 4, combine_mode := .CD_UNION, new_region := false,
                use_matrix := false }
    new_region := none
    region_aux := { w := 0, h := 0, px := fun _ _ => false }
    region_aux_gc := { function := .GDK_COPY, foreground := 0, background := 0 }
    wnd_log := []
    color_table := fun i => { pixel := i, red := i * 1000, green := 0, blue := 0 }
    num_colors := 3 }

/-! ## Region engine -/

/-- Function `cdnewregion`: a fresh `w x h` region bitmap cleared to 0 with a temporary GC
(`gdk_gc_new`: function `GDK_COPY`; foreground set to pixel 0), and a fresh scratch
bitmap with its GC.  `fresh_region` and `fresh_aux` are the undefined initial contents of
the two new pixmaps. -/
def cdnewregion (ctxcanvas : cdCtxCanvas) (fresh_region fresh_aux : Int → Int → Bool) :
    cdCtxCanvas :=
  let w := ctxcanvas.canvas.w
  let h := ctxcanvas.canvas.h
  let new_region : GdkBitmap := { w := w, h := h, px := fresh_region }
  let gc : GdkGC := { function := .GDK_COPY, foreground := 0, background := 0 }
  let new_region := gdk_draw_rectangle new_region gc 0 0 w h
  let region_aux : GdkBitmap := { w := w, h := h, px := fresh_aux }
  let region_aux_gc : GdkGC := { function := .GDK_COPY, foreground := 0, background := 0 }
  { ctxcanvas with
    new_region := some new_region
    region_aux := region_aux
    region_aux_gc := region_aux_gc }

/-- Function `cdispointinregion`, returning the result together with the list of bitmap
pixels it read. -/
def cdispointinregion_run (ctxcanvas : cdCtxCanvas) (x y : Int) : Int × List (Int × Int) :=
  match ctxcanvas.new_region with
  | none => (0, [])
  | some new_region =>
    if 0 ≤ x ∧ 0 ≤ y ∧ x < (ctxcanvas.canvas.w : Int) ∧ y < (ctxcanvas.canvas.h : Int) then
      let img := gdk_drawable_get_image new_region 0 0 ctxcanvas.canvas.w ctxcanvas.canvas.h
      let p := gdk_image_get_pixel img x y
      if p ≠ 0 then (1, [(x, y)]) else (0, [(x, y)])
    else (0, [])

/-- Function `cdispointinregion`: the returned `int`. -/
def cdispointinregion (ctxcanvas : cdCtxCanvas) (x y : Int) : Int :=
  (cdispointinregion_run ctxcanvas x y).1

/-- The four `int` out-parameters of `cdgetregionbox`. -/
structure RegionBox where
  xmin : Int
  xmax : Int
  ymin : Int
  ymax : Int
  deriving DecidableEq, Repr

/-- The four guarded assignments done in `cdgetregionbox` when pixel `(x, y)` is set. -/
def RegionBox.merge (b : RegionBox) (x y : Int) : RegionBox :=
  let b := if x < b.xmin then { b with xmin := x } else b
  let b := if x > b.xmax then { b with xmax := x } else b
  let b := if y < b.ymin then { b with ymin := y } else b
  let b := if y > b.ymax then { b with ymax := y } else b
  b

/-- First inner loop of `cdgetregionbox`, `for (x = 0; x < w; x++)`, with `k` iterations
left (so `x = w - k`): stops at the first set pixel.  Returns the box and the value of
`x` when the loop is left. -/
def regionbox_scan_fwd (img : GdkBitmap) (w : Nat) (y : Int) (b : RegionBox) :
    Nat → RegionBox × Int
  | 0 => (b, (w : Int))
  | k + 1 =>
    let x : Int := (w : Int) - ((k : Int) + 1)
    if gdk_image_get_pixel img x y ≠ 0 then (b.merge x y, x)
    else regionbox_scan_fwd img w y b k

/-- Second inner loop of `cdgetregionbox`, `for (x = w-1; x >= 0; x--)`, entered with
`x = n - 1`: stops at the first set pixel met. -/
def regionbox_scan_bwd (img : GdkBitmap) (y : Int) (b : RegionBox) : Nat → RegionBox
  | 0 => b
  | n + 1 =>
    let x : Int := (n : Int)
    if gdk_image_get_pixel img x y ≠ 0 then b.merge x y
    else regionbox_scan_bwd img y b n

/-- Body of the row loop of `cdgetregionbox` for row `y`. -/
def regionbox_row (img : GdkBitmap) (w : Nat) (b : RegionBox) (y : Nat) : RegionBox :=
  let r := regionbox_scan_fwd img w y b w
  if r.2 ≠ (w : Int) - 1 then regionbox_scan_bwd img y r.1 w else r.1

/-- Function `cdgetregionbox`; `box` holds the values of the out-parameters before the
call, which stay as they are when there is no region object. -/
def cdgetregionbox (ctxcanvas : cdCtxCanvas) (box : RegionBox) : RegionBox :=
  match ctxcanvas.new_region with
  | none => box
  | some new_region =>
    let w := ctxcanvas.canvas.w
    let h := ctxcanvas.canvas.h
    let box : RegionBox := { xmin := (w : Int) - 1, xmax := 0, ymin := (h : Int) - 1, ymax := 0 }
    let img := gdk_drawable_get_image new_region 0 0 w h
    (List.range h).foldl (regionbox_row img w) box

/-- Function `sPrepareRegion`. -/
def sPrepareRegion (ctxcanvas : cdCtxCanvas) : cdCtxCanvas :=
  match ctxcanvas.new_region with
  | none => ctxcanvas
  | some _ =>
    let gc := { ctxcanvas.region_aux_gc with function := GdkFunction.GDK_COPY }
    let gc := { gc with foreground := 0 }
    let aux := gdk_draw_rectangle ctxcanvas.region_aux gc 0 0 ctxcanvas.canvas.w ctxcanvas.canvas.h
    let gc := { gc with foreground := 1 }
    { ctxcanvas with region_aux := aux, region_aux_gc := gc }

/-- Function `sCombineRegion`.  The source dereferences `new_region` without a test; its
callers run it only while a region is being built, and here nothing is drawn when the
region object is absent. -/
def sCombineRegion (ctxcanvas : cdCtxCanvas) : cdCtxCanvas :=
  let gc :=
    match ctxcanvas.canvas.combine_mode with
    | .CD_UNION => { ctxcanvas.region_aux_gc with function := GdkFunction.GDK_OR }
    | .CD_INTERSECT => { ctxcanvas.region_aux_gc with function := GdkFunction.GDK_AND }
    | .CD_DIFFERENCE => { ctxcanvas.region_aux_gc with function := GdkFunction.GDK_AND_INVERT }
    | .CD_NOTINTERSECT => { ctxcanvas.region_aux_gc with function := GdkFunction.GDK_XOR }
  { ctxcanvas with
    region_aux_gc := gc
    new_region := ctxcanvas.new_region.map fun new_region =>
      gdk_draw_drawable new_region gc ctxcanvas.region_aux 0 0 0 0
        ctxcanvas.canvas.w ctxcanvas.canvas.h }

/-- Function `cdoffsetregion`. -/
def cdoffsetregion (ctxcanvas : cdCtxCanvas) (x y : Int) : cdCtxCanvas :=
  match ctxcanvas.new_region with
  | none => ctxcanvas
  | some _ =>
    let c := sPrepareRegion ctxcanvas
    match c.new_region with
    | none => c
    | some new_region =>
      let new_region := gdk_draw_drawable new_region c.region_aux_gc c.region_aux 0 0 x y
        ((c.canvas.w : Int) - x) ((c.canvas.h : Int) - y)
      let region_aux := gdk_draw_drawable c.region_aux c.region_aux_gc new_region 0 0 0 0
        c.canvas.w c.canvas.h
      { c with new_region := some new_region, region_aux := region_aux }

/-- Function `cdbox` without a transformation matrix (`use_matrix` false; with a matrix
the source hands over to `cdboxSIM` of the simulation module, passed as `cdboxSIM`). -/
def cdbox (cdboxSIM : cdCtxCanvas → Int → Int → Int → Int → cdCtxCanvas)
    (ctxcanvas : cdCtxCanvas) (xmin xmax ymin ymax : Int) : cdCtxCanvas :=
  if ctxcanvas.canvas.use_matrix then cdboxSIM ctxcanvas xmin xmax ymin ymax
  else if ctxcanvas.canvas.new_region then
    let c := sPrepareRegion ctxcanvas
    let c := { c with region_aux :=
      gdk_draw_rectangle c.region_aux c.region_aux_gc xmin ymin (xmax - xmin + 1) (ymax - ymin + 1) }
    sCombineRegion c
  else
    { ctxcanvas with wnd_log := ctxcanvas.wnd_log ++
        [WndDraw.rectangle true xmin ymin (xmax - xmin + 1) (ymax - ymin + 1)] }

/-- The region branch shared by `cdsector`, `cdchord`, `cdbox`, `cdpoly` and `cdtext`:
`sPrepareRegion`, a filled primitive drawn on `region_aux` with `region_aux_gc`, then
`sCombineRegion`.  `shape` is the set of pixels the primitive covers. -/
def region_shape (ctxcanvas : cdCtxCanvas) (shape : Int → Int → Bool) : cdCtxCanvas :=
  let c := sPrepareRegion ctxcanvas
  let c := { c with region_aux := gdk_draw_filled c.region_aux c.region_aux_gc shape }
  sCombineRegion c

/-- The combine mode is a plain field of the canvas, stored by the core before the driver
is called. -/
def set_combine_mode (ctxcanvas : cdCtxCanvas) (mode : CombineMode) : cdCtxCanvas :=
  { ctxcanvas with canvas := { ctxcanvas.canvas with combine_mode := mode } }

/-- A region object exists and both of its bitmaps have the size of the canvas, as
`cdnewregion` creates them. -/
def RegionSized (ctx : cdCtxCanvas) : Prop :=
  ∃ R, ctx.new_region = some R ∧ R.w = ctx.canvas.w ∧ R.h = ctx.canvas.h ∧
    ctx.region_aux.w = ctx.canvas.w ∧ ctx.region_aux.h = ctx.canvas.h

/-- A canvas context of size `w x h` whose region object has the bits `px`; the scratch
bitmap starts all set and its GC in an arbitrary state. -/
def region_ctx (w h : Nat) (mode : CombineMode) (px : Int → Int → Bool) : cdCtxCanvas :=
  { canvas := { w := w, h := h, combine_mode := mode, new_region := true, use_matrix := false }
    new_region := some { w := w, h := h, px := px }
    region_aux := { w := w, h := h, px := fun _ _ => true }
    region_aux_gc := { function := .GDK_XOR, foreground := 0, background := 0 }
    wnd_log := [] }

/-- A canvas context of size `w x h` without region object. -/
def noregion_ctx (w h : Nat) : cdCtxCanvas :=
  { canvas := { w := w, h := h, combine_mode := .CD_UNION, new_region := true,
                use_matrix := false }
    new_region := none
    region_aux := { w := 0, h := 0, px := fun _ _ => true }
    region_aux_gc := { function := .GDK_XOR, foreground := 0, background := 0 }
    wnd_log := [] }

/-- The simulation fallback passed to `cdbox` where no matrix is active (never run). -/
def noSIM (c : cdCtxCanvas) (_ _ _ _ : Int) : cdCtxCanvas := c

/-- The raster function `sCombineRegion` selects for a combine mode. -/
def combine_function (mode : CombineMode) : GdkFunction :=
  match mode with
  | .CD_UNION => .GDK_OR
  | .CD_INTERSECT => .GDK_AND
  | .CD_DIFFERENCE => .GDK_AND_INVERT
  | .CD_NOTINTERSECT => .GDK_XOR

/-- Invariant of the row loop of `cdgetregionbox` after the rows `0 .. n-1`: the box
contains every set pixel of those rows, and each bound is either still the initial value
or the coordinate of a set pixel of those rows. -/
def RegionBoxInv (px : Int → Int → Bool) (w h n : Nat) (b : RegionBox) : Prop :=
  (∀ x y : Int, 0 ≤ x → x < w → 0 ≤ y → y < n → px x y = true →
      b.xmin ≤ x ∧ x ≤ b.xmax ∧ b.ymin ≤ y ∧ y ≤ b.ymax) ∧
  (b.xmin = (w : Int) - 1 ∨ ∃ y : Int, 0 ≤ y ∧ y < n ∧ 0 ≤ b.xmin ∧ b.xmin < w ∧
      px b.xmin y = true) ∧
  (b.xmax = 0 ∨ ∃ y : Int, 0 ≤ y ∧ y < n ∧ 0 ≤ b.xmax ∧ b.xmax < w ∧ px b.xmax y = true) ∧
  (b.ymin = (h : Int) - 1 ∨ ∃ x : Int, 0 ≤ x ∧ x < w ∧ 0 ≤ b.ymin ∧ b.ymin < n ∧
      px x b.ymin = true) ∧
  (b.ymax = 0 ∨ ∃ x : Int, 0 ≤ x ∧ x < w ∧ 0 ≤ b.ymax ∧ b.ymax < n ∧ px x b.ymax = true)


/-! ## Scratch buffer and image packers -/

/-- Function `get_data_buffer`.  `alloc` is the outcome of the one allocator call the
function may make (`malloc` when no buffer is recorded, `realloc` when the recorded
capacity is below `size`); `realloc` keeps the bytes of the old block.  Returns the
returned pointer and the canvas state. -/
def get_data_buffer (ctxcanvas : cdCtxCanvas) (size : Int) (alloc : AllocOutcome) :
    Option XiData × cdCtxCanvas :=
  let c : cdCtxCanvas :=
    match ctxcanvas.xidata with
    | none =>
      let c := { ctxcanvas with xisize := size }
      { c with xidata := alloc.block.map fun a => { addr := a, mem := alloc.fresh } }
    | some old =>
      if ctxcanvas.xisize < size then
        let c := { ctxcanvas with xisize := size }
        { c with xidata := alloc.block.map fun a =>
            { addr := a
              mem := fun k => if k < ctxcanvas.xisize then old.mem k else alloc.fresh k } }
      else ctxcanvas
  let c := if c.xidata.isNone then { c with xisize := 0 } else c
  (c.xidata, c)

/-- A run of `get_data_buffer` calls, each with its request size and allocator outcome. -/
def get_data_buffer_calls (ctxcanvas : cdCtxCanvas) (calls : List (Int × AllocOutcome)) :
    cdCtxCanvas :=
  calls.foldl (fun c call => (get_data_buffer c call.1 call.2).2) ctxcanvas

/-- Invariant of the scratch buffer: the capacity is not negative and is 0 when no buffer
is recorded. -/
def XiDataInv (ctx : cdCtxCanvas) : Prop :=
  0 ≤ ctx.xisize ∧ (ctx.xidata.isNone = true → ctx.xisize = 0)

/-- An allocator outcome that returns a block at address 4096 with zero bytes. -/
def alloc_ok : AllocOutcome := { block := some 4096, fresh := fun _ => 0 }

/-- An allocator outcome that returns NULL. -/
def alloc_fail : AllocOutcome := { block := none, fresh := fun _ => 0 }

/-- Modelled from the spec: the function `cdGetZoomTable` of the CD core, which the
packers call as `cdGetZoomTable(ew, bw, bx)`, is not part of the driver file.  Following
section 4.2, the table has one entry per destination index `d` in `[0, destExtent)`, the
source index `srcOffset + floor(d * srcExtent / destExtent)` clamped into
`[0, srcExtent)`. -/
def cdGetZoomTable (destExtent srcExtent srcOffset : Int) : List Int :=
  (List.range destExtent.toNat).map fun (d : Nat) =>
    max 0 (min (srcExtent - 1) (srcOffset + ((d : Int) * srcExtent) / destExtent))

/-- Modelled from the spec: the macro `CD_ALPHA_BLEND` of the CD headers is not part of
the driver file.  Following section 4.3, `blended = src*alpha/255 + dst*(255-alpha)/255`
per channel, in integer arithmetic. -/
def CD_ALPHA_BLEND (src dst alpha : Nat) : Nat :=
  src * alpha / 255 + dst * (255 - alpha) / 255

/-- What `rgb2gdkImage` takes from outside the driver file: the result of
`gdk_image_new` (`none` is NULL), the outcome of the allocator call `get_data_buffer` may
make, whether `gdk_visual_get_best_type()` is `GDK_VISUAL_DIRECT_COLOR`, the function
behind the pointer `cdgdkGetRGB`, the global `cdgdkDirectColorTable`, the macro
`CD_ALPHA_BLEND`, the function `cdGetZoomTable` of the CD core, and the pixels of the
destination image `oxi`. -/
structure RgbEnv where
  xim : Option GdkImage
  alloc : AllocOutcome
  direct_color : Bool
  cdgdkGetRGB : cdCtxCanvas → Nat → Nat × Nat × Nat
  cdgdkDirectColorTable : Nat → Nat
  blend : Nat → Nat → Nat → Nat
  zoomTable : Int → Int → Int → List Int
  oxi_pixel : Int → Int → Nat

/-- The source planes of `rgb2gdkImage`; `alpha = none` is the NULL pointer. -/
structure RgbPlanes where
  red : Int → Nat
  green : Int → Nat
  blue : Int → Nat
  alpha : Option (Int → Nat)

/-- The channel values `r`, `g`, `b` of `rgb2gdkImage` for source offset `src` and
destination pixel `(j, eh-i-1)`: blended against the destination when `alpha` is given,
else the source channels. -/
def rgb2gdk_channels (E : RgbEnv) (ctxcanvas : cdCtxCanvas) (P : RgbPlanes)
    (src : Int) (j row : Int) : Nat × Nat × Nat :=
  match P.alpha with
  | some alpha =>
    let o := E.cdgdkGetRGB ctxcanvas (E.oxi_pixel j row)
    let al := alpha src
    (E.blend (P.red src) o.1 al, E.blend (P.green src) o.2.1 al, E.blend (P.blue src) o.2.2 al)
  | none => (P.red src, P.green src, P.blue src)

/-- The shift of one channel in `rgb2gdkImage`: left by `-shift` when the shift is
negative (in `unsigned long`), else right by `shift`. -/
def rgb2gdk_shift (v : Nat) (shift : Int) : Nat :=
  if shift < 0 then (v <<< (-shift).toNat) % 2 ^ ULONG_BITS else v >>> shift.toNat

/-- The remapping of one channel through `cdgdkDirectColorTable` on a direct-colour
visual. -/
def rgb2gdk_direct (table : Nat → Nat) (cshift : Int) (v : Nat) : Nat :=
  (table ((v >>> cshift.toNat) &&& 0xff) <<< cshift.toNat) % 2 ^ ULONG_BITS

/-- The packed pixel value `xcol` of `rgb2gdkImage` for the channel values `r`, `g`, `b`. -/
def rgb2gdk_xcol (ctxcanvas : cdCtxCanvas) (direct_color : Bool) (table : Nat → Nat)
    (r g b : Nat) : Nat :=
  let rmask := ctxcanvas.vis.red_mask
  let gmask := ctxcanvas.vis.green_mask
  let bmask := ctxcanvas.vis.blue_mask
  let rshift := 7 - highbit rmask
  let gshift := 7 - highbit gmask
  let bshift := 7 - highbit bmask
  let maplen := ctxcanvas.vis.colormap_size
  let maplen := if maplen > 256 then 256 else maplen
  let cshift := 7 - highbit ((maplen - 1) % 2 ^ ULONG_BITS).toNat
  let r := if direct_color then rgb2gdk_direct table cshift r else r
  let g := if direct_color then rgb2gdk_direct table cshift g else g
  let b := if direct_color then rgb2gdk_direct table cshift b else b
  let r := rgb2gdk_shift r rshift
  let g := rgb2gdk_shift g gshift
  let b := rgb2gdk_shift b bshift
  let r := r &&& rmask
  let g := g &&& gmask
  let b := b &&& bmask
  r ||| g ||| b

/-- The bytes `rgb2gdkImage` stores through `ip` for one pixel, in the order stored. -/
def rgb2gdk_bytes (bperpix : Nat) (byte_order : GdkByteOrder) (xcol : Nat) : List Nat :=
  if bperpix = 32 then
    if byte_order = .GDK_MSB_FIRST then
      [(xcol >>> 24) &&& 0xff, (xcol >>> 16) &&& 0xff, (xcol >>> 8) &&& 0xff, xcol &&& 0xff]
    else
      [xcol &&& 0xff, (xcol >>> 8) &&& 0xff, (xcol >>> 16) &&& 0xff, (xcol >>> 24) &&& 0xff]
  else if bperpix = 24 then
    if byte_order = .GDK_MSB_FIRST then
      [(xcol >>> 16) &&& 0xff, (xcol >>> 8) &&& 0xff, xcol &&& 0xff]
    else
      [xcol &&& 0xff, (xcol >>> 8) &&& 0xff, (xcol >>> 16) &&& 0xff]
  else if bperpix = 16 then
    if byte_order = .GDK_MSB_FIRST then [(xcol >>> 8) &&& 0xff, xcol &&& 0xff]
    else [xcol &&& 0xff, (xcol >>> 8) &&& 0xff]
  else if bperpix = 8 then [xcol &&& 0xff]
  else []

/-- A run of byte stores `*p++ = b` starting at byte offset `off` of a memory. -/
def write_bytes (mem : Int → Nat) (off : Int) (bytes : List Nat) : Int → Nat :=
  fun k => if off ≤ k ∧ k < off + bytes.length then bytes.getD (k - off).toNat 0 else mem k

/-- The bytes stored by the inner loop of `rgb2gdkImage` for zoom row `i`, starting at
`lip`. -/
def rgb2gdk_row_bytes (E : RgbEnv) (ctxcanvas : cdCtxCanvas) (P : RgbPlanes) (xim : GdkImage)
    (fx fy : List Int) (ew eh iw : Int) (i : Nat) : List Nat :=
  (List.range ew.toNat).flatMap fun (j : Nat) =>
    let src := fy.getD i 0 * iw + fx.getD j 0
    let c := rgb2gdk_channels E ctxcanvas P src j (eh - i - 1)
    let xcol := rgb2gdk_xcol ctxcanvas E.direct_color E.cdgdkDirectColorTable c.1 c.2.1 c.2.2
    rgb2gdk_bytes xim.bits_per_pixel xim.byte_order xcol

/-- The value of `lip` in zoom row `i` of `rgb2gdkImage`, as a byte offset from
`imagedata`: `(eh - 1) * bperline` lowered by `bperline` after each row. -/
def rgb2gdk_lip (eh bperline : Int) (i : Nat) : Int :=
  (eh - 1) * bperline - (i : Int) * bperline

/-- Function `rgb2gdkImage`: the returned image (`none` is NULL) and the canvas state
(`by_` is the parameter `by`). -/
def rgb2gdkImage (E : RgbEnv) (ctxcanvas : cdCtxCanvas) (ew eh : Int) (P : RgbPlanes)
    (by_ bx bw bh iw : Int) : Option GdkImage × cdCtxCanvas :=
  match E.xim with
  | none => (none, ctxcanvas)
  | some xim =>
    let bperline : Int := xim.bpl
    let bperpix := xim.bits_per_pixel
    if bperpix ≠ 8 ∧ bperpix ≠ 16 ∧ bperpix ≠ 24 ∧ bperpix ≠ 32 then (none, ctxcanvas)
    else
      let r := get_data_buffer ctxcanvas (eh * bperline) E.alloc
      match r.1 with
      | none => (none, r.2)
      | some imagedata =>
        let fx := E.zoomTable ew bw bx
        let fy := E.zoomTable eh bh by_
        let mem := (List.range eh.toNat).foldl
          (fun m (i : Nat) => write_bytes m (rgb2gdk_lip eh bperline i)
            (rgb2gdk_row_bytes E r.2 P xim fx fy ew eh iw i)) imagedata.mem
        let c := { r.2 with xidata := some { imagedata with mem := mem } }
        let xim := { xim with mem := fun k => if 0 ≤ k ∧ k < eh * bperline then mem k
                                               else xim.mem k }
        (some xim, c)

/-- An environment for `rgb2gdkImage`: a 2 x 2 image of `bpp` bits per pixel with 8 bytes
per line, LSB first, a successful allocation, no direct-colour visual, an inverse
resolver that splits the pixel into its three low bytes, and a destination image of
pixel value 10. -/
def rgb_env (bpp : Nat) : RgbEnv :=
  { xim := some { byte_order := .GDK_LSB_FIRST, depth := 24, bpp := 4, bpl := 8,
                  bits_per_pixel := bpp, mem := fun _ => 0 }
    alloc := alloc_ok
    direct_color := false
    cdgdkGetRGB := fun _ p => ((p >>> 16) &&& 0xff, (p >>> 8) &&& 0xff, p &&& 0xff)
    cdgdkDirectColorTable := fun i => i
    blend := CD_ALPHA_BLEND
    zoomTable := cdGetZoomTable
    oxi_pixel := fun _ _ => 10 }

/-- Source planes of constant colour (200, 100, 0) with the given alpha plane. -/
def rgb_planes (alpha : Option (Int → Nat)) : RgbPlanes :=
  { red := fun _ => 200, green := fun _ => 100, blue := fun _ => 0, alpha := alpha }

/-- A canvas context on the 24-bit visual `vis888`. -/
def ctx888 : cdCtxCanvas :=
  { canvas := { w := 4, h := 4, combine_mode := .CD_UNION, new_region := false,
                use_matrix := false }
    new_region := none
    region_aux := { w := 0, h := 0, px := fun _ _ => false }
    region_aux_gc := { function := .GDK_COPY, foreground := 0, background := 0 }
    wnd_log := []
    vis := vis888
    depth := 24 }

/-! ## Indexed packer `map2gdkImage` -/

/-- The only address ever stored in `match_table`: that of the local `tmpClr`. -/
inductive ClrRef where
  | tmpClr
  deriving DecidableEq, Repr

/-- A store through a NULL pointer. -/
inductive MapFault where
  | null_store
  deriving DecidableEq, Repr

/-- One store `*p = value` of `size` bytes at byte offset `off` from `imagedata`. -/
structure Store where
  off : Int
  size : Nat
  value : Nat
  deriving DecidableEq, Repr

/-- What `map2gdkImage` takes from outside the driver file: the function behind the
pointer `cdgdkGetPixel` (it may change the canvas state), the result of `gdk_image_new`,
the outcome of the allocator call `get_data_buffer` may make, the function
`cdGetZoomTable` of the CD core, whether the host stores multi-byte units low byte
first, the value read through a `match_table` slot that was never set, and the content
of the uninitialised local `tmpClr`. -/
structure MapEnv where
  cdgdkGetPixel : cdCtxCanvas → Nat → GdkColor × cdCtxCanvas
  xim : Option GdkImage
  alloc : AllocOutcome
  zoomTable : Int → Int → Int → List Int
  host_lsb : Bool
  wild_pixel : Nat
  tmpClr0 : GdkColor

/-- The palette-size scan of `map2gdkImage`: the largest index found in rows
`by .. by+bh-1`, columns `bx .. bx+bw-1` of the source, then `pal_size++`. -/
def map2gdk_pal_size (index : Int → Nat) (by_ bx bw bh iw : Int) : Int :=
  (List.range bh.toNat).foldl (fun pal_size (i : Nat) =>
    (List.range bw.toNat).foldl (fun pal_size (j : Nat) =>
      let src := ((i : Int) + by_) * iw + (j : Int) + bx
      let idx : Int := index src
      if idx > pal_size then idx else pal_size) pal_size) 0 + 1

/-- State of the palette loop of `map2gdkImage`: the canvas, the local `tmpClr`, and the
slots of `match_table` set so far. -/
structure MatchState where
  ctx : cdCtxCanvas
  tmpClr : GdkColor
  table : Nat → Option ClrRef

/-- The palette loop of `map2gdkImage`, `for (i = 0; i < pal_size; i++)`:
`tmpClr = cdgdkGetPixel(ctxcanvas, colors[i]); match_table[i] = &tmpClr;`.
`match_table = none` is the NULL pointer, through which the store faults. -/
def map2gdk_fill_table (E : MapEnv) (colors : Int → Nat)
    (match_table : Option (Nat → Option ClrRef)) (st : MatchState) :
    List Nat → Except MapFault MatchState
  | [] => .ok st
  | i :: rest =>
    let r := E.cdgdkGetPixel st.ctx (colors i)
    match match_table with
    | none => .error .null_store
    | some _ =>
      map2gdk_fill_table E colors match_table
        { ctx := r.2, tmpClr := r.1
          table := fun k => if k = i then some .tmpClr else st.table k } rest

/-- The value of `match_table[k]->pixel` after the palette loop. -/
def map2gdk_lookup (E : MapEnv) (st : MatchState) (k : Nat) : Nat :=
  match st.table k with
  | some .tmpClr => st.tmpClr.pixel
  | none => E.wild_pixel

/-- The bytes a store leaves in memory, in address order. -/
def Store.bytes (host_lsb : Bool) (s : Store) : List Nat :=
  let le := (List.range s.size).map fun (k : Nat) => (s.value >>> (8 * k)) &&& 0xff
  if host_lsb then le else le.reverse

/-- Memory after a list of stores, done in order. -/
def apply_stores (host_lsb : Bool) (mem : Int → Nat) (stores : List Store) : Int → Nat :=
  stores.foldl (fun m s => write_bytes m s.off (s.bytes host_lsb)) mem

/-- The source offset `src = fy[i]*iw + fx[j]` used by the packing loops. -/
def map2gdk_src (fx fy : List Int) (iw : Int) (i j : Nat) : Int :=
  fy.getD i 0 * iw + fx.getD j 0

/-- The padded row length `imew` of the 8-bit branch:
`nullCount = (4 - (ew % 4)) & 0x03; imew = ew + nullCount`. -/
def map2gdk_imew (ew : Int) : Int :=
  ew + (4 - Int.tmod ew 4) % 4

/-- The stores of the 8-bit branch of `map2gdkImage`.  The loop body is
`ip = (unsigned char*) match_table[index[src]]->pixel;`, an assignment to the pointer
`ip` itself: no byte of the buffer is stored. -/
def map2gdk_stores_8 (_lookup : Nat → Nat) (_index : Int → Nat) (_fx _fy : List Int)
    (_ew _eh _iw : Int) : List Store :=
  []

/-- The stores of the 12/15/16-bit branch: `ip` starts at `imagedata + (eh-1)*xim->bpl`
and is lowered by `ew` units of `unsigned short` after each row; each pixel is one
16-bit store (the two byte orders store the same value). -/
def map2gdk_stores_16 (lookup : Nat → Nat) (index : Int → Nat) (fx fy : List Int)
    (xim : GdkImage) (ew eh iw : Int) : List Store :=
  (List.range eh.toNat).flatMap fun (i : Nat) =>
    let ip : Int := (eh - 1) * (xim.bpl : Int) - 2 * ((i : Int) * ew)
    (List.range ew.toNat).map fun (j : Nat) =>
      let xcol := lookup (index (map2gdk_src fx fy iw i j))
      let v := if xim.byte_order = .GDK_MSB_FIRST then xcol &&& 0xffff else xcol % 65536
      { off := ip + 2 * (j : Int), size := 2, value := v }

/-- The bytes stored for one pixel by the 24/32-bit branch. -/
def map2gdk_bytes_24 (do32 : Bool) (byte_order : GdkByteOrder) (xcol : Nat) : List Nat :=
  if byte_order = .GDK_MSB_FIRST then
    (if do32 then [0] else []) ++
      [(xcol >>> 16) &&& 0xff, (xcol >>> 8) &&& 0xff, xcol &&& 0xff]
  else
    [xcol &&& 0xff, (xcol >>> 8) &&& 0xff, (xcol >>> 16) &&& 0xff] ++
      (if do32 then [0] else [])

/-- The value of `ip` in zoom row `i` of the 24/32-bit branch, as a byte offset from
`imagedata`: `(eh-1)*xim->bpl`, lowered by `xim->bpl` after each row. -/
def map2gdk_ip_24 (xim : GdkImage) (eh : Int) (i : Nat) : Int :=
  (eh - 1) * (xim.bpl : Int) - (i : Int) * (xim.bpl : Int)

/-- The stores of the 24/32-bit branch: byte stores through `tip`, which starts at `ip`
in each row. -/
def map2gdk_stores_24 (lookup : Nat → Nat) (index : Int → Nat) (fx fy : List Int)
    (xim : GdkImage) (ew eh iw : Int) : List Store :=
  let do32 := decide (xim.bits_per_pixel = 32)
  (List.range eh.toNat).flatMap fun (i : Nat) =>
    let row := (List.range ew.toNat).flatMap fun (j : Nat) =>
      map2gdk_bytes_24 do32 xim.byte_order (lookup (index (map2gdk_src fx fy iw i j)))
    (List.range row.length).map fun (k : Nat) =>
      { off := map2gdk_ip_24 xim eh i + (k : Int), size := 1, value := row.getD k 0 }

/-- The stores of the default branch: `imagedata[dst] = pixel` on an array of
`unsigned long`, `dst = (eh-1 - i)*ew + j`. -/
def map2gdk_stores_default (lookup : Nat → Nat) (index : Int → Nat) (fx fy : List Int)
    (ew eh iw : Int) : List Store :=
  (List.range eh.toNat).flatMap fun (i : Nat) =>
    (List.range ew.toNat).map fun (j : Nat) =>
      let dst : Int := (eh - 1 - (i : Int)) * ew + (j : Int)
      { off := (ULONG_BITS / 8 : Nat) * dst, size := ULONG_BITS / 8
        value := lookup (index (map2gdk_src fx fy iw i j)) }

/-- A value stored into a `guint16` member, after the `(short)` cast of the source. -/
def to_u16 (v : Int) : Nat := (v % 65536).toNat

/-- The scratch buffer of the canvas after the stores of a packing loop. -/
def store_to_xidata (host_lsb : Bool) (c : cdCtxCanvas) (imagedata : XiData)
    (stores : List Store) : cdCtxCanvas :=
  { c with xidata := some { imagedata with mem := apply_stores host_lsb imagedata.mem stores } }

/-- Body of `map2gdkImage` after the declarations, for a given initial value of the
pointer `match_table` (`none` is NULL).  A fault is a store through NULL; otherwise the
returned image (`none` is NULL) and the canvas state (`by_` is the parameter `by`). -/
def map2gdkImage_from (E : MapEnv) (match_table : Option (Nat → Option ClrRef))
    (ctxcanvas : cdCtxCanvas) (ew eh : Int) (index : Int → Nat) (colors : Int → Nat)
    (by_ bx bw bh iw : Int) : Except MapFault (Option GdkImage × cdCtxCanvas) :=
  let pal_size := map2gdk_pal_size index by_ bx bw bh iw
  let st0 : MatchState :=
    { ctx := ctxcanvas, tmpClr := E.tmpClr0, table := match_table.getD (fun _ => none) }
  match map2gdk_fill_table E colors match_table st0 (List.range pal_size.toNat) with
  | .error f => .error f
  | .ok st =>
    let fx := E.zoomTable ew bw bx
    let fy := E.zoomTable eh bh by_
    let lookup := map2gdk_lookup E st
    let depth := st.ctx.depth
    if depth = 8 then
      let imew := map2gdk_imew ew
      let r := get_data_buffer st.ctx (eh * imew) E.alloc
      match r.1 with
      | none => .ok (none, r.2)
      | some imagedata =>
        let c := store_to_xidata E.host_lsb r.2 imagedata
          (map2gdk_stores_8 lookup index fx fy ew eh iw)
        match E.xim with
        | none => .ok (none, c)
        | some xim =>
          .ok (some { xim with depth := to_u16 depth, bpp := 32, bpl := to_u16 imew }, c)
    else if depth = 12 ∨ depth = 15 ∨ depth = 16 then
      let r := get_data_buffer st.ctx (2 * ew * eh) E.alloc
      match r.1 with
      | none => .ok (none, r.2)
      | some imagedata =>
        match E.xim with
        | none => .ok (none, r.2)
        | some xim =>
          let xim := { xim with depth := to_u16 depth, bpp := 16, bpl := 0 }
          if depth = 12 ∧ xim.bits_per_pixel ≠ 16 then .ok (none, r.2)
          else
            .ok (some xim, store_to_xidata E.host_lsb r.2 imagedata
              (map2gdk_stores_16 lookup index fx fy xim ew eh iw))
    else if depth = 24 ∨ depth = 32 then
      let r := get_data_buffer st.ctx (4 * ew * eh) E.alloc
      match r.1 with
      | none => .ok (none, r.2)
      | some imagedata =>
        match E.xim with
        | none => .ok (none, r.2)
        | some xim =>
          let xim := { xim with depth := to_u16 depth, bpp := 32, bpl := 0 }
          .ok (some xim, store_to_xidata E.host_lsb r.2 imagedata
            (map2gdk_stores_24 lookup index fx fy xim ew eh iw))
    else
      let r := get_data_buffer st.ctx (4 * ew * eh) E.alloc
      match r.1 with
      | none => .ok (none, r.2)
      | some imagedata =>
        match E.xim with
        | none => .ok (none, r.2)
        | some xim =>
          let xim := { xim with depth := to_u16 depth, bpp := 32, bpl := to_u16 (ew * 4) }
          let xim := { xim with bits_per_pixel := 32, bpl := to_u16 (4 * iw)
                                byte_order := .GDK_MSB_FIRST }
          .ok (some xim, store_to_xidata E.host_lsb r.2 imagedata
            (map2gdk_stores_default lookup index fx fy ew eh iw))

/-- Function `map2gdkImage`: the body run with `GdkColor** match_table = NULL`. -/
def map2gdkImage (E : MapEnv) (ctxcanvas : cdCtxCanvas) (ew eh : Int) (index : Int → Nat)
    (colors : Int → Nat) (by_ bx bw bh iw : Int) :
    Except MapFault (Option GdkImage × cdCtxCanvas) :=
  map2gdkImage_from E none ctxcanvas ew eh index colors by_ bx bw bh iw

/-- An environment for `map2gdkImage`: a resolver whose device pixel is the colour value
itself, an image of `bpp` bits per pixel, LSB first, and a successful allocation. -/
def map_env (bpp : Nat) : MapEnv :=
  { cdgdkGetPixel := fun c rgb => ({ pixel := rgb, red := 0, green := 0, blue := 0 }, c)
    xim := some { byte_order := .GDK_LSB_FIRST, depth := 24, bpp := 4, bpl := 8,
                  bits_per_pixel := bpp, mem := fun _ => 0 }
    alloc := alloc_ok
    zoomTable := cdGetZoomTable
    host_lsb := true
    wild_pixel := 0
    tmpClr0 := { pixel := 0, red := 0, green := 0, blue := 0 } }

/-- A two-colour palette: index 0 is 0x111111, every other index 0x222222. -/
def two_colors (i : Int) : Nat := if i = 0 then 0x111111 else 0x222222

/-- A source image whose pixel at offset 0 has index 0 and every other pixel index 1. -/
def two_index (src : Int) : Nat := if src = 0 then 0 else 1


/-! ## Palette-limited colour resolver -/

/-- The window-system colormap as the driver sees it, over a state `σ` of the colormap.
`alloc_color` is `gdk_colormap_alloc_color(colormap, &color, FALSE, TRUE)`: `none` is a
FALSE result (the colour is left as it was), `some c` a TRUE result with `c` the colour
as filled in, its `pixel` being the slot.  `alloc_colors` is
`gdk_colormap_alloc_colors(colormap, colors, ncolors, FALSE, TRUE, &success)` and gives
the array as filled in. -/
structure CmapOps (σ : Type) where
  alloc_color : σ → GdkColor → σ × Option GdkColor
  alloc_colors : σ → (Nat → GdkColor) → Nat → σ × (Nat → GdkColor)

/-- Function `update_colors`. -/
def update_colors {σ : Type} (ops : CmapOps σ) (cm : σ) (ctxcanvas : cdCtxCanvas) :
    σ × cdCtxCanvas :=
  let r := ops.alloc_colors cm ctxcanvas.color_table ctxcanvas.num_colors
  (r.1, { ctxcanvas with color_table := r.2 })

/-- What a call of `nearest_rgb` leaves: the returned pixel, the colormap and canvas
states, the static flag `nearest_try`, and for the whole call the number of `find_color`
scans, the number of `update_colors` refreshes and the slot `pos` found by the last
scan. -/
structure NearestResult (σ : Type) where
  pixel : Nat
  cm : σ
  ctx : cdCtxCanvas
  nearest_try : Int
  scans : Nat
  refreshes : Nat
  pos : Nat

/-- Function `nearest_rgb`, with the static `nearest_try` passed in and out; `fuel`
bounds the depth of the recursion (`none` when it runs out).  The colour handed to
`gdk_colormap_alloc_color` is the table entry itself, which a TRUE result overwrites. -/
def nearest_rgb {σ : Type} (ops : CmapOps σ) :
    Nat → σ → Int → cdCtxCanvas → GdkColor → Option (NearestResult σ)
  | 0, _, _, _, _ => none
  | fuel + 1, cm, nearest_try, ctxcanvas, clr =>
    let pos := find_color ctxcanvas clr
    let r := ops.alloc_color cm (ctxcanvas.color_table pos)
    match r.2 with
    | none =>
      if nearest_try = 1 then
        some { pixel := (ctxcanvas.color_table pos).pixel, cm := r.1, ctx := ctxcanvas
               nearest_try := 0, scans := 1, refreshes := 0, pos := pos }
      else
        let u := update_colors ops r.1 ctxcanvas
        (nearest_rgb ops fuel u.1 1 u.2 clr).map fun res =>
          { res with scans := res.scans + 1, refreshes := res.refreshes + 1 }
    | some c =>
      let ctx1 := { ctxcanvas with
        color_table := fun k => if k = pos then c else ctxcanvas.color_table k }
      some { pixel := (ctx1.color_table pos).pixel, cm := r.1, ctx := ctx1
             nearest_try := nearest_try, scans := 1, refreshes := 0, pos := pos }

/-- What a call of `not_truecolor_get_pixel` leaves: the returned colour, the colormap
and canvas states and the static flag of `nearest_rgb`. -/
structure GetPixelResult (σ : Type) where
  clr : GdkColor
  cm : σ
  ctx : cdCtxCanvas
  nearest_try : Int

/-- Function `not_truecolor_get_pixel`.  `clr0` is the content of the uninitialised local
`clr`; `fuel` bounds the recursion of `nearest_rgb`. -/
def not_truecolor_get_pixel {σ : Type} (M : CdMacros) (ops : CmapOps σ) (fuel : Nat)
    (cm : σ) (nearest_try : Int) (ctxcanvas : cdCtxCanvas) (clr0 : GdkColor) (rgb : Nat) :
    Option (GetPixelResult σ) :=
  let clr := { clr0 with red := M.cdCOLOR8TO16 (M.cdRed rgb) % 65536 }
  let clr := { clr with green := M.cdCOLOR8TO16 (M.cdGreen rgb) % 65536 }
  let clr := { clr with blue := M.cdCOLOR8TO16 (M.cdBlue rgb) % 65536 }
  let r := ops.alloc_color cm clr
  match r.2 with
  | none =>
    (nearest_rgb ops fuel r.1 nearest_try ctxcanvas clr).map fun res =>
      { clr := { clr with pixel := res.pixel }, cm := res.cm, ctx := res.ctx
        nearest_try := res.nearest_try }
  | some c =>
    some { clr := c, cm := r.1
           ctx := { ctxcanvas with
             color_table := fun k => if k = c.pixel then c else ctxcanvas.color_table k }
           nearest_try := nearest_try }

/-- A colormap whose state is the list of outcomes of the coming
`gdk_colormap_alloc_color` calls (`none`: FALSE, `some p`: TRUE with slot `p`; TRUE once
the list is used up with slot 0); `gdk_colormap_alloc_colors` leaves the table as it is. -/
def scripted_cmap : CmapOps (List (Option Nat)) :=
  { alloc_color := fun s c =>
      match s with
      | [] => ([], some { c with pixel := 0 })
      | none :: rest => (rest, none)
      | some p :: rest => (rest, some { c with pixel := p })
    alloc_colors := fun s t _ => (s, t) }

/-- The colour macros as usually defined: the channels are the three bytes of the value,
widened by 257 and narrowed by 257. -/
def usual_macros : CdMacros :=
  { cdRed := fun c => (c >>> 16) &&& 0xff
    cdGreen := fun c => (c >>> 8) &&& 0xff
    cdBlue := fun c => c &&& 0xff
    cdCOLOR8TO16 := fun x => x * 257
    cdCOLOR16TO8 := fun x => x / 257 }

/-- The colour `not_truecolor_get_pixel` asks the colormap for: the local `clr` with its
three channels set from `rgb`. -/
def requested_color (M : CdMacros) (clr0 : GdkColor) (rgb : Nat) : GdkColor :=
  { pixel := clr0.pixel
    red := M.cdCOLOR8TO16 (M.cdRed rgb) % 65536
    green := M.cdCOLOR8TO16 (M.cdGreen rgb) % 65536
    blue := M.cdCOLOR8TO16 (M.cdBlue rgb) % 65536 }

/-! ## Pattern palette of `cdpattern` -/

/-- Function `find_match`: `none` is the result 0, `some m` the result 1 with `*match`
set to `m`, the first index below `pal_size` holding `color`, cast to `unsigned char`. -/
def find_match (palette : Nat → Nat) (pal_size : Nat) (color : Nat) : Option Nat :=
  ((List.range pal_size).find? fun i => palette i == color).map fun i => i % 256

/-- State of the palette loop of `cdpattern`: the array `palette`, `pal_size`, the array
`index`, and whether the loop was left through `break`. -/
structure PatState where
  palette : Nat → Nat
  pal_size : Nat
  index : Nat → Nat
  stopped : Bool

/-- Body of the palette loop of `cdpattern` for pixel `i` (skipped once the loop was left
through `break`). -/
def cdpattern_step (colors : Nat → Nat) (st : PatState) (i : Nat) : PatState :=
  if st.stopped then st
  else
    match find_match st.palette st.pal_size (colors i) with
    | none =>
      { palette := fun k => if k = st.pal_size then colors i else st.palette k
        index := fun k => if k = i then st.pal_size % 256 else st.index k
        pal_size := st.pal_size + 1
        stopped := decide (st.pal_size + 1 = 256) }
    | some m => { st with index := fun k => if k = i then m else st.index k }

/-- The palette loop of `cdpattern` over the `size` pixels, from `pal_size = 1` and
`palette[0] = colors[0]`; `palette0` and `index0` are the undefined initial contents of
the two arrays. -/
def cdpattern_palette (colors : Nat → Nat) (size : Nat) (palette0 index0 : Nat → Nat) :
    PatState :=
  (List.range size).foldl (cdpattern_step colors)
    { palette := fun k => if k = 0 then colors 0 else palette0 k
      pal_size := 1
      index := index0
      stopped := false }

/-- The loop `match_table[i] = cdgdkGetPixel(ctxcanvas, palette[i])` of `cdpattern`, and
likewise `pixels[i] = cdgdkGetPixel(ctxcanvas, colors[i])` of the other branch: the array
filled over the indices of `l`, and the canvas state.  `getPixel` is the function behind
the pointer `cdgdkGetPixel`. -/
def cdpattern_resolve (getPixel : cdCtxCanvas → Nat → GdkColor × cdCtxCanvas)
    (values : Nat → Nat) (l : List Nat) (st : cdCtxCanvas × (Nat → GdkColor)) :
    cdCtxCanvas × (Nat → GdkColor) :=
  l.foldl (fun st i =>
    let r := getPixel st.1 (values i)
    (r.2, fun k => if k = i then r.1 else st.2 k)) st

/-- The part of `cdpattern` that fills `pixels`: through the palette when
`canvas->bpp <= 8`, else colour by colour.  Returns `pixels` (its entries below `size`)
and the canvas state; `pixels0`, `palette0`, `index0`, `table0` are the undefined initial
contents of the arrays. -/
def cdpattern_pixels (getPixel : cdCtxCanvas → Nat → GdkColor × cdCtxCanvas)
    (ctxcanvas : cdCtxCanvas) (size : Nat) (colors : Nat → Nat)
    (pixels0 table0 : Nat → GdkColor) (palette0 index0 : Nat → Nat) :
    (Nat → GdkColor) × cdCtxCanvas :=
  if ctxcanvas.canvas.bpp ≤ 8 then
    let st := cdpattern_palette colors size palette0 index0
    let r := cdpattern_resolve getPixel st.palette (List.range st.pal_size) (ctxcanvas, table0)
    (fun i => if i < size then r.2 (st.index i) else pixels0 i, r.1)
  else
    let r := cdpattern_resolve getPixel colors (List.range size) (ctxcanvas, pixels0)
    (r.2, r.1)

/-- Pixel `i` is the first pixel of the pattern with colour `c`. -/
def first_occ (colors : Nat → Nat) (i : Nat) (c : Nat) : Prop :=
  colors i = c ∧ ∀ j, j < i → colors j ≠ c

/-- Invariant of the palette loop of `cdpattern` after the pixels `0 .. n-1`: every
palette entry is the colour of a first occurrence among the pixels seen, every pixel seen
has an index whose palette entry is its colour, and the palette is in order of first
occurrence. -/
def PatInv (colors : Nat → Nat) (n : Nat) (st : PatState) : Prop :=
  1 ≤ st.pal_size ∧
  (∀ k, k < st.pal_size → ∃ i, i < max n 1 ∧ first_occ colors i (st.palette k)) ∧
  (∀ i, i < n → st.index i < st.pal_size ∧ st.palette (st.index i) = colors i) ∧
  (∀ k k2 i i2, k < k2 → k2 < st.pal_size → first_occ colors i (st.palette k) →
    first_occ colors i2 (st.palette k2) → i < i2)

/-- A pattern of four pixels with the colours 7, 9, 7, 5. -/
def pattern4 (i : Nat) : Nat :=
  if i = 0 then 7 else if i = 1 then 9 else if i = 2 then 7 else 5

/-! ## Byte layout of the packers -/

/-- A canvas context of depth 8. -/
def ctx_depth8 : cdCtxCanvas := { ctx888 with depth := 8 }

/-- An environment for `map2gdkImage` whose allocator returns a block holding the bytes
`fresh`. -/
def map_env_fresh (bpp : Nat) (fresh : Int → Nat) : MapEnv :=
  { map_env bpp with alloc := { block := some 4096, fresh := fresh } }

/-- The value of a byte sequence read most significant byte first (big-endian). -/
def be_value (bytes : List Nat) : Nat :=
  bytes.foldl (fun acc b => acc * 256 + b) 0

/-- The value of a byte sequence read least significant byte first (little-endian). -/
def le_value (bytes : List Nat) : Nat :=
  bytes.foldr (fun b acc => b + 256 * acc) 0

/-! ## Direct-colour table of `makeDirectCmap` -/

/-- One visual mask as `makeDirectCmap` shifts it: `shift = highbit(mask) - 15`, left by
`-shift` when the shift is negative (in `unsigned long`), else right by `shift`. -/
def makeDirectCmap_mask (mask : Nat) : Nat :=
  let shift := highbit mask - 15
  if shift < 0 then (mask <<< (-shift).toNat) % 2 ^ ULONG_BITS else mask >>> shift.toNat

/-- The value of `cmaplen` in `makeDirectCmap`: the colormap size, at most 256. -/
def makeDirectCmap_cmaplen (ctxcanvas : cdCtxCanvas) : Int :=
  let cmaplen := ctxcanvas.vis.colormap_size
  if cmaplen > 256 then 256 else cmaplen

/-- State of the probing loop of `makeDirectCmap`: the colormap, the array `origgot`, the
count `numgot` and the local colour `c`. -/
structure DirectProbe (σ : Type) where
  cm : σ
  origgot : Nat → Nat
  numgot : Int
  c : GdkColor

/-- The colour the probing loop asks for at level `i`: the gray
`(unsigned short)((i * 0xffff) / (cmaplen - 1))` with each channel ANDed with its shifted
mask; `c` is the local as the previous iteration left it. -/
def makeDirectCmap_color (ctxcanvas : cdCtxCanvas) (c : GdkColor) (i : Nat) : GdkColor :=
  let rmask := makeDirectCmap_mask ctxcanvas.vis.red_mask
  let gmask := makeDirectCmap_mask ctxcanvas.vis.green_mask
  let bmask := makeDirectCmap_mask ctxcanvas.vis.blue_mask
  let v := (Int.tdiv ((i : Int) * 0xffff) (makeDirectCmap_cmaplen ctxcanvas - 1) % 65536).toNat
  let c := { c with red := v, green := v, blue := v }
  let c := { c with red := (c.red &&& rmask) % 65536 }
  let c := { c with green := (c.green &&& gmask) % 65536 }
  let c := { c with blue := (c.blue &&& bmask) % 65536 }
  c

/-- Body of the probing loop of `makeDirectCmap` at level `i`. -/
def makeDirectCmap_probe_step {σ : Type} (ops : CmapOps σ) (ctxcanvas : cdCtxCanvas)
    (st : DirectProbe σ) (i : Nat) : DirectProbe σ :=
  let c := makeDirectCmap_color ctxcanvas st.c i
  let r := ops.alloc_color st.cm c
  match r.2 with
  | some c2 =>
    { cm := r.1, origgot := fun k => if k = i then 1 else st.origgot k
      numgot := st.numgot + 1, c := c2 }
  | none => { st with cm := r.1, c := c }

/-- The probing loop of `makeDirectCmap` after its first `n` levels, from `origgot` all 0
and `numgot = 0`; `c0` is the content of the uninitialised local `c`. -/
def makeDirectCmap_probe {σ : Type} (ops : CmapOps σ) (cm : σ) (ctxcanvas : cdCtxCanvas)
    (c0 : GdkColor) (n : Nat) : DirectProbe σ :=
  (List.range n).foldl (makeDirectCmap_probe_step ops ctxcanvas)
    { cm := cm, origgot := fun _ => 0, numgot := 0, c := c0 }

/-- Loop `while ((i - numbak) >= 0 && !origgot[i-numbak]) numbak++;` of `makeDirectCmap`;
`fuel` bounds the number of iterations. -/
def makeDirectCmap_numbak (origgot : Nat → Nat) (i : Int) : Nat → Int → Int
  | 0, numbak => numbak
  | fuel + 1, numbak =>
    if i - numbak ≥ 0 ∧ origgot (i - numbak).toNat = 0 then
      makeDirectCmap_numbak origgot i fuel (numbak + 1)
    else numbak

/-- Loop `while ((i + numfwd) < cmaplen && !origgot[i+numfwd]) numfwd++;` of
`makeDirectCmap`; `fuel` bounds the number of iterations. -/
def makeDirectCmap_numfwd (origgot : Nat → Nat) (cmaplen i : Int) : Nat → Int → Int
  | 0, numfwd => numfwd
  | fuel + 1, numfwd =>
    if i + numfwd < cmaplen ∧ origgot (i + numfwd).toNat = 0 then
      makeDirectCmap_numfwd origgot cmaplen i fuel (numfwd + 1)
    else numfwd

/-- Body of the hole-filling loop of `makeDirectCmap` at level `i`.  Each inner loop
leaves after at most 256 increments, so 257 units of fuel let it run to its end. -/
def makeDirectCmap_fill_step (origgot : Nat → Nat) (cmaplen : Int) (table : Nat → Nat)
    (i : Nat) : Nat → Nat :=
  if origgot i = 0 then
    let numbak := makeDirectCmap_numbak origgot i 257 0
    let numfwd := makeDirectCmap_numfwd origgot cmaplen i 257 0
    let numbak :=
      if (i : Int) - numbak < 0 ∨ origgot ((i : Int) - numbak).toNat = 0 then 999 else numbak
    let numfwd :=
      if (i : Int) + numfwd ≥ cmaplen ∨ origgot ((i : Int) + numfwd).toNat = 0 then 999
      else numfwd
    if numbak < numfwd then
      fun k => if k = i then table ((i : Int) - numbak).toNat else table k
    else if numfwd < 999 then
      fun k => if k = i then table ((i : Int) + numfwd).toNat else table k
    else table
  else table

/-- Function `makeDirectCmap`: the colormap state and the global
`cdgdkDirectColorTable` it leaves (`table0` is the table on entry, of which the 256
entries are overwritten).  With `cmaplen = 1` the first probe divides by zero (`none`). -/
def makeDirectCmap {σ : Type} (ops : CmapOps σ) (cm : σ) (ctxcanvas : cdCtxCanvas)
    (c0 : GdkColor) (table0 : Nat → Nat) : Option (σ × (Nat → Nat)) :=
  let cmaplen := makeDirectCmap_cmaplen ctxcanvas
  let table : Nat → Nat := fun k => if k < 256 then k else table0 k
  if cmaplen = 1 then none
  else
    let P := makeDirectCmap_probe ops cm ctxcanvas c0 cmaplen.toNat
    if P.numgot = 0 then some (P.cm, table)
    else
      some (P.cm, (List.range cmaplen.toNat).foldl
        (makeDirectCmap_fill_step P.origgot cmaplen) table)

/-- The distance between two gray levels. -/
def level_dist (a b : Nat) : Nat := if a ≤ b then b - a else a - b

/-- A canvas context whose visual has a colormap of 4 entries. -/
def ctx_cmap4 : cdCtxCanvas :=
  { ctx888 with vis := { vis888 with colormap_size := 4 } }

/-- A pattern of 257 pixels with the colours 0, 1, ..., 255, 0. -/
def pattern257 (i : Nat) : Nat := i % 256

/-- A palette context of two entries: red 100 at slot 0 and black at slot 1. -/
def near_ctx : cdCtxCanvas :=
  { palette_ctx with
    color_table := fun i => { pixel := i, red := if i = 0 then 100 else 0, green := 0, blue := 0 }
    num_colors := 2 }

/-! ## Affine compositors -/

/-- What the affine compositors take from the CD core (not part of the driver file): the
destination limits computed by `cdImageRGBCalcDstLimits`, the function
`cdImageRGBInverseTransform` giving `(i_x, i_y)` for a destination pixel, the
interpolators `cdBilinearInterpolation` and `cdZeroOrderInterpolation` on a source
plane, and the outcome of the `malloc` call.  The `float` coordinates are taken as
rationals. -/
structure MatrixEnv where
  t_xmin : Int
  t_xmax : Int
  t_ymin : Int
  t_ymax : Int
  inverse : Int → Int → ℚ × ℚ
  bilinear : (Int → Nat) → ℚ → ℚ → Nat
  zero_order : (Int → Nat) → ℚ → ℚ → Nat
  alloc : AllocOutcome

/-- The width `ew = t_xmax - t_xmin + 1` of the destination area. -/
def matrix_ew (M : MatrixEnv) : Int := M.t_xmax - M.t_xmin + 1

/-- The height `eh = t_ymax - t_ymin + 1` of the destination area. -/
def matrix_eh (M : MatrixEnv) : Int := M.t_ymax - M.t_ymin + 1

/-- The offset `doff = (t_x - t_xmin) + dst_offset` with
`dst_offset = (t_y - t_ymin) * ew`. -/
def matrix_doff (M : MatrixEnv) (t_x t_y : Int) : Int :=
  (t_x - M.t_xmin) + (t_y - M.t_ymin) * matrix_ew M

/-- The extent test `i_x > xmin && i_y > ymin && i_x < xmax+1 && i_y < ymax+1`. -/
def matrix_test (i : ℚ × ℚ) (xmin xmax ymin ymax : Int) : Bool :=
  decide (i.1 > (xmin : ℚ) ∧ i.2 > (ymin : ℚ) ∧ i.1 < ((xmax + 1 : Int) : ℚ) ∧
    i.2 < ((ymax + 1 : Int) : ℚ))

/-- The byte stores of the scanning loops of the affine compositors, in order, as pairs
of offset and value: for `t_y` from `t_ymin` to `t_ymax` and `t_x` from `t_xmin` to
`t_xmax`, the stores `pixel` of a destination pixel whose inverse-mapped coordinate
passes the extent test. -/
def matrix_stores (M : MatrixEnv) (xmin xmax ymin ymax : Int)
    (pixel : ℚ × ℚ → Int → List (Int × Nat)) : List (Int × Nat) :=
  (List.range (matrix_eh M).toNat).flatMap fun (ry : Nat) =>
    let t_y := M.t_ymin + (ry : Int)
    (List.range (matrix_ew M).toNat).flatMap fun (rx : Nat) =>
      let t_x := M.t_xmin + (rx : Int)
      let i := M.inverse t_x t_y
      if matrix_test i xmin xmax ymin ymax then pixel i (matrix_doff M t_x t_y) else []

/-- Memory after a list of `unsigned char` stores, done in order. -/
def byte_stores (mem : Int → Nat) (stores : List (Int × Nat)) : Int → Nat :=
  stores.foldl (fun m s => fun k => if k = s.1 then s.2 % 256 else m k) mem

/-- The part of `cdputimagerectmap_matrix` that fills `dst_index`: `malloc(size)`,
`memset` to 0, then the scanning loop; `none` is the early return on a NULL block. -/
def cdputimagerectmap_matrix_fill (M : MatrixEnv) (index : Int → Nat)
    (xmin xmax ymin ymax : Int) : Option (Int → Nat) :=
  let size := matrix_ew M * matrix_eh M
  match M.alloc.block with
  | none => none
  | some _ =>
    let dst_index : Int → Nat := fun k => if 0 ≤ k ∧ k < size then 0 else M.alloc.fresh k
    some (byte_stores dst_index
      (matrix_stores M xmin xmax ymin ymax fun i doff =>
        [(doff, M.zero_order index i.1 i.2)]))

/-- The stores of `cdputimagerectrgba_matrix` for one destination pixel: through
`dst_r+doff`, `dst_g+doff`, `dst_b+doff` and, with alpha, `dst_a+doff`, the planes being
`size` bytes apart.  Offsets are from `dst_r`; `a = none` is the NULL alpha plane. -/
def cdputimagerectrgba_matrix_pixel (M : MatrixEnv) (r g b : Int → Nat)
    (a : Option (Int → Nat)) (size : Int) (i : ℚ × ℚ) (doff : Int) : List (Int × Nat) :=
  [(doff, M.bilinear r i.1 i.2), (size + doff, M.bilinear g i.1 i.2),
    (size + size + doff, M.bilinear b i.1 i.2)] ++
  (match a with
   | some al => [(size + size + size + doff, M.bilinear al i.1 i.2)]
   | none => [])

/-- The part of `cdputimagerectrgba_matrix` that fills the destination planes:
`malloc(nc*size)`, the planes `dst_g = dst_r + size`, `dst_b = dst_g + size` and, with
alpha, `dst_a = dst_b + size`, `memset` to 0, then the scanning loop; `none` is the early
return on a NULL block. -/
def cdputimagerectrgba_matrix_fill (M : MatrixEnv) (r g b : Int → Nat)
    (a : Option (Int → Nat)) (xmin xmax ymin ymax : Int) : Option (Int → Nat) :=
  let size := matrix_ew M * matrix_eh M
  let nc : Int := if a.isSome then 4 else 3
  match M.alloc.block with
  | none => none
  | some _ =>
    let dst_r : Int → Nat := fun k => if 0 ≤ k ∧ k < nc * size then 0 else M.alloc.fresh k
    some (byte_stores dst_r
      (matrix_stores M xmin xmax ymin ymax
        (cdputimagerectrgba_matrix_pixel M r g b a size)))

/-- A destination area of 3 x 2 pixels at (10, 20), an inverse transform that maps a
destination pixel to the centre of the source pixel at the same place of the area,
interpolators that read a plane of row length 2 at the truncated coordinate, and a
successful allocation. -/
def matrix_env : MatrixEnv :=
  { t_xmin := 10, t_xmax := 12, t_ymin := 20, t_ymax := 21
    inverse := fun x y => ((x : ℚ) - 10 + 1 / 2, (y : ℚ) - 20 + 1 / 2)
    bilinear := fun p x y => p (Int.floor x + 2 * Int.floor y)
    zero_order := fun p x y => p (Int.floor x + 2 * Int.floor y)
    alloc := alloc_ok }

/-! ## Properties of the region engine -/

theorem gdk_image_get_pixel_ne_zero (img : GdkBitmap) (x y : Int) :
    gdk_image_get_pixel img x y ≠ 0 ↔ img.px x y = true := by
  unfold gdk_image_get_pixel
  cases img.px x y <;> simp

theorem cdispointinregion_eq_one_iff (ctx : cdCtxCanvas) (x y : Int) :
    cdispointinregion ctx x y = 1 ↔
      ∃ R, ctx.new_region = some R ∧ 0 ≤ x ∧ x < (ctx.canvas.w : Int) ∧ 0 ≤ y ∧
        y < (ctx.canvas.h : Int) ∧ R.px x y = true := by
  unfold cdispointinregion cdispointinregion_run
  cases hR : ctx.new_region with
  | none => simp
  | some R =>
    by_cases hb : 0 ≤ x ∧ 0 ≤ y ∧ x < (ctx.canvas.w : Int) ∧ y < (ctx.canvas.h : Int)
    · have hp : gdk_image_get_pixel
          (gdk_drawable_get_image R 0 0 ctx.canvas.w ctx.canvas.h) x y ≠ 0 ↔ R.px x y = true := by
        rw [gdk_image_get_pixel_ne_zero]; simp [gdk_drawable_get_image]
      by_cases hpx : R.px x y = true
      · simp [hb, hp.mpr hpx, hpx]
      · have hn : ¬ gdk_image_get_pixel
            (gdk_drawable_get_image R 0 0 ctx.canvas.w ctx.canvas.h) x y ≠ 0 :=
          fun h => hpx (hp.mp h)
        simp [hb, hn, hpx]
    · simp only [hb, if_false]
      constructor
      · intro h; simp at h
      · rintro ⟨R', hR', h1, h2, h3, h4, _⟩
        exact absurd ⟨h1, h3, h2, h4⟩ hb

theorem RegionBox.merge_fields (b : RegionBox) (x y : Int) :
    (b.merge x y).xmin = (if x < b.xmin then x else b.xmin) ∧
    (b.merge x y).xmax = (if x > b.xmax then x else b.xmax) ∧
    (b.merge x y).ymin = (if y < b.ymin then y else b.ymin) ∧
    (b.merge x y).ymax = (if y > b.ymax then y else b.ymax) := by
  by_cases h1 : x < b.xmin <;> by_cases h2 : x > b.xmax <;> by_cases h3 : y < b.ymin <;>
    by_cases h4 : y > b.ymax <;> simp [RegionBox.merge, h1, h2, h3, h4]

theorem RegionBox.merge_idem (b : RegionBox) (x y : Int) :
    (b.merge x y).merge x y = b.merge x y := by
  obtain ⟨h1, h2, h3, h4⟩ := RegionBox.merge_fields b x y
  obtain ⟨g1, g2, g3, g4⟩ := RegionBox.merge_fields (b.merge x y) x y
  have e : ∀ a c : RegionBox, a.xmin = c.xmin → a.xmax = c.xmax → a.ymin = c.ymin →
      a.ymax = c.ymax → a = c := by
    intro a c; cases a; cases c; simp; intros; simp_all
  apply e
  · rw [g1, h1]; split_ifs <;> omega
  · rw [g2, h2]; split_ifs <;> omega
  · rw [g3, h3]; split_ifs <;> omega
  · rw [g4, h4]; split_ifs <;> omega

/-- What the forward scan of a row does: nothing when the row has no set pixel in the
scanned range, else it merges the first set pixel and leaves the loop there. -/
theorem regionbox_scan_fwd_spec (img : GdkBitmap) (w : Nat) (y : Int) (b : RegionBox) :
    ∀ k : Nat,
      ((∀ x : Int, (w : Int) - k ≤ x → x < w → img.px x y = false) ∧
        regionbox_scan_fwd img w y b k = (b, (w : Int))) ∨
      (∃ x : Int, (w : Int) - k ≤ x ∧ x < w ∧ img.px x y = true ∧
        (∀ x' : Int, (w : Int) - k ≤ x' → x' < x → img.px x' y = false) ∧
        regionbox_scan_fwd img w y b k = (b.merge x y, x)) := by
  intro k
  induction k with
  | zero =>
    left
    refine ⟨?_, rfl⟩
    intro x h1 h2
    simp at h1
    omega
  | succ k ih =>
    by_cases hp : img.px ((w : Int) - ((k : Int) + 1)) y = true
    · right
      refine ⟨(w : Int) - ((k : Int) + 1), ?_, ?_, hp, ?_, ?_⟩
      · push_cast; omega
      · omega
      · intro x' h1 h2; push_cast at h1; omega
      · simp [regionbox_scan_fwd, (gdk_image_get_pixel_ne_zero img _ y).mpr hp]
    · have hp' : img.px ((w : Int) - ((k : Int) + 1)) y = false := by simpa using hp
      have hstep : regionbox_scan_fwd img w y b (k + 1) = regionbox_scan_fwd img w y b k := by
        have hn : ¬ gdk_image_get_pixel img ((w : Int) - ((k : Int) + 1)) y ≠ 0 :=
          fun h => hp ((gdk_image_get_pixel_ne_zero img _ y).mp h)
        simp only [regionbox_scan_fwd, hn, if_false]
      rcases ih with ⟨h1, h2⟩ | ⟨x, h1, h2, h3, h4, h5⟩
      · left
        refine ⟨?_, by rw [hstep, h2]⟩
        intro x hx1 hx2
        push_cast at hx1
        by_cases hx : x = (w : Int) - ((k : Int) + 1)
        · rw [hx]; exact hp'
        · exact h1 x (by omega) hx2
      · right
        refine ⟨x, by push_cast; omega, h2, h3, ?_, by rw [hstep, h5]⟩
        intro x' hx1 hx2
        push_cast at hx1
        by_cases hx : x' = (w : Int) - ((k : Int) + 1)
        · rw [hx]; exact hp'
        · exact h4 x' (by omega) hx2

/-- What the backward scan of a row does. -/
theorem regionbox_scan_bwd_spec (img : GdkBitmap) (y : Int) (b : RegionBox) :
    ∀ n : Nat,
      ((∀ x : Int, 0 ≤ x → x < n → img.px x y = false) ∧
        regionbox_scan_bwd img y b n = b) ∨
      (∃ x : Int, 0 ≤ x ∧ x < n ∧ img.px x y = true ∧
        (∀ x' : Int, x < x' → x' < n → img.px x' y = false) ∧
        regionbox_scan_bwd img y b n = b.merge x y) := by
  intro n
  induction n with
  | zero =>
    left
    refine ⟨?_, rfl⟩
    intro x h1 h2
    simp at h2
    omega
  | succ n ih =>
    by_cases hp : img.px (n : Int) y = true
    · right
      refine ⟨(n : Int), by omega, by push_cast; omega, hp, ?_, ?_⟩
      · intro x' h1 h2; push_cast at h2; omega
      · simp [regionbox_scan_bwd, (gdk_image_get_pixel_ne_zero img _ y).mpr hp]
    · have hp' : img.px (n : Int) y = false := by simpa using hp
      have hstep : regionbox_scan_bwd img y b (n + 1) = regionbox_scan_bwd img y b n := by
        have hn : ¬ gdk_image_get_pixel img (n : Int) y ≠ 0 :=
          fun h => hp ((gdk_image_get_pixel_ne_zero img _ y).mp h)
        simp only [regionbox_scan_bwd, hn, if_false]
      rcases ih with ⟨h1, h2⟩ | ⟨x, h1, h2, h3, h4, h5⟩
      · left
        refine ⟨?_, by rw [hstep, h2]⟩
        intro x hx1 hx2
        push_cast at hx2
        by_cases hx : x = (n : Int)
        · rw [hx]; exact hp'
        · exact h1 x hx1 (by omega)
      · right
        refine ⟨x, h1, by push_cast; omega, h3, ?_, by rw [hstep, h5]⟩
        intro x' hx1 hx2
        push_cast at hx2
        by_cases hx : x' = (n : Int)
        · rw [hx]; exact hp'
        · exact h4 x' hx1 (by omega)

/-- What one pass of the row loop does: nothing on a row without set pixel, else it
merges the first and the last set pixel of the row. -/
theorem regionbox_row_spec (img : GdkBitmap) (w : Nat) (b : RegionBox) (y : Nat) :
    ((∀ x : Int, 0 ≤ x → x < w → img.px x y = false) ∧ regionbox_row img w b y = b) ∨
    (∃ x1 x2 : Int, 0 ≤ x1 ∧ x1 ≤ x2 ∧ x2 < w ∧ img.px x1 y = true ∧ img.px x2 y = true ∧
      (∀ x : Int, 0 ≤ x → x < w → img.px x y = true → x1 ≤ x ∧ x ≤ x2) ∧
      regionbox_row img w b y = (b.merge x1 y).merge x2 y) := by
  unfold regionbox_row
  rcases regionbox_scan_fwd_spec img w y b w with ⟨h1, h2⟩ | ⟨x1, h1, h2, h3, h4, h5⟩
  · left
    have hall : ∀ x : Int, 0 ≤ x → x < w → img.px x y = false :=
      fun x hx1 hx2 => h1 x (by omega) hx2
    refine ⟨hall, ?_⟩
    rw [h2]
    have hne : (w : Int) ≠ (w : Int) - 1 := by omega
    simp only [hne, ne_eq, not_false_eq_true, if_true]
    rcases regionbox_scan_bwd_spec img y b w with ⟨_, g2⟩ | ⟨x, g1, g2, g3, _, _⟩
    · exact g2
    · have := hall x g1 g2
      rw [g3] at this
      exact absurd this (by simp)
  · right
    have h0 : 0 ≤ x1 := by omega
    have hlow : ∀ x : Int, 0 ≤ x → img.px x y = true → x1 ≤ x := by
      intro x hx hp
      by_contra hlt
      have := h4 x (by omega) (by omega)
      rw [hp] at this
      exact absurd this (by simp)
    rw [h5]
    by_cases hlast : x1 = (w : Int) - 1
    · refine ⟨x1, x1, h0, le_refl _, h2, h3, h3, ?_, ?_⟩
      · intro x hx1 hx2 hp
        exact ⟨hlow x hx1 hp, by omega⟩
      · simp only [hlast, ne_eq, not_true_eq_false, if_false]
        rw [RegionBox.merge_idem]
    · simp only [ne_eq, hlast, not_false_eq_true, if_true]
      rcases regionbox_scan_bwd_spec img y (b.merge x1 y) w with ⟨g1, _⟩ | ⟨x2, g1, g2, g3, g4, g5⟩
      · have := g1 x1 h0 h2
        rw [h3] at this
        exact absurd this (by simp)
      · have h12 : x1 ≤ x2 := hlow x2 g1 g3
        refine ⟨x1, x2, h0, h12, g2, h3, g3, ?_, g5⟩
        intro x hx1 hx2 hp
        refine ⟨hlow x hx1 hp, ?_⟩
        by_contra hgt
        have := g4 x (by omega) hx2
        rw [hp] at this
        exact absurd this (by simp)

theorem RegionBoxInv_step (img : GdkBitmap) (w h n : Nat) (b : RegionBox)
    (hinv : RegionBoxInv img.px w h n b) :
    RegionBoxInv img.px w h (n + 1) (regionbox_row img w b n) := by
  obtain ⟨hA, hxmin, hxmax, hymin, hymax⟩ := hinv
  rcases regionbox_row_spec img w b n with ⟨h1, h2⟩ | ⟨x1, x2, h0, h12, h2w, hp1, hp2, hrow, heq⟩
  · rw [h2]
    refine ⟨?_, ?_, ?_, ?_, ?_⟩
    · intro x y hx1 hx2 hy1 hy2 hp
      by_cases hy : y = (n : Int)
      · subst hy
        have := h1 x hx1 hx2
        rw [hp] at this
        exact absurd this (by simp)
      · exact hA x y hx1 hx2 hy1 (by push_cast at hy2; omega) hp
    · rcases hxmin with h | ⟨y, g1, g2, g3, g4, g5⟩
      · exact Or.inl h
      · exact Or.inr ⟨y, g1, by push_cast; omega, g3, g4, g5⟩
    · rcases hxmax with h | ⟨y, g1, g2, g3, g4, g5⟩
      · exact Or.inl h
      · exact Or.inr ⟨y, g1, by push_cast; omega, g3, g4, g5⟩
    · rcases hymin with h | ⟨x, g1, g2, g3, g4, g5⟩
      · exact Or.inl h
      · exact Or.inr ⟨x, g1, g2, g3, by push_cast; omega, g5⟩
    · rcases hymax with h | ⟨x, g1, g2, g3, g4, g5⟩
      · exact Or.inl h
      · exact Or.inr ⟨x, g1, g2, g3, by push_cast; omega, g5⟩
  · rw [heq]
    obtain ⟨a1, a2, a3, a4⟩ := RegionBox.merge_fields b x1 (n : Int)
    obtain ⟨c1, c2, c3, c4⟩ := RegionBox.merge_fields (b.merge x1 (n : Int)) x2 (n : Int)
    rw [a1] at c1
    rw [a2] at c2
    rw [a3] at c3
    rw [a4] at c4
    generalize (b.merge x1 (n : Int)).merge x2 (n : Int) = b' at c1 c2 c3 c4
    have e1 : b'.xmin = (if x1 < b.xmin then x1 else b.xmin) := by
      rw [c1]; split_ifs <;> omega
    have e2 : b'.xmax = (if x2 > b.xmax then x2 else b.xmax) := by
      rw [c2]; split_ifs <;> omega
    have e3 : b'.ymin = (if (n : Int) < b.ymin then (n : Int) else b.ymin) := by
      rw [c3]; split_ifs <;> omega
    have e4 : b'.ymax = (if (n : Int) > b.ymax then (n : Int) else b.ymax) := by
      rw [c4]; split_ifs <;> omega
    refine ⟨?_, ?_, ?_, ?_, ?_⟩
    · intro x y hx1 hx2 hy1 hy2 hp
      by_cases hy : y = (n : Int)
      · subst hy
        obtain ⟨r1, r2⟩ := hrow x hx1 hx2 hp
        rw [e1, e2, e3, e4]
        refine ⟨?_, ?_, ?_, ?_⟩ <;> split_ifs <;> omega
      · obtain ⟨r1, r2, r3, r4⟩ := hA x y hx1 hx2 hy1 (by push_cast at hy2; omega) hp
        rw [e1, e2, e3, e4]
        refine ⟨?_, ?_, ?_, ?_⟩ <;> split_ifs <;> omega
    · by_cases hc : x1 < b.xmin
      · right
        rw [e1, if_pos hc]
        exact ⟨(n : Int), by omega, by push_cast; omega, h0, by omega, hp1⟩
      · rw [e1, if_neg hc]
        rcases hxmin with h | ⟨y, g1, g2, g3, g4, g5⟩
        · exact Or.inl h
        · exact Or.inr ⟨y, g1, by push_cast; omega, g3, g4, g5⟩
    · by_cases hc : x2 > b.xmax
      · right
        rw [e2, if_pos hc]
        exact ⟨(n : Int), by omega, by push_cast; omega, by omega, h2w, hp2⟩
      · rw [e2, if_neg hc]
        rcases hxmax with h | ⟨y, g1, g2, g3, g4, g5⟩
        · exact Or.inl h
        · exact Or.inr ⟨y, g1, by push_cast; omega, g3, g4, g5⟩
    · by_cases hc : (n : Int) < b.ymin
      · right
        rw [e3, if_pos hc]
        exact ⟨x1, h0, by omega, by omega, by push_cast; omega, hp1⟩
      · rw [e3, if_neg hc]
        rcases hymin with h | ⟨x, g1, g2, g3, g4, g5⟩
        · exact Or.inl h
        · exact Or.inr ⟨x, g1, g2, g3, by push_cast; omega, g5⟩
    · by_cases hc : (n : Int) > b.ymax
      · right
        rw [e4, if_pos hc]
        exact ⟨x1, h0, by omega, by omega, by push_cast; omega, hp1⟩
      · rw [e4, if_neg hc]
        rcases hymax with h | ⟨x, g1, g2, g3, g4, g5⟩
        · exact Or.inl h
        · exact Or.inr ⟨x, g1, g2, g3, by push_cast; omega, g5⟩

theorem RegionBoxInv_rows (img : GdkBitmap) (w h : Nat) :
    ∀ n : Nat, RegionBoxInv img.px w h n
      ((List.range n).foldl (regionbox_row img w)
        { xmin := (w : Int) - 1, xmax := 0, ymin := (h : Int) - 1, ymax := 0 }) := by
  intro n
  induction n with
  | zero =>
    refine ⟨?_, Or.inl rfl, Or.inl rfl, Or.inl rfl, Or.inl rfl⟩
    intro x y _ _ hy1 hy2
    simp at hy2
    omega
  | succ n ih =>
    rw [List.range_succ, List.foldl_append]
    exact RegionBoxInv_step img w h n _ ih

/-- The loop invariant holds for the box `cdgetregionbox` returns. -/
theorem cdgetregionbox_inv (ctx : cdCtxCanvas) (R : GdkBitmap) (box0 : RegionBox)
    (hR : ctx.new_region = some R) :
    RegionBoxInv R.px ctx.canvas.w ctx.canvas.h ctx.canvas.h (cdgetregionbox ctx box0) := by
  have himg : (gdk_drawable_get_image R 0 0 ctx.canvas.w ctx.canvas.h).px = R.px := by
    funext X Y
    simp [gdk_drawable_get_image]
  have h := RegionBoxInv_rows (gdk_drawable_get_image R 0 0 ctx.canvas.w ctx.canvas.h)
    ctx.canvas.w ctx.canvas.h ctx.canvas.h
  rw [himg] at h
  unfold cdgetregionbox
  rw [hR]
  exact h

/-- The box of a region with a set pixel: it contains every pixel of the region and each
of its four bounds is the coordinate of a pixel of the region. -/
theorem cdgetregionbox_nonempty (ctx : cdCtxCanvas) (box0 : RegionBox)
    (hne : ∃ x y : Int, cdispointinregion ctx x y = 1) :
    (∀ x y : Int, cdispointinregion ctx x y = 1 →
      (cdgetregionbox ctx box0).xmin ≤ x ∧ x ≤ (cdgetregionbox ctx box0).xmax ∧
      (cdgetregionbox ctx box0).ymin ≤ y ∧ y ≤ (cdgetregionbox ctx box0).ymax) ∧
    (∃ y : Int, cdispointinregion ctx (cdgetregionbox ctx box0).xmin y = 1) ∧
    (∃ y : Int, cdispointinregion ctx (cdgetregionbox ctx box0).xmax y = 1) ∧
    (∃ x : Int, cdispointinregion ctx x (cdgetregionbox ctx box0).ymin = 1) ∧
    (∃ x : Int, cdispointinregion ctx x (cdgetregionbox ctx box0).ymax = 1) := by
  obtain ⟨x0, y0, h0⟩ := hne
  obtain ⟨R, hR, p1, p2, p3, p4, p5⟩ := (cdispointinregion_eq_one_iff ctx x0 y0).mp h0
  obtain ⟨hA, hxmin, hxmax, hymin, hymax⟩ := cdgetregionbox_inv ctx R box0 hR
  generalize cdgetregionbox ctx box0 = b at hA hxmin hxmax hymin hymax
  obtain ⟨q1, q2, q3, q4⟩ := hA x0 y0 p1 p2 p3 p4 p5
  refine ⟨?_, ?_, ?_, ?_, ?_⟩
  · intro x y h
    obtain ⟨R', hR', r1, r2, r3, r4, r5⟩ := (cdispointinregion_eq_one_iff ctx x y).mp h
    rw [hR] at hR'
    cases hR'
    exact hA x y r1 r2 r3 r4 r5
  · rcases hxmin with h | ⟨y, g1, g2, g3, g4, g5⟩
    · have hx : b.xmin = x0 := by omega
      exact ⟨y0, by rw [hx]; exact h0⟩
    · exact ⟨y, (cdispointinregion_eq_one_iff ctx _ y).mpr ⟨R, hR, g3, g4, g1, g2, g5⟩⟩
  · rcases hxmax with h | ⟨y, g1, g2, g3, g4, g5⟩
    · have hx : b.xmax = x0 := by omega
      exact ⟨y0, by rw [hx]; exact h0⟩
    · exact ⟨y, (cdispointinregion_eq_one_iff ctx _ y).mpr ⟨R, hR, g3, g4, g1, g2, g5⟩⟩
  · rcases hymin with h | ⟨x, g1, g2, g3, g4, g5⟩
    · have hy : b.ymin = y0 := by omega
      exact ⟨x0, by rw [hy]; exact h0⟩
    · exact ⟨x, (cdispointinregion_eq_one_iff ctx x _).mpr ⟨R, hR, g1, g2, g3, g4, g5⟩⟩
  · rcases hymax with h | ⟨x, g1, g2, g3, g4, g5⟩
    · have hy : b.ymax = y0 := by omega
      exact ⟨x0, by rw [hy]; exact h0⟩
    · exact ⟨x, (cdispointinregion_eq_one_iff ctx x _).mpr ⟨R, hR, g1, g2, g3, g4, g5⟩⟩

/-- The box of a region without set pixel is the initial box. -/
theorem cdgetregionbox_of_empty (ctx : cdCtxCanvas) (R : GdkBitmap) (box0 : RegionBox)
    (hR : ctx.new_region = some R) (hempty : ∀ x y : Int, cdispointinregion ctx x y ≠ 1) :
    cdgetregionbox ctx box0 =
      { xmin := (ctx.canvas.w : Int) - 1, xmax := 0, ymin := (ctx.canvas.h : Int) - 1, ymax := 0 } := by
  obtain ⟨_, hxmin, hxmax, hymin, hymax⟩ := cdgetregionbox_inv ctx R box0 hR
  generalize cdgetregionbox ctx box0 = b at hxmin hxmax hymin hymax
  have e1 : b.xmin = (ctx.canvas.w : Int) - 1 := by
    rcases hxmin with h | ⟨y, g1, g2, g3, g4, g5⟩
    · exact h
    · exact absurd ((cdispointinregion_eq_one_iff ctx _ y).mpr ⟨R, hR, g3, g4, g1, g2, g5⟩)
        (hempty _ _)
  have e2 : b.xmax = 0 := by
    rcases hxmax with h | ⟨y, g1, g2, g3, g4, g5⟩
    · exact h
    · exact absurd ((cdispointinregion_eq_one_iff ctx _ y).mpr ⟨R, hR, g3, g4, g1, g2, g5⟩)
        (hempty _ _)
  have e3 : b.ymin = (ctx.canvas.h : Int) - 1 := by
    rcases hymin with h | ⟨x, g1, g2, g3, g4, g5⟩
    · exact h
    · exact absurd ((cdispointinregion_eq_one_iff ctx x _).mpr ⟨R, hR, g1, g2, g3, g4, g5⟩)
        (hempty _ _)
  have e4 : b.ymax = 0 := by
    rcases hymax with h | ⟨x, g1, g2, g3, g4, g5⟩
    · exact h
    · exact absurd ((cdispointinregion_eq_one_iff ctx x _).mpr ⟨R, hR, g1, g2, g3, g4, g5⟩)
        (hempty _ _)
  cases b
  simp_all


/-! ### Staging and combining a shape -/

theorem gdk_draw_filled_px (d : GdkBitmap) (gc : GdkGC) (S : Int → Int → Bool) (X Y : Int)
    (hin : d.inside X Y = true) :
    (gdk_draw_filled d gc S).px X Y =
      if S X Y then gdk_function_apply gc.function (fg_bit gc) (d.px X Y) else d.px X Y := by
  simp [gdk_draw_filled, hin]

theorem gdk_extent_natCast (n full : Nat) : gdk_extent (n : Int) full = (n : Int) := by
  have h : ¬ ((n : Int) < 0) := by omega
  simp [gdk_extent, h]

theorem inside_of_bounds (d : GdkBitmap) (w h : Nat) (x y : Int) (hw : d.w = w) (hh : d.h = h)
    (h1 : 0 ≤ x) (h2 : x < (w : Int)) (h3 : 0 ≤ y) (h4 : y < (h : Int)) :
    d.inside x y = true := by
  simp [GdkBitmap.inside, hw, hh, h1, h2, h3, h4]

/-- The scratch bitmap after `sPrepareRegion` and a filled primitive: exactly the shape. -/
theorem region_staged_aux (ctx : cdCtxCanvas) (S : Int → Int → Bool) (hs : RegionSized ctx)
    (x y : Int) (h1 : 0 ≤ x) (h2 : x < (ctx.canvas.w : Int)) (h3 : 0 ≤ y)
    (h4 : y < (ctx.canvas.h : Int)) :
    (gdk_draw_filled (sPrepareRegion ctx).region_aux (sPrepareRegion ctx).region_aux_gc S).px x y
      = S x y := by
  obtain ⟨R, hR, _, _, hw, hh⟩ := hs
  have hin := inside_of_bounds ctx.region_aux ctx.canvas.w ctx.canvas.h x y hw hh h1 h2 h3 h4
  simp only [sPrepareRegion, hR]
  rw [gdk_draw_filled_px]
  · unfold gdk_draw_rectangle
    rw [gdk_draw_filled_px _ _ _ _ _ hin]
    cases hS : S x y <;>
      simp [gdk_function_apply, fg_bit, rectangle_shape, gdk_extent_natCast, h1, h2, h3, h4]
  · simpa [gdk_draw_rectangle, gdk_draw_filled, GdkBitmap.inside] using hin

/-- Pixelwise effect of staging and combining a shape on a canvas pixel. -/
theorem region_shape_px (ctx : cdCtxCanvas) (S : Int → Int → Bool) (R : GdkBitmap)
    (hR : ctx.new_region = some R) (hs : RegionSized ctx)
    (x y : Int) (h1 : 0 ≤ x) (h2 : x < (ctx.canvas.w : Int)) (h3 : 0 ≤ y)
    (h4 : y < (ctx.canvas.h : Int)) :
    (∃ R', (region_shape ctx S).new_region = some R' ∧ R'.w = R.w ∧ R'.h = R.h ∧
      R'.px x y = gdk_function_apply (combine_function ctx.canvas.combine_mode) (S x y) (R.px x y)) ∧
    (region_shape ctx S).region_aux.px x y = S x y ∧
    (region_shape ctx S).region_aux.w = ctx.region_aux.w ∧
    (region_shape ctx S).region_aux.h = ctx.region_aux.h ∧
    (region_shape ctx S).canvas = ctx.canvas := by
  have haux := region_staged_aux ctx S hs x y h1 h2 h3 h4
  obtain ⟨R0, hR0, hRw, hRh, hw, hh⟩ := hs
  rw [hR] at hR0
  cases hR0
  have hinR := inside_of_bounds R ctx.canvas.w ctx.canvas.h x y hRw hRh h1 h2 h3 h4
  have hinA := inside_of_bounds ctx.region_aux ctx.canvas.w ctx.canvas.h x y hw hh h1 h2 h3 h4
  have hprep_nr : (sPrepareRegion ctx).new_region = some R := by
    simp [sPrepareRegion, hR]
  have hprep_cv : (sPrepareRegion ctx).canvas = ctx.canvas := by
    simp [sPrepareRegion, hR]
  have hprep_w : (sPrepareRegion ctx).region_aux.w = ctx.region_aux.w := by
    simp [sPrepareRegion, hR, gdk_draw_rectangle, gdk_draw_filled]
  have hprep_h : (sPrepareRegion ctx).region_aux.h = ctx.region_aux.h := by
    simp [sPrepareRegion, hR, gdk_draw_rectangle, gdk_draw_filled]
  refine ⟨?_, ?_, ?_, ?_, ?_⟩
  · refine ⟨_, by simp [region_shape, sCombineRegion, hprep_nr]; rfl, ?_, ?_, ?_⟩
    · simp [gdk_draw_drawable]
    · simp [gdk_draw_drawable]
    · have hinS : (gdk_draw_filled (sPrepareRegion ctx).region_aux
          (sPrepareRegion ctx).region_aux_gc S).inside x y = true := by
        simpa [gdk_draw_filled, GdkBitmap.inside, hprep_w, hprep_h] using hinA
      simp only [gdk_draw_drawable, hprep_cv, sub_zero, add_zero, zero_add, hinR, hinS, haux,
        gdk_extent_natCast]
      cases hm : ctx.canvas.combine_mode <;>
        simp [combine_function, h1, h2, h3, h4]
  · simpa [region_shape, sCombineRegion] using haux
  · simp [region_shape, sCombineRegion, gdk_draw_filled, hprep_w]
  · simp [region_shape, sCombineRegion, gdk_draw_filled, hprep_h]
  · simp [region_shape, sCombineRegion, hprep_cv]

theorem cdispointinregion_eq_zero_iff (ctx : cdCtxCanvas) (x y : Int) :
    cdispointinregion ctx x y = 0 ↔ ¬ cdispointinregion ctx x y = 1 := by
  unfold cdispointinregion cdispointinregion_run
  cases ctx.new_region with
  | none => simp
  | some R =>
    by_cases hb : 0 ≤ x ∧ 0 ≤ y ∧ x < (ctx.canvas.w : Int) ∧ y < (ctx.canvas.h : Int)
    · simp only [hb, and_self, if_true]
      split_ifs <;> simp
    · simp [hb]

theorem region_shape_sized (ctx : cdCtxCanvas) (S : Int → Int → Bool) (hs : RegionSized ctx) :
    RegionSized (region_shape ctx S) := by
  obtain ⟨R, hR, hRw, hRh, hw, hh⟩ := hs
  refine ⟨gdk_draw_drawable R (sCombineRegion { sPrepareRegion ctx with
      region_aux := gdk_draw_filled (sPrepareRegion ctx).region_aux
        (sPrepareRegion ctx).region_aux_gc S }).region_aux_gc
      (gdk_draw_filled (sPrepareRegion ctx).region_aux (sPrepareRegion ctx).region_aux_gc S)
      0 0 0 0 ctx.canvas.w ctx.canvas.h, ?_, ?_, ?_, ?_, ?_⟩
  · simp [region_shape, sCombineRegion, sPrepareRegion, hR]
  · simpa [region_shape, sCombineRegion, sPrepareRegion, hR, gdk_draw_drawable] using hRw
  · simpa [region_shape, sCombineRegion, sPrepareRegion, hR, gdk_draw_drawable] using hRh
  · simpa [region_shape, sCombineRegion, sPrepareRegion, hR, gdk_draw_filled,
      gdk_draw_rectangle] using hw
  · simpa [region_shape, sCombineRegion, sPrepareRegion, hR, gdk_draw_filled,
      gdk_draw_rectangle] using hh

theorem set_combine_mode_sized (ctx : cdCtxCanvas) (m : CombineMode) (hs : RegionSized ctx) :
    RegionSized (set_combine_mode ctx m) := by
  obtain ⟨R, hR, hRw, hRh, hw, hh⟩ := hs
  exact ⟨R, by simpa [set_combine_mode] using hR, hRw, hRh, hw, hh⟩

theorem set_combine_mode_member (ctx : cdCtxCanvas) (m : CombineMode) (x y : Int) :
    cdispointinregion (set_combine_mode ctx m) x y = cdispointinregion ctx x y := rfl

/-- Membership of a canvas pixel after staging and combining a shape. -/
theorem region_shape_member (ctx : cdCtxCanvas) (S : Int → Int → Bool) (hs : RegionSized ctx)
    (x y : Int) (h1 : 0 ≤ x) (h2 : x < (ctx.canvas.w : Int)) (h3 : 0 ≤ y)
    (h4 : y < (ctx.canvas.h : Int)) :
    cdispointinregion (region_shape ctx S) x y = 1 ↔
      gdk_function_apply (combine_function ctx.canvas.combine_mode) (S x y)
        (decide (cdispointinregion ctx x y = 1)) = true := by
  obtain ⟨R, hR, hrest⟩ := hs
  obtain ⟨⟨R', hR', _, _, hpx⟩, _, _, _, hcv⟩ :=
    region_shape_px ctx S R hR ⟨R, hR, hrest⟩ x y h1 h2 h3 h4
  have hin : cdispointinregion ctx x y = 1 ↔ R.px x y = true := by
    rw [cdispointinregion_eq_one_iff]
    constructor
    · rintro ⟨R0, hR0, _, _, _, _, hp⟩
      rw [hR] at hR0; cases hR0; exact hp
    · intro hp
      exact ⟨R, hR, h1, h2, h3, h4, hp⟩
  have hd : decide (cdispointinregion ctx x y = 1) = R.px x y := by
    cases hp : R.px x y
    · simp [hin, hp]
    · simp [hin, hp]
  rw [hd, ← hpx, cdispointinregion_eq_one_iff]
  constructor
  · rintro ⟨R0, hR0, _, _, _, _, hp⟩
    rw [hR'] at hR0; cases hR0; exact hp
  · intro hp
    exact ⟨R', hR', h1, by rw [hcv]; exact h2, h3, by rw [hcv]; exact h4, hp⟩

/-- The region branch of `cdbox` is the staging of an inclusive rectangle. -/
theorem cdbox_region (sim : cdCtxCanvas → Int → Int → Int → Int → cdCtxCanvas)
    (ctx : cdCtxCanvas) (xmin xmax ymin ymax : Int)
    (hm : ctx.canvas.use_matrix = false) (hn : ctx.canvas.new_region = true)
    (hx : xmin ≤ xmax) (hy : ymin ≤ ymax) :
    cdbox sim ctx xmin xmax ymin ymax =
      region_shape ctx (fun X Y => decide (xmin ≤ X ∧ X ≤ xmax ∧ ymin ≤ Y ∧ Y ≤ ymax)) := by
  have hsh : ∀ a b : Nat, rectangle_shape xmin ymin (gdk_extent (xmax - xmin + 1) a)
      (gdk_extent (ymax - ymin + 1) b) =
      fun X Y => decide (xmin ≤ X ∧ X ≤ xmax ∧ ymin ≤ Y ∧ Y ≤ ymax) := by
    intro a b
    funext X Y
    have e1 : ¬ (xmax - xmin + 1 < 0) := by omega
    have e2 : ¬ (ymax - ymin + 1 < 0) := by omega
    simp only [rectangle_shape, gdk_extent, e1, e2, if_false]
    have a1 : (X < xmin + (xmax - xmin + 1)) ↔ X ≤ xmax := by omega
    have a2 : (Y < ymin + (ymax - ymin + 1)) ↔ Y ≤ ymax := by omega
    simp only [a1, a2, Bool.decide_and, Bool.and_assoc]
  have hcv : (sPrepareRegion ctx).canvas = ctx.canvas := by
    unfold sPrepareRegion
    cases ctx.new_region <;> rfl
  simp only [cdbox, hm, hn, region_shape, gdk_draw_rectangle, hsh, if_true, Bool.false_eq_true,
    if_false]

/-! ### The region claims -/

/-- What `cdoffsetregion` does to a canvas pixel: the pixel stays in the region unless it
lies in the image of the canvas shifted by the offset, where the region is cleared. -/
theorem cdoffsetregion_member (ctx : cdCtxCanvas) (hs : RegionSized ctx) (dx dy x y : Int)
    (h1 : 0 ≤ x) (h2 : x < (ctx.canvas.w : Int)) (h3 : 0 ≤ y) (h4 : y < (ctx.canvas.h : Int)) :
    cdispointinregion (cdoffsetregion ctx dx dy) x y = 1 ↔
      (cdispointinregion ctx x y = 1 ∧
        ¬ (dx ≤ x ∧ x < (ctx.canvas.w : Int) + dx ∧ dy ≤ y ∧ y < (ctx.canvas.h : Int) + dy)) := by
  obtain ⟨R, hR, hRw, hRh, hw, hh⟩ := hs
  have hinR := inside_of_bounds R ctx.canvas.w ctx.canvas.h x y hRw hRh h1 h2 h3 h4
  have hnr : ∃ R', (cdoffsetregion ctx dx dy).new_region = some R' ∧
      (cdoffsetregion ctx dx dy).canvas = ctx.canvas ∧
      (R'.px x y = (R.px x y && !(decide (dx ≤ x ∧ x < (ctx.canvas.w : Int) + dx ∧ dy ≤ y ∧
        y < (ctx.canvas.h : Int) + dy)))) := by
    refine ⟨_, by simp [cdoffsetregion, sPrepareRegion, hR]; rfl, by
      simp [cdoffsetregion, sPrepareRegion, hR], ?_⟩
    simp only [gdk_draw_drawable, sPrepareRegion, hR, gdk_draw_rectangle, gdk_draw_filled,
      gdk_extent, GdkBitmap.inside, hRw, hRh, hw, hh, h1, h2, h3, h4, decide_True, sub_zero,
      add_zero, Bool.true_and, gdk_function_apply, rectangle_shape]
    by_cases c : dx ≤ x ∧ x < (ctx.canvas.w : Int) + dx ∧ dy ≤ y ∧ y < (ctx.canvas.h : Int) + dy
    · obtain ⟨c1, c2, c3, c4⟩ := c
      have e1 : ¬ ((ctx.canvas.w : Int) - dx < 0) := by omega
      have e2 : ¬ ((ctx.canvas.h : Int) - dy < 0) := by omega
      have e3 : x < dx + ((ctx.canvas.w : Int) - dx) := by omega
      have e4 : y < dy + ((ctx.canvas.h : Int) - dy) := by omega
      have e5 : 0 ≤ x - dx := by omega
      have e6 : x - dx < (ctx.canvas.w : Int) := by omega
      have e7 : 0 ≤ y - dy := by omega
      have e8 : y - dy < (ctx.canvas.h : Int) := by omega
      have e9 : ¬ ((ctx.canvas.w : Int) < 0) := by omega
      have e10 : ¬ ((ctx.canvas.h : Int) < 0) := by omega
      simp [c1, c2, c3, c4, e1, e2, e3, e4, e5, e6, e7, e8, e9, e10, fg_bit]
      intro hout
      omega
    · have hcond : (decide (dx ≤ x) && decide (x < dx +
          (if (ctx.canvas.w : Int) - dx < 0 then (ctx.canvas.w : Int) else (ctx.canvas.w : Int) - dx))
          && decide (dy ≤ y) && decide (y < dy +
          (if (ctx.canvas.h : Int) - dy < 0 then (ctx.canvas.h : Int) else (ctx.canvas.h : Int) - dy))
          && (decide (0 ≤ x - dx) && decide (x - dx < (ctx.canvas.w : Int)) &&
            decide (0 ≤ y - dy) && decide (y - dy < (ctx.canvas.h : Int)))) = false := by
        rw [Bool.eq_false_iff]
        intro hall
        simp only [Bool.and_eq_true, decide_eq_true_eq] at hall
        apply c
        omega
      simp only [hcond, c, Bool.false_eq_true, if_false, decide_False, Bool.not_false,
        Bool.and_true]
  obtain ⟨R', hR', hcv, hpx⟩ := hnr
  rw [cdispointinregion_eq_one_iff, cdispointinregion_eq_one_iff, hR', hR, hcv]
  constructor
  · rintro ⟨R0, hR0, _, _, _, _, hp⟩
    cases hR0
    rw [hpx] at hp
    simp only [Bool.and_eq_true, Bool.not_eq_true', decide_eq_false_iff_not] at hp
    exact ⟨⟨R, rfl, h1, h2, h3, h4, hp.1⟩, hp.2⟩
  · rintro ⟨⟨R0, hR0, _, _, _, _, hp⟩, hc⟩
    cases hR0
    refine ⟨R', rfl, h1, h2, h3, h4, ?_⟩
    rw [hpx, hp]
    simp only [Bool.true_and, Bool.not_eq_true', decide_eq_false_iff_not]
    exact hc

/-- C1: `cdoffsetregion` does not translate the region.  On a 4 x 4 canvas whose region is
the single pixel (0, 0), after `cdoffsetregion(1, 1)` pixel (1, 1) is not in the region
although (1-1, 1-1) was, and pixel (0, 0) is still in it although (0-1, 0-1) lies outside
the canvas. -/
theorem cdoffsetregion_not_translated :
    cdispointinregion (region_ctx 4 4 .CD_UNION (fun x y => x == 0 && y == 0)) 0 0 = 1 ∧
    cdispointinregion
      (cdoffsetregion (region_ctx 4 4 .CD_UNION (fun x y => x == 0 && y == 0)) 1 1) 1 1 = 0 ∧
    cdispointinregion
      (cdoffsetregion (region_ctx 4 4 .CD_UNION (fun x y => x == 0 && y == 0)) 1 1) 0 0 = 1 := by
  decide

/-- C2: for a region with at least one set bit, the box `cdgetregionbox` returns is tight:
every point for which `cdispointinregion` returns 1 satisfies `xmin ≤ x ≤ xmax` and
`ymin ≤ y ≤ ymax`, and each of the four bounds is reached by a point of the region, so
they are the minimum and maximum x and y over the set bits. -/
theorem cdgetregionbox_tight (ctx : cdCtxCanvas) (box0 : RegionBox)
    (hne : ∃ x y : Int, cdispointinregion ctx x y = 1) :
    (∀ x y : Int, cdispointinregion ctx x y = 1 →
      (cdgetregionbox ctx box0).xmin ≤ x ∧ x ≤ (cdgetregionbox ctx box0).xmax ∧
      (cdgetregionbox ctx box0).ymin ≤ y ∧ y ≤ (cdgetregionbox ctx box0).ymax) ∧
    (∃ y : Int, cdispointinregion ctx (cdgetregionbox ctx box0).xmin y = 1) ∧
    (∃ y : Int, cdispointinregion ctx (cdgetregionbox ctx box0).xmax y = 1) ∧
    (∃ x : Int, cdispointinregion ctx x (cdgetregionbox ctx box0).ymin = 1) ∧
    (∃ x : Int, cdispointinregion ctx x (cdgetregionbox ctx box0).ymax = 1) :=
  cdgetregionbox_nonempty ctx box0 hne

/-- C3 as stated fails on a 1 x 1 canvas: the box of the empty region is (0, 0, 0, 0),
which is not inverted and is also the box of the region holding the pixel (0, 0). -/
theorem cdgetregionbox_sentinel_1x1 :
    (∀ x y : Int, cdispointinregion (region_ctx 1 1 .CD_UNION (fun _ _ => false)) x y ≠ 1) ∧
    cdispointinregion (region_ctx 1 1 .CD_UNION (fun _ _ => true)) 0 0 = 1 ∧
    cdgetregionbox (region_ctx 1 1 .CD_UNION (fun _ _ => false)) ⟨7, 7, 7, 7⟩ = ⟨0, 0, 0, 0⟩ ∧
    cdgetregionbox (region_ctx 1 1 .CD_UNION (fun _ _ => true)) ⟨7, 7, 7, 7⟩ = ⟨0, 0, 0, 0⟩ ∧
    ¬ ((cdgetregionbox (region_ctx 1 1 .CD_UNION (fun _ _ => false)) ⟨7, 7, 7, 7⟩).xmin >
      (cdgetregionbox (region_ctx 1 1 .CD_UNION (fun _ _ => false)) ⟨7, 7, 7, 7⟩).xmax) := by
  refine ⟨?_, by decide, by decide, by decide, by decide⟩
  intro x y h
  obtain ⟨R, hR, _, _, _, _, hp⟩ := (cdispointinregion_eq_one_iff _ x y).mp h
  simp only [region_ctx, Option.some.injEq] at hR
  subst hR
  simp at hp

/-- C3 amended: for a region object with no set bit on a `w x h` canvas `cdgetregionbox`
returns `xmin = w-1`, `xmax = 0`, `ymin = h-1`, `ymax = 0`; when `w ≥ 2` this box is
inverted (`xmin > xmax`) and differs from the box of every region of a canvas that has a
set bit, whose `xmin ≤ xmax`. -/
theorem cdgetregionbox_empty_sentinel (ctx : cdCtxCanvas) (R : GdkBitmap) (box0 : RegionBox)
    (hR : ctx.new_region = some R) (hempty : ∀ x y : Int, cdispointinregion ctx x y ≠ 1) :
    cdgetregionbox ctx box0 =
      { xmin := (ctx.canvas.w : Int) - 1, xmax := 0, ymin := (ctx.canvas.h : Int) - 1, ymax := 0 } ∧
    (2 ≤ ctx.canvas.w →
      (cdgetregionbox ctx box0).xmin > (cdgetregionbox ctx box0).xmax ∧
      ∀ (ctx2 : cdCtxCanvas) (box2 : RegionBox),
        (∃ x y : Int, cdispointinregion ctx2 x y = 1) →
        (cdgetregionbox ctx2 box2).xmin ≤ (cdgetregionbox ctx2 box2).xmax ∧
        cdgetregionbox ctx2 box2 ≠ cdgetregionbox ctx box0) := by
  have he := cdgetregionbox_of_empty ctx R box0 hR hempty
  refine ⟨he, ?_⟩
  intro hw
  have hinv : (cdgetregionbox ctx box0).xmin > (cdgetregionbox ctx box0).xmax := by
    rw [he]
    show (ctx.canvas.w : Int) - 1 > 0
    omega
  refine ⟨hinv, ?_⟩
  intro ctx2 box2 hne
  obtain ⟨hA, ⟨y, hy⟩, _, _, _⟩ := cdgetregionbox_nonempty ctx2 box2 hne
  have hle := (hA _ y hy).2.1
  refine ⟨hle, ?_⟩
  intro heq
  rw [heq] at hle
  omega

/-- Witness of `cdgetregionbox_tight`: a 3 x 3 canvas whose region holds pixel (1, 2). -/
theorem cdgetregionbox_tight_witness :
    (∃ x y : Int,
      cdispointinregion (region_ctx 3 3 .CD_UNION (fun x y => x == 1 && y == 2)) x y = 1) ∧
    (∃ y : Int, cdispointinregion (region_ctx 3 3 .CD_UNION (fun x y => x == 1 && y == 2))
      (cdgetregionbox (region_ctx 3 3 .CD_UNION (fun x y => x == 1 && y == 2)) ⟨7, 7, 7, 7⟩).xmin
      y = 1) :=
  ⟨⟨1, 2, by decide⟩,
   (cdgetregionbox_tight (region_ctx 3 3 .CD_UNION (fun x y => x == 1 && y == 2)) ⟨7, 7, 7, 7⟩
      ⟨1, 2, by decide⟩).2.1⟩

/-- The empty region of a 3 x 2 canvas has no point. -/
theorem region_ctx_empty_3x2 (x y : Int) :
    cdispointinregion (region_ctx 3 2 .CD_UNION (fun _ _ => false)) x y ≠ 1 := by
  intro h
  obtain ⟨R, hR, _, _, _, _, hp⟩ := (cdispointinregion_eq_one_iff _ x y).mp h
  simp only [region_ctx, Option.some.injEq] at hR
  subst hR
  simp at hp

/-- Witness of `cdgetregionbox_empty_sentinel`: the empty region of a 3 x 2 canvas, whose
box (2, 0, 1, 0) is inverted. -/
theorem cdgetregionbox_empty_sentinel_witness :
    cdgetregionbox (region_ctx 3 2 .CD_UNION (fun _ _ => false)) ⟨7, 7, 7, 7⟩ = ⟨2, 0, 1, 0⟩ ∧
    (cdgetregionbox (region_ctx 3 2 .CD_UNION (fun _ _ => false)) ⟨7, 7, 7, 7⟩).xmin >
      (cdgetregionbox (region_ctx 3 2 .CD_UNION (fun _ _ => false)) ⟨7, 7, 7, 7⟩).xmax :=
  ⟨(cdgetregionbox_empty_sentinel (region_ctx 3 2 .CD_UNION (fun _ _ => false))
      { w := 3, h := 2, px := fun _ _ => false } ⟨7, 7, 7, 7⟩ rfl region_ctx_empty_3x2).1,
   ((cdgetregionbox_empty_sentinel (region_ctx 3 2 .CD_UNION (fun _ _ => false))
      { w := 3, h := 2, px := fun _ _ => false } ⟨7, 7, 7, 7⟩ rfl region_ctx_empty_3x2).2
      (by decide)).1⟩

/-- C4: `cdispointinregion` returns 0 without reading any pixel when there is no region
object or the point is out of bounds; for an in-bounds point of a region object it
returns 1 exactly when the bit at `(x, y)` is set, and 0 otherwise. -/
theorem cdispointinregion_contract (ctx : cdCtxCanvas) (x y : Int) :
    ((ctx.new_region = none ∨ x < 0 ∨ y < 0 ∨ (ctx.canvas.w : Int) ≤ x ∨
        (ctx.canvas.h : Int) ≤ y) → cdispointinregion_run ctx x y = (0, [])) ∧
    (∀ R, ctx.new_region = some R → 0 ≤ x → 0 ≤ y → x < (ctx.canvas.w : Int) →
      y < (ctx.canvas.h : Int) →
      (cdispointinregion ctx x y = 1 ↔ R.px x y = true) ∧
      (cdispointinregion ctx x y = 0 ↔ R.px x y = false)) := by
  constructor
  · intro h
    unfold cdispointinregion_run
    cases hR : ctx.new_region with
    | none => rfl
    | some R =>
      have hb : ¬ (0 ≤ x ∧ 0 ≤ y ∧ x < (ctx.canvas.w : Int) ∧ y < (ctx.canvas.h : Int)) := by
        rcases h with h | h | h | h | h
        · rw [hR] at h; cases h
        all_goals omega
      simp only [hb, if_false]
  · intro R hR h1 h2 h3 h4
    have hone : cdispointinregion ctx x y = 1 ↔ R.px x y = true := by
      rw [cdispointinregion_eq_one_iff]
      constructor
      · rintro ⟨R0, hR0, _, _, _, _, hp⟩
        rw [hR] at hR0; cases hR0; exact hp
      · intro hp
        exact ⟨R, hR, h1, h3, h2, h4, hp⟩
    refine ⟨hone, ?_⟩
    rw [cdispointinregion_eq_zero_iff, hone]
    simp

/-- Witness of `cdispointinregion_contract`: no region object, an out-of-bounds point and
an in-bounds point of a 3 x 3 canvas. -/
theorem cdispointinregion_contract_witness :
    cdispointinregion_run (noregion_ctx 3 3) 1 1 = (0, []) ∧
    cdispointinregion_run (region_ctx 3 3 .CD_UNION (fun _ _ => true)) 3 1 = (0, []) ∧
    (cdispointinregion (region_ctx 3 3 .CD_UNION (fun x y => x == 1 && y == 2)) 1 2 = 1 ↔
      (fun (x y : Int) => x == 1 && y == 2) 1 2 = true) :=
  ⟨(cdispointinregion_contract (noregion_ctx 3 3) 1 1).1 (Or.inl rfl),
   (cdispointinregion_contract (region_ctx 3 3 .CD_UNION (fun _ _ => true)) 3 1).1
      (Or.inr (Or.inr (Or.inr (Or.inl (by decide))))),
   ((cdispointinregion_contract (region_ctx 3 3 .CD_UNION (fun x y => x == 1 && y == 2)) 1 2).2
      { w := 3, h := 3, px := fun x y => x == 1 && y == 2 } rfl (by decide) (by decide)
      (by decide) (by decide)).1⟩

theorem region_shape_canvas (ctx : cdCtxCanvas) (S : Int → Int → Bool) :
    (region_shape ctx S).canvas = ctx.canvas := by
  unfold region_shape sCombineRegion sPrepareRegion
  cases ctx.new_region <;> rfl

/-- The box of a region whose set bits are exactly the pixels of a rectangle. -/
theorem cdgetregionbox_of_rectangle (ctx : cdCtxCanvas) (box0 : RegionBox) (a b c d : Int)
    (hab : a ≤ b) (hcd : c ≤ d)
    (hmem : ∀ x y : Int, cdispointinregion ctx x y = 1 ↔ (a ≤ x ∧ x ≤ b ∧ c ≤ y ∧ y ≤ d)) :
    cdgetregionbox ctx box0 = { xmin := a, xmax := b, ymin := c, ymax := d } := by
  have hne : ∃ x y : Int, cdispointinregion ctx x y = 1 :=
    ⟨a, c, (hmem a c).mpr ⟨le_refl _, hab, le_refl _, hcd⟩⟩
  obtain ⟨hA, ⟨y1, g1⟩, ⟨y2, g2⟩, ⟨x3, g3⟩, ⟨x4, g4⟩⟩ := cdgetregionbox_nonempty ctx box0 hne
  have k1 := hA a c ((hmem a c).mpr ⟨le_refl _, hab, le_refl _, hcd⟩)
  have k2 := hA b d ((hmem b d).mpr ⟨hab, le_refl _, hcd, le_refl _⟩)
  have m1 := (hmem _ _).mp g1
  have m2 := (hmem _ _).mp g2
  have m3 := (hmem _ _).mp g3
  have m4 := (hmem _ _).mp g4
  generalize cdgetregionbox ctx box0 = bx at *
  cases bx
  simp only [RegionBox.mk.injEq] at *
  omega

/-- C5: staging a shape S with `sPrepareRegion` and merging it with `sCombineRegion`
leaves the scratch bitmap equal to S on the canvas, whatever it held before, and makes the
membership of a canvas pixel R or S for `CD_UNION`, R and S for `CD_INTERSECT`, R and not
S for `CD_DIFFERENCE`, R xor S for `CD_NOTINTERSECT`; `cdbox` in region mode is this
staging for the rectangle `xmin ≤ x ≤ xmax`, `ymin ≤ y ≤ ymax`. -/
theorem region_combine_modes (ctx : cdCtxCanvas) (S : Int → Int → Bool) (hs : RegionSized ctx)
    (x y : Int) (h1 : 0 ≤ x) (h2 : x < (ctx.canvas.w : Int)) (h3 : 0 ≤ y)
    (h4 : y < (ctx.canvas.h : Int)) :
    (region_shape ctx S).region_aux.px x y = S x y ∧
    (ctx.canvas.combine_mode = .CD_UNION →
      (cdispointinregion (region_shape ctx S) x y = 1 ↔
        (cdispointinregion ctx x y = 1 ∨ S x y = true))) ∧
    (ctx.canvas.combine_mode = .CD_INTERSECT →
      (cdispointinregion (region_shape ctx S) x y = 1 ↔
        (cdispointinregion ctx x y = 1 ∧ S x y = true))) ∧
    (ctx.canvas.combine_mode = .CD_DIFFERENCE →
      (cdispointinregion (region_shape ctx S) x y = 1 ↔
        (cdispointinregion ctx x y = 1 ∧ S x y = false))) ∧
    (ctx.canvas.combine_mode = .CD_NOTINTERSECT →
      (cdispointinregion (region_shape ctx S) x y = 1 ↔
        ((cdispointinregion ctx x y = 1 ∧ S x y = false) ∨
          (¬ cdispointinregion ctx x y = 1 ∧ S x y = true)))) ∧
    (∀ (sim : cdCtxCanvas → Int → Int → Int → Int → cdCtxCanvas) (xmin xmax ymin ymax : Int),
      ctx.canvas.use_matrix = false → ctx.canvas.new_region = true →
      xmin ≤ xmax → ymin ≤ ymax →
      cdbox sim ctx xmin xmax ymin ymax =
        region_shape ctx (fun X Y => decide (xmin ≤ X ∧ X ≤ xmax ∧ ymin ≤ Y ∧ Y ≤ ymax))) := by
  have hmem := region_shape_member ctx S hs x y h1 h2 h3 h4
  obtain ⟨R, hR, hrest⟩ := hs
  have haux := (region_shape_px ctx S R hR ⟨R, hR, hrest⟩ x y h1 h2 h3 h4).2.1
  refine ⟨haux, ?_, ?_, ?_, ?_, ?_⟩
  · intro hm
    rw [hmem, hm]
    by_cases hin : cdispointinregion ctx x y = 1 <;> cases hS : S x y <;>
      simp [combine_function, gdk_function_apply, hin]
  · intro hm
    rw [hmem, hm]
    by_cases hin : cdispointinregion ctx x y = 1 <;> cases hS : S x y <;>
      simp [combine_function, gdk_function_apply, hin]
  · intro hm
    rw [hmem, hm]
    by_cases hin : cdispointinregion ctx x y = 1 <;> cases hS : S x y <;>
      simp [combine_function, gdk_function_apply, hin]
  · intro hm
    rw [hmem, hm]
    by_cases hin : cdispointinregion ctx x y = 1 <;> cases hS : S x y <;>
      simp [combine_function, gdk_function_apply, hin]
  · intro sim xmin xmax ymin ymax hmx hnr hx hy
    exact cdbox_region sim ctx xmin xmax ymin ymax hmx hnr hx hy

/-- Witness of `region_combine_modes`: on a full 3 x 3 region in `CD_DIFFERENCE` mode,
staging the column `x = 1` removes pixel (1, 1). -/
theorem region_combine_modes_witness :
    RegionSized (region_ctx 3 3 .CD_DIFFERENCE (fun _ _ => true)) ∧
    (cdispointinregion
        (region_shape (region_ctx 3 3 .CD_DIFFERENCE (fun _ _ => true)) (fun x _ => x == 1))
        1 1 = 1 ↔
      (cdispointinregion (region_ctx 3 3 .CD_DIFFERENCE (fun _ _ => true)) 1 1 = 1 ∧
        (fun (x _ : Int) => x == 1) 1 1 = false)) :=
  ⟨⟨_, rfl, rfl, rfl, rfl, rfl⟩,
   (region_combine_modes (region_ctx 3 3 .CD_DIFFERENCE (fun _ _ => true)) (fun x _ => x == 1)
      ⟨_, rfl, rfl, rfl, rfl, rfl⟩ 1 1 (by decide) (by decide) (by decide)
      (by decide)).2.2.2.1 rfl⟩

/-- C6: combining a shape S with `CD_UNION` and then the same S with `CD_DIFFERENCE`
leaves R minus S: a canvas pixel is in the result exactly when it was in R and is not in
S. -/
theorem union_then_difference (ctx : cdCtxCanvas) (S : Int → Int → Bool)
    (hs : RegionSized ctx) (x y : Int) (h1 : 0 ≤ x) (h2 : x < (ctx.canvas.w : Int))
    (h3 : 0 ≤ y) (h4 : y < (ctx.canvas.h : Int)) :
    cdispointinregion
        (region_shape (set_combine_mode
          (region_shape (set_combine_mode ctx .CD_UNION) S) .CD_DIFFERENCE) S) x y = 1 ↔
      (cdispointinregion ctx x y = 1 ∧ S x y = false) := by
  have hs1 := set_combine_mode_sized ctx .CD_UNION hs
  have hs2 := region_shape_sized _ S hs1
  have hs3 := set_combine_mode_sized _ .CD_DIFFERENCE hs2
  have hcv : (set_combine_mode (region_shape (set_combine_mode ctx .CD_UNION) S)
      .CD_DIFFERENCE).canvas.w = ctx.canvas.w ∧
      (set_combine_mode (region_shape (set_combine_mode ctx .CD_UNION) S)
      .CD_DIFFERENCE).canvas.h = ctx.canvas.h := by
    simp [set_combine_mode, region_shape_canvas]
  rw [region_shape_member _ S hs3 x y h1 (by rw [hcv.1]; exact h2) h3 (by rw [hcv.2]; exact h4)]
  rw [set_combine_mode_member]
  have hm1 := region_shape_member _ S hs1 x y h1 h2 h3 h4
  rw [set_combine_mode_member] at hm1
  have hmode1 : (set_combine_mode ctx .CD_UNION).canvas.combine_mode = .CD_UNION := rfl
  have hmode2 : (set_combine_mode (region_shape (set_combine_mode ctx .CD_UNION) S)
      .CD_DIFFERENCE).canvas.combine_mode = .CD_DIFFERENCE := rfl
  rw [hmode1] at hm1
  rw [hmode2]
  by_cases hin : cdispointinregion ctx x y = 1 <;> cases hS : S x y <;>
    simp [combine_function, gdk_function_apply, hin, hS] at hm1 ⊢ <;> simp [hm1]

/-- Witness of `union_then_difference`: a 3 x 3 canvas whose region is the row `y = 0`,
the shape being the column `x = 1`, at pixel (0, 0). -/
theorem union_then_difference_witness :
    RegionSized (region_ctx 3 3 .CD_INTERSECT (fun _ y => y == 0)) ∧
    (cdispointinregion
        (region_shape (set_combine_mode
          (region_shape (set_combine_mode (region_ctx 3 3 .CD_INTERSECT (fun _ y => y == 0))
            .CD_UNION) (fun x _ => x == 1)) .CD_DIFFERENCE) (fun x _ => x == 1)) 0 0 = 1 ↔
      (cdispointinregion (region_ctx 3 3 .CD_INTERSECT (fun _ y => y == 0)) 0 0 = 1 ∧
        (fun (x _ : Int) => x == 1) 0 0 = false)) :=
  ⟨⟨_, rfl, rfl, rfl, rfl, rfl⟩,
   union_then_difference (region_ctx 3 3 .CD_INTERSECT (fun _ y => y == 0)) (fun x _ => x == 1)
      ⟨_, rfl, rfl, rfl, rfl, rfl⟩ 0 0 (by decide) (by decide) (by decide) (by decide)⟩

theorem cdnewregion_sized (ctx : cdCtxCanvas) (fr fa : Int → Int → Bool) :
    RegionSized (cdnewregion ctx fr fa) :=
  ⟨_, rfl, rfl, rfl, rfl, rfl⟩

theorem cdnewregion_empty (ctx : cdCtxCanvas) (fr fa : Int → Int → Bool) (x y : Int) :
    ¬ cdispointinregion (cdnewregion ctx fr fa) x y = 1 := by
  intro h
  obtain ⟨R, hR, h1, h2, h3, h4, hp⟩ := (cdispointinregion_eq_one_iff _ x y).mp h
  simp only [cdnewregion, Option.some.injEq] at hR
  subst hR
  have h2' : x < (ctx.canvas.w : Int) := h2
  have h4' : y < (ctx.canvas.h : Int) := h4
  simp [gdk_draw_rectangle, gdk_draw_filled, GdkBitmap.inside, rectangle_shape,
    gdk_extent_natCast, gdk_function_apply, fg_bit, h1, h2', h3, h4'] at hp

/-- C7: after `cdnewregion`, a box covering columns and rows 0..9 (the filled rectangle at
(0, 0) of extent 10 x 10) combined with `CD_UNION`, and a box from (5, 5) reaching at
least to column and row 9 (extent 15 x 15 gives `xmax = ymax = 19`, corners (5, 5) and
(15, 15) give 14) combined with `CD_INTERSECT`, on a canvas holding the pixels 0..9,
`cdispointinregion(7, 7)` is 1, `cdispointinregion(2, 2)` is 0 and `cdgetregionbox`
returns (5, 9, 5, 9). -/
theorem region_accumulation_scenario (ctx : cdCtxCanvas) (fr fa : Int → Int → Bool)
    (sim : cdCtxCanvas → Int → Int → Int → Int → cdCtxCanvas) (box0 : RegionBox)
    (xmax2 ymax2 : Int) (hx2 : 9 ≤ xmax2) (hy2 : 9 ≤ ymax2)
    (hw : 10 ≤ ctx.canvas.w) (hh : 10 ≤ ctx.canvas.h)
    (hm : ctx.canvas.use_matrix = false) (hn : ctx.canvas.new_region = true) :
    cdispointinregion
      (cdbox sim (set_combine_mode
        (cdbox sim (set_combine_mode (cdnewregion ctx fr fa) .CD_UNION) 0 9 0 9)
        .CD_INTERSECT) 5 xmax2 5 ymax2) 7 7 = 1 ∧
    cdispointinregion
      (cdbox sim (set_combine_mode
        (cdbox sim (set_combine_mode (cdnewregion ctx fr fa) .CD_UNION) 0 9 0 9)
        .CD_INTERSECT) 5 xmax2 5 ymax2) 2 2 = 0 ∧
    cdgetregionbox
      (cdbox sim (set_combine_mode
        (cdbox sim (set_combine_mode (cdnewregion ctx fr fa) .CD_UNION) 0 9 0 9)
        .CD_INTERSECT) 5 xmax2 5 ymax2) box0 = { xmin := 5, xmax := 9, ymin := 5, ymax := 9 } := by
  have hs0 := set_combine_mode_sized _ .CD_UNION (cdnewregion_sized ctx fr fa)
  have e1 : cdbox sim (set_combine_mode (cdnewregion ctx fr fa) .CD_UNION) 0 9 0 9 =
      region_shape (set_combine_mode (cdnewregion ctx fr fa) .CD_UNION)
        (fun X Y => decide (0 ≤ X ∧ X ≤ 9 ∧ 0 ≤ Y ∧ Y ≤ 9)) :=
    cdbox_region sim _ 0 9 0 9 hm hn (by decide) (by decide)
  rw [e1]
  have hs1 := set_combine_mode_sized _ .CD_INTERSECT (region_shape_sized _
    (fun X Y => decide (0 ≤ X ∧ X ≤ 9 ∧ 0 ≤ Y ∧ Y ≤ 9)) hs0)
  have hcv1 : (set_combine_mode (region_shape (set_combine_mode (cdnewregion ctx fr fa)
      .CD_UNION) (fun X Y => decide (0 ≤ X ∧ X ≤ 9 ∧ 0 ≤ Y ∧ Y ≤ 9))) .CD_INTERSECT).canvas =
      { ctx.canvas with combine_mode := .CD_INTERSECT } := by
    simp [set_combine_mode, region_shape_canvas, cdnewregion]
  have e2 : cdbox sim (set_combine_mode (region_shape (set_combine_mode (cdnewregion ctx fr fa)
      .CD_UNION) (fun X Y => decide (0 ≤ X ∧ X ≤ 9 ∧ 0 ≤ Y ∧ Y ≤ 9))) .CD_INTERSECT)
      5 xmax2 5 ymax2 =
      region_shape (set_combine_mode (region_shape (set_combine_mode (cdnewregion ctx fr fa)
      .CD_UNION) (fun X Y => decide (0 ≤ X ∧ X ≤ 9 ∧ 0 ≤ Y ∧ Y ≤ 9))) .CD_INTERSECT)
        (fun X Y => decide (5 ≤ X ∧ X ≤ xmax2 ∧ 5 ≤ Y ∧ Y ≤ ymax2)) :=
    cdbox_region sim _ 5 xmax2 5 ymax2 (by rw [hcv1]; exact hm) (by rw [hcv1]; exact hn)
      (by omega) (by omega)
  rw [e2]
  have hmem : ∀ x y : Int, cdispointinregion
      (region_shape (set_combine_mode (region_shape (set_combine_mode (cdnewregion ctx fr fa)
      .CD_UNION) (fun X Y => decide (0 ≤ X ∧ X ≤ 9 ∧ 0 ≤ Y ∧ Y ≤ 9))) .CD_INTERSECT)
        (fun X Y => decide (5 ≤ X ∧ X ≤ xmax2 ∧ 5 ≤ Y ∧ Y ≤ ymax2))) x y = 1 ↔
      (5 ≤ x ∧ x ≤ 9 ∧ 5 ≤ y ∧ y ≤ 9) := by
    intro x y
    by_cases hb : 0 ≤ x ∧ x < (ctx.canvas.w : Int) ∧ 0 ≤ y ∧ y < (ctx.canvas.h : Int)
    · obtain ⟨b1, b2, b3, b4⟩ := hb
      rw [region_shape_member _ _ hs1 x y b1 (by rw [hcv1]; exact b2) b3 (by rw [hcv1]; exact b4)]
      rw [set_combine_mode_member]
      have hm1 := region_shape_member _ (fun X Y => decide (0 ≤ X ∧ X ≤ 9 ∧ 0 ≤ Y ∧ Y ≤ 9))
        hs0 x y b1 b2 b3 b4
      rw [set_combine_mode_member] at hm1
      have hz := cdnewregion_empty ctx fr fa x y
      have hmode1 : (set_combine_mode (cdnewregion ctx fr fa) .CD_UNION).canvas.combine_mode
          = .CD_UNION := rfl
      rw [hmode1] at hm1
      rw [hcv1]
      simp only [combine_function, gdk_function_apply, hz, decide_False, Bool.or_false,
        decide_eq_true_eq] at hm1
      simp only [combine_function, gdk_function_apply, Bool.and_eq_true, decide_eq_true_eq, hm1]
      omega
    · constructor
      · intro h
        obtain ⟨R, _, g1, g2, g3, g4, _⟩ := (cdispointinregion_eq_one_iff _ x y).mp h
        rw [region_shape_canvas, hcv1] at g2 g4
        exact absurd ⟨g1, g2, g3, g4⟩ hb
      · intro h
        exfalso
        apply hb
        omega
  refine ⟨(hmem 7 7).mpr (by decide), ?_, ?_⟩
  · rw [cdispointinregion_eq_zero_iff, hmem]
    decide
  · exact cdgetregionbox_of_rectangle _ box0 5 9 5 9 (by decide) (by decide) hmem

/-- Witness of `region_accumulation_scenario`: the 20 x 20 canvas, the second rectangle of
extent 15 x 15. -/
theorem region_accumulation_scenario_witness :
    cdgetregionbox
      (cdbox noSIM (set_combine_mode
        (cdbox noSIM (set_combine_mode
          (cdnewregion (noregion_ctx 20 20) (fun _ _ => true) (fun _ _ => true)) .CD_UNION) 0 9 0 9)
        .CD_INTERSECT) 5 19 5 19) ⟨7, 7, 7, 7⟩ = { xmin := 5, xmax := 9, ymin := 5, ymax := 9 } :=
  (region_accumulation_scenario (noregion_ctx 20 20) (fun _ _ => true) (fun _ _ => true) noSIM
    ⟨7, 7, 7, 7⟩ 19 19 (by decide) (by decide) (by decide) (by decide) rfl rfl).2.2

/-! ## Properties of the colour resolver -/

theorem tdiv_bounds (d b : Int) (hb : 0 < b) (h1 : -65535 ≤ d) (h2 : d ≤ 65535) :
    -65535 ≤ Int.tdiv d b ∧ Int.tdiv d b ≤ 65535 := by
  by_cases hd : 0 ≤ d
  · rw [Int.tdiv_eq_ediv hd (le_of_lt hb)]
    have := Int.ediv_nonneg hd (le_of_lt hb)
    have := Int.ediv_le_self b hd
    omega
  · have hneg : d = -(-d) := by omega
    have hd' : 0 ≤ -d := by omega
    rw [hneg, Int.neg_tdiv, Int.tdiv_eq_ediv hd' (le_of_lt hb)]
    have := Int.ediv_nonneg hd' (le_of_lt hb)
    have := Int.ediv_le_self b hd'
    omega

theorem sq_bound (t : Int) (h1 : -65535 ≤ t) (h2 : t ≤ 65535) :
    0 ≤ t * t ∧ t * t ≤ 4294836225 := by
  constructor
  · exact mul_self_nonneg t
  · nlinarith

/-- Under the `guint16` bounds the `unsigned long` distance of `find_color` is the
specified distance and stays below `ULONG_MAX`. -/
theorem find_color_dist_spec (a b : GdkColor) (ha : a.wf) (hb : b.wf) :
    (find_color_dist a b : Int) = spec_color_dist a b ∧ find_color_dist a b < ULONG_MAX := by
  obtain ⟨a1, a2, a3⟩ := ha
  obtain ⟨b1, b2, b3⟩ := hb
  obtain ⟨r1, r2⟩ := tdiv_bounds ((a.red : Int) - (b.red : Int)) 850 (by decide)
    (by omega) (by omega)
  obtain ⟨g1, g2⟩ := tdiv_bounds ((a.green : Int) - (b.green : Int)) 432 (by decide)
    (by omega) (by omega)
  obtain ⟨c1, c2⟩ := tdiv_bounds ((a.blue : Int) - (b.blue : Int)) 2318 (by decide)
    (by omega) (by omega)
  obtain ⟨sr1, sr2⟩ := sq_bound _ r1 r2
  obtain ⟨sg1, sg2⟩ := sq_bound _ g1 g2
  obtain ⟨sb1, sb2⟩ := sq_bound _ c1 c2
  unfold find_color_dist spec_color_dist
  simp only [pow_two]
  generalize Int.tdiv ((a.red : Int) - (b.red : Int)) 850 *
    Int.tdiv ((a.red : Int) - (b.red : Int)) 850 = sr at sr1 sr2 ⊢
  generalize Int.tdiv ((a.green : Int) - (b.green : Int)) 432 *
    Int.tdiv ((a.green : Int) - (b.green : Int)) 432 = sg at sg1 sg2 ⊢
  generalize Int.tdiv ((a.blue : Int) - (b.blue : Int)) 2318 *
    Int.tdiv ((a.blue : Int) - (b.blue : Int)) 2318 = sb at sb1 sb2 ⊢
  have hU : (2 ^ ULONG_BITS : Int) = 18446744073709551616 := by
    simp [ULONG_BITS]
  have hM : ULONG_MAX = 18446744073709551615 := by
    simp [ULONG_MAX, ULONG_BITS]
  rw [hU, hM]
  omega

/-- State of the `find_color` loop after the indices `0 .. n-1`. -/
theorem find_color_loop_inv (tbl : Nat → GdkColor) (xc1 : GdkColor) (N : Nat)
    (hlt : ∀ i, i < N → find_color_dist xc1 (tbl i) < ULONG_MAX) :
    ∀ n, n ≤ N →
      (n = 0 ∧ (List.range n).foldl (find_color_step tbl xc1) (0, ULONG_MAX) = (0, ULONG_MAX)) ∨
      (((List.range n).foldl (find_color_step tbl xc1) (0, ULONG_MAX)).1 < n ∧
        ((List.range n).foldl (find_color_step tbl xc1) (0, ULONG_MAX)).2 =
          find_color_dist xc1
            (tbl ((List.range n).foldl (find_color_step tbl xc1) (0, ULONG_MAX)).1) ∧
        (∀ i, i < n → ((List.range n).foldl (find_color_step tbl xc1) (0, ULONG_MAX)).2 ≤
          find_color_dist xc1 (tbl i)) ∧
        (∀ i, i < ((List.range n).foldl (find_color_step tbl xc1) (0, ULONG_MAX)).1 →
          ((List.range n).foldl (find_color_step tbl xc1) (0, ULONG_MAX)).2 <
            find_color_dist xc1 (tbl i))) := by
  intro n
  induction n with
  | zero =>
    intro _
    exact Or.inl ⟨rfl, rfl⟩
  | succ n ih =>
    intro hn
    right
    rw [List.range_succ, List.foldl_append]
    simp only [List.foldl_cons, List.foldl_nil]
    have hdn := hlt n (by omega)
    rcases ih (by omega) with ⟨h0, hst⟩ | ⟨p1, p2, p3, p4⟩
    · rw [hst]
      subst h0
      simp only [find_color_step, hdn, if_true]
      refine ⟨by omega, trivial, ?_, ?_⟩
      · intro i hi
        have : i = 0 := by omega
        subst this
        exact le_refl _
      · intro i hi
        omega
    · generalize (List.range n).foldl (find_color_step tbl xc1) (0, ULONG_MAX) = st at p1 p2 p3 p4
      unfold find_color_step
      by_cases hc : find_color_dist xc1 (tbl n) < st.2
      · simp only [hc, if_true]
        refine ⟨by omega, trivial, ?_, ?_⟩
        · intro i hi
          by_cases hin : i = n
          · subst hin; exact le_refl _
          · have := p3 i (by omega)
            omega
        · intro i hi
          have := p3 i hi
          omega
      · simp only [hc, if_false]
        refine ⟨by omega, p2, ?_, p4⟩
        intro i hi
        by_cases hin : i = n
        · subst hin; omega
        · exact p3 i (by omega)

theorem find_color_loop_congr (t1 t2 : Nat → GdkColor) (xc1 : GdkColor) (N : Nat)
    (hag : ∀ i, i < N → t2 i = t1 i) (st : Nat × Nat) :
    ∀ n, n ≤ N → (List.range n).foldl (find_color_step t2 xc1) st =
      (List.range n).foldl (find_color_step t1 xc1) st := by
  intro n
  induction n with
  | zero => intro _; rfl
  | succ n ih =>
    intro hn
    rw [List.range_succ, List.foldl_append, List.foldl_append, ih (by omega)]
    simp only [List.foldl_cons, List.foldl_nil, find_color_step, hag n (by omega)]

/-- C10: for a table of `num_colors ≥ 1` entries `find_color` returns an index below
`num_colors` whose weighted squared distance to the target is minimal over the table and
strictly smaller than that of every lower index (so it is the lowest minimising index);
the result is the same for any table with the same entries. -/
theorem find_color_nearest (ctx : cdCtxCanvas) (xc1 : GdkColor) (hn : 1 ≤ ctx.num_colors)
    (h1 : xc1.wf) (ht : ∀ i, i < ctx.num_colors → (ctx.color_table i).wf) :
    find_color ctx xc1 < ctx.num_colors ∧
    (∀ i, i < ctx.num_colors →
      spec_color_dist xc1 (ctx.color_table (find_color ctx xc1)) ≤
        spec_color_dist xc1 (ctx.color_table i)) ∧
    (∀ i, i < find_color ctx xc1 →
      spec_color_dist xc1 (ctx.color_table (find_color ctx xc1)) <
        spec_color_dist xc1 (ctx.color_table i)) ∧
    (∀ ctx2 : cdCtxCanvas, ctx2.num_colors = ctx.num_colors →
      (∀ i, i < ctx.num_colors → ctx2.color_table i = ctx.color_table i) →
      find_color ctx2 xc1 = find_color ctx xc1) := by
  have hlt : ∀ i, i < ctx.num_colors → find_color_dist xc1 (ctx.color_table i) < ULONG_MAX :=
    fun i hi => (find_color_dist_spec xc1 _ h1 (ht i hi)).2
  have hinv := find_color_loop_inv ctx.color_table xc1 ctx.num_colors hlt ctx.num_colors
    (le_refl _)
  rcases hinv with ⟨h0, _⟩ | ⟨p1, p2, p3, p4⟩
  · omega
  · have hp : find_color ctx xc1 =
        ((List.range ctx.num_colors).foldl (find_color_step ctx.color_table xc1)
          (0, ULONG_MAX)).1 := rfl
    rw [← hp] at p1 p2 p4
    have hsp : ∀ i, i < ctx.num_colors →
        (find_color_dist xc1 (ctx.color_table i) : Int) = spec_color_dist xc1 (ctx.color_table i) :=
      fun i hi => (find_color_dist_spec xc1 _ h1 (ht i hi)).1
    refine ⟨p1, ?_, ?_, ?_⟩
    · intro i hi
      rw [← hsp i hi, ← hsp _ p1]
      have := p3 i hi
      rw [p2] at this
      exact_mod_cast this
    · intro i hi
      rw [← hsp i (by omega), ← hsp _ p1]
      have := p4 i hi
      rw [p2] at this
      exact_mod_cast this
    · intro ctx2 hnum hag
      unfold find_color
      rw [hnum, find_color_loop_congr ctx.color_table ctx2.color_table xc1 ctx.num_colors hag
        (0, ULONG_MAX) ctx.num_colors (le_refl _)]

/-- Witness of `find_color_nearest`: a table of three reds 0, 1000, 2000 and the target
red 1900, whose nearest slot is 2. -/
theorem find_color_nearest_witness :
    find_color palette_ctx { pixel := 0, red := 1900, green := 0, blue := 0 } = 2 ∧
    find_color palette_ctx { pixel := 0, red := 1900, green := 0, blue := 0 } <
      palette_ctx.num_colors :=
  ⟨by decide,
   (find_color_nearest palette_ctx { pixel := 0, red := 1900, green := 0, blue := 0 }
      (by decide) (by simp [GdkColor.wf])
      (by
        intro i hi
        have hi3 : i < 3 := hi
        simp only [GdkColor.wf, palette_ctx]
        omega)).1⟩

/-- C8 as stated fails: whatever the macros, the canvas and the colour asked for, the
`pixel` member of the `GdkColor` returned by `truecolor_get_pixel` is the one the
uninitialised local held, the same for white and for black, while the specified value
(the OR of the channels placed in their masks) is 0xFFFFFF for white and 0 for black on
the masks 0xFF0000, 0x00FF00, 0x0000FF; so the member is not the specified value for
both colours. -/
theorem truecolor_get_pixel_pixel_unassigned :
    (∀ (M : CdMacros) (ctx : cdCtxCanvas) (clrRGB : GdkColor) (rgb : Nat),
      (truecolor_get_pixel M ctx clrRGB rgb).pixel = clrRGB.pixel) ∧
    spec_truecolor_pixel vis888 255 255 255 = 0xFFFFFF ∧
    spec_truecolor_pixel vis888 0 0 0 = 0 ∧
    (∀ (M : CdMacros) (ctx : cdCtxCanvas) (clrRGB : GdkColor),
      ¬ ((truecolor_get_pixel M ctx clrRGB 0xFFFFFF).pixel =
            spec_truecolor_pixel vis888 255 255 255 ∧
          (truecolor_get_pixel M ctx clrRGB 0x000000).pixel =
            spec_truecolor_pixel vis888 0 0 0)) := by
  refine ⟨fun _ _ _ _ => rfl, by decide, by decide, ?_⟩
  rintro M ctx clrRGB ⟨hw, hb⟩
  have h : (truecolor_get_pixel M ctx clrRGB 0xFFFFFF).pixel =
      (truecolor_get_pixel M ctx clrRGB 0x000000).pixel := rfl
  rw [h, hb] at hw
  exact absurd hw (by decide)

/-- The inverse resolver applied to the `pixel` member of `truecolor_get_pixel`: whatever
the macros, the canvas (masks and shifts) and the content of the uninitialised local,
white (0xFFFFFF) and black (0x000000) come back as the same triple, so they are not
returned as (255, 255, 255) and (0, 0, 0). -/
theorem truecolor_roundtrip_loses_rgb (M : CdMacros) (ctx : cdCtxCanvas) (clrRGB : GdkColor) :
    truecolor_get_rgb M ctx (truecolor_get_pixel M ctx clrRGB 0xFFFFFF).pixel =
      truecolor_get_rgb M ctx (truecolor_get_pixel M ctx clrRGB 0x000000).pixel ∧
    ¬ (truecolor_get_rgb M ctx (truecolor_get_pixel M ctx clrRGB 0xFFFFFF).pixel =
          (255, 255, 255) ∧
        truecolor_get_rgb M ctx (truecolor_get_pixel M ctx clrRGB 0x000000).pixel =
          (0, 0, 0)) := by
  have h : truecolor_get_rgb M ctx (truecolor_get_pixel M ctx clrRGB 0xFFFFFF).pixel =
      truecolor_get_rgb M ctx (truecolor_get_pixel M ctx clrRGB 0x000000).pixel := rfl
  refine ⟨h, ?_⟩
  rintro ⟨hw, hb⟩
  rw [h, hb] at hw
  exact absurd hw (by decide)

/-! ## Properties of the scratch buffer -/

theorem get_data_buffer_step (ctx : cdCtxCanvas) (size : Int) (alloc : AllocOutcome)
    (hinv : XiDataInv ctx) (hsize : 0 ≤ size) :
    XiDataInv (get_data_buffer ctx size alloc).2 ∧
    (get_data_buffer ctx size alloc).1 = (get_data_buffer ctx size alloc).2.xidata ∧
    (((get_data_buffer ctx size alloc).1.isSome = true ∧
        size ≤ (get_data_buffer ctx size alloc).2.xisize ∧
        ctx.xisize ≤ (get_data_buffer ctx size alloc).2.xisize) ∨
      ((get_data_buffer ctx size alloc).1.isNone = true ∧
        (get_data_buffer ctx size alloc).2.xisize = 0)) := by
  obtain ⟨h0, hnone⟩ := hinv
  unfold get_data_buffer XiDataInv
  cases hx : ctx.xidata with
  | none =>
    have hz := hnone (by simp [hx])
    cases hb : alloc.block with
    | none => simp
    | some a => simp; omega
  | some old =>
    by_cases hlt : ctx.xisize < size
    · cases hb : alloc.block with
      | none => simp [hlt]
      | some a => simp [hlt]; omega
    · simp [hlt, hx]
      omega

theorem get_data_buffer_calls_inv (ctx : cdCtxCanvas) (calls : List (Int × AllocOutcome))
    (hinv : XiDataInv ctx) (hsizes : ∀ call ∈ calls, 0 ≤ call.1) :
    XiDataInv (get_data_buffer_calls ctx calls) := by
  induction calls generalizing ctx with
  | nil => exact hinv
  | cons call rest ih =>
    unfold get_data_buffer_calls
    simp only [List.foldl_cons]
    exact ih _ (get_data_buffer_step ctx call.1 call.2 hinv
      (hsizes call (List.mem_cons_self _ _))).1
      (fun c hc => hsizes c (List.mem_cons_of_mem _ hc))

/-- C18 as stated fails on the zeroed state for a request of size 0: the request is not
larger than the capacity 0, yet `malloc(0)` may return a block, which is then recorded. -/
theorem get_data_buffer_zero_request :
    (noregion_ctx 4 4).xidata.isNone = true ∧ (noregion_ctx 4 4).xisize = 0 ∧
    (0 : Int) ≤ (noregion_ctx 4 4).xisize ∧
    (get_data_buffer (noregion_ctx 4 4) 0 alloc_ok).2.xidata.isSome = true ∧
    (get_data_buffer (noregion_ctx 4 4) 0 alloc_ok).1.isSome = true := by
  refine ⟨rfl, rfl, by decide, rfl, rfl⟩

/-- C18 amended: starting from the zeroed state (recorded capacity 0), after any run of
`get_data_buffer` calls with non-negative sizes a further call either returns the
recorded buffer, with capacity `xisize ≥ size` and not below the capacity before the
call, or returns NULL with `xisize = 0` and no buffer recorded; and when a buffer is
recorded, a request not larger than the capacity leaves the canvas state (buffer and
capacity) as it is and returns that buffer. -/
theorem get_data_buffer_grow_only (ctx0 : cdCtxCanvas) (calls : List (Int × AllocOutcome))
    (size : Int) (alloc : AllocOutcome)
    (hz : ctx0.xisize = 0)
    (hsizes : ∀ call ∈ calls, 0 ≤ call.1) (hsize : 0 ≤ size) :
    (((get_data_buffer (get_data_buffer_calls ctx0 calls) size alloc).1.isSome = true ∧
        (get_data_buffer (get_data_buffer_calls ctx0 calls) size alloc).1 =
          (get_data_buffer (get_data_buffer_calls ctx0 calls) size alloc).2.xidata ∧
        size ≤ (get_data_buffer (get_data_buffer_calls ctx0 calls) size alloc).2.xisize ∧
        (get_data_buffer_calls ctx0 calls).xisize ≤
          (get_data_buffer (get_data_buffer_calls ctx0 calls) size alloc).2.xisize) ∨
      ((get_data_buffer (get_data_buffer_calls ctx0 calls) size alloc).1.isNone = true ∧
        (get_data_buffer (get_data_buffer_calls ctx0 calls) size alloc).2.xidata.isNone = true ∧
        (get_data_buffer (get_data_buffer_calls ctx0 calls) size alloc).2.xisize = 0)) ∧
    ((get_data_buffer_calls ctx0 calls).xidata.isSome = true →
      size ≤ (get_data_buffer_calls ctx0 calls).xisize →
      (get_data_buffer (get_data_buffer_calls ctx0 calls) size alloc).2 =
        get_data_buffer_calls ctx0 calls ∧
      (get_data_buffer (get_data_buffer_calls ctx0 calls) size alloc).1 =
        (get_data_buffer_calls ctx0 calls).xidata) := by
  have hinv0 : XiDataInv ctx0 := ⟨by omega, fun _ => hz⟩
  have hinv := get_data_buffer_calls_inv ctx0 calls hinv0 hsizes
  generalize get_data_buffer_calls ctx0 calls = c at hinv
  obtain ⟨_, hret, hcase⟩ := get_data_buffer_step c size alloc hinv hsize
  constructor
  · rcases hcase with ⟨a1, a2, a3⟩ | ⟨b1, b2⟩
    · exact Or.inl ⟨a1, hret, a2, a3⟩
    · exact Or.inr ⟨b1, by rw [← hret]; exact b1, b2⟩
  · intro hsome hle
    unfold get_data_buffer
    cases hx : c.xidata with
    | none => rw [hx] at hsome; cases hsome
    | some old =>
      have hlt : ¬ c.xisize < size := by omega
      simp [hlt, hx]

/-- Witness of `get_data_buffer_grow_only`: after a successful request of 10 bytes a
request of 5 bytes changes nothing, whatever the allocator would answer. -/
theorem get_data_buffer_grow_only_witness :
    (get_data_buffer (get_data_buffer_calls (noregion_ctx 4 4) [(10, alloc_ok)]) 5
        alloc_fail).2 = get_data_buffer_calls (noregion_ctx 4 4) [(10, alloc_ok)] :=
  ((get_data_buffer_grow_only (noregion_ctx 4 4) [(10, alloc_ok)] 5 alloc_fail rfl
    (by
      intro call hc
      simp only [List.mem_singleton] at hc
      subst hc
      decide)
    (by decide)).2 rfl (by decide)).1

/-! ## Properties of the zoom table -/

theorem zoom_entry_mono (D S : Int) (hD : 1 ≤ D) (hS : 1 ≤ S) (a b : Nat) (hab : a ≤ b) :
    max 0 (min (S - 1) (0 + ((a : Int) * S) / D)) ≤
      max 0 (min (S - 1) (0 + ((b : Int) * S) / D)) := by
  have hmul : (a : Int) * S ≤ (b : Int) * S :=
    Int.mul_le_mul_of_nonneg_right (by exact_mod_cast hab) (by omega)
  have hdiv : ((a : Int) * S) / D ≤ ((b : Int) * S) / D := Int.ediv_le_ediv (by omega) hmul
  omega

/-- C12: for destination extent `D ≥ 1` and source extent `S ≥ 1` the zoom table built
for `(D, S, 0)` has exactly `D` entries, every entry lies in `[0, S)`, and the entries
are non-decreasing. -/
theorem cdGetZoomTable_spec (D S : Int) (hD : 1 ≤ D) (hS : 1 ≤ S) :
    ((cdGetZoomTable D S 0).length : Int) = D ∧
    (∀ x ∈ cdGetZoomTable D S 0, 0 ≤ x ∧ x < S) ∧
    List.Pairwise (fun a b => a ≤ b) (cdGetZoomTable D S 0) := by
  refine ⟨?_, ?_, ?_⟩
  · simp only [cdGetZoomTable, List.length_map, List.length_range]
    omega
  · intro x hx
    simp only [cdGetZoomTable, List.mem_map, List.mem_range] at hx
    obtain ⟨d, _, rfl⟩ := hx
    omega
  · unfold cdGetZoomTable
    rw [List.pairwise_map]
    exact List.Pairwise.imp (fun {a b} hab => zoom_entry_mono D S hD hS a b (le_of_lt hab))
      (List.pairwise_lt_range _)

/-- Witness of `cdGetZoomTable_spec`: magnifying 3 source pixels to 5. -/
theorem cdGetZoomTable_spec_witness :
    cdGetZoomTable 5 3 0 = [0, 0, 1, 1, 2] ∧
    ((cdGetZoomTable 5 3 0).length : Int) = 5 ∧
    List.Pairwise (fun a b => a ≤ b) (cdGetZoomTable 5 3 0) :=
  ⟨by decide, (cdGetZoomTable_spec 5 3 (by decide) (by decide)).1,
    (cdGetZoomTable_spec 5 3 (by decide) (by decide)).2.2⟩

/-! ## Properties of the RGB packer -/

theorem alpha_blend_le (src dst alpha : Nat) (hs : src ≤ 255) (hd : dst ≤ 255)
    (ha : alpha ≤ 255) : CD_ALPHA_BLEND src dst alpha ≤ 255 := by
  unfold CD_ALPHA_BLEND
  have h1 : src * alpha ≤ 255 * alpha := Nat.mul_le_mul_right _ hs
  have h2 : dst * (255 - alpha) ≤ 255 * (255 - alpha) := Nat.mul_le_mul_right _ hd
  have h3 : src * alpha / 255 ≤ alpha := by
    calc src * alpha / 255 ≤ 255 * alpha / 255 := Nat.div_le_div_right h1
      _ = alpha := by omega
  have h4 : dst * (255 - alpha) / 255 ≤ 255 - alpha := by
    calc dst * (255 - alpha) / 255 ≤ 255 * (255 - alpha) / 255 := Nat.div_le_div_right h2
      _ = 255 - alpha := by omega
  omega

/-- C15: with alpha supplied each channel of `rgb2gdkImage` is the blend
`src*alpha/255 + dst*(255-alpha)/255` of the source channel and the channel read back
from the destination; for channel values and alpha in 0..255 the blend lies in 0..255,
equals `src` when `alpha = 255` and `dst` when `alpha = 0`; without alpha the source
channels are used unchanged. -/
theorem rgb2gdk_alpha_blend (E : RgbEnv) (ctx : cdCtxCanvas) (P : RgbPlanes)
    (src j row : Int) (hE : E.blend = CD_ALPHA_BLEND) :
    (∀ s d a : Nat, CD_ALPHA_BLEND s d a = s * a / 255 + d * (255 - a) / 255) ∧
    (∀ s d a : Nat, s ≤ 255 → d ≤ 255 → a ≤ 255 → CD_ALPHA_BLEND s d a ≤ 255) ∧
    (∀ s d : Nat, CD_ALPHA_BLEND s d 255 = s) ∧
    (∀ s d : Nat, CD_ALPHA_BLEND s d 0 = d) ∧
    (∀ alpha : Int → Nat, P.alpha = some alpha →
      rgb2gdk_channels E ctx P src j row =
        (CD_ALPHA_BLEND (P.red src) (E.cdgdkGetRGB ctx (E.oxi_pixel j row)).1 (alpha src),
         CD_ALPHA_BLEND (P.green src) (E.cdgdkGetRGB ctx (E.oxi_pixel j row)).2.1 (alpha src),
         CD_ALPHA_BLEND (P.blue src) (E.cdgdkGetRGB ctx (E.oxi_pixel j row)).2.2 (alpha src))) ∧
    (P.alpha = none → rgb2gdk_channels E ctx P src j row = (P.red src, P.green src, P.blue src)) := by
  refine ⟨fun _ _ _ => rfl, alpha_blend_le, ?_, ?_, ?_, ?_⟩
  · intro s d
    unfold CD_ALPHA_BLEND
    omega
  · intro s d
    unfold CD_ALPHA_BLEND
    omega
  · intro alpha ha
    simp only [rgb2gdk_channels, ha, hE]
  · intro ha
    simp only [rgb2gdk_channels, ha]

/-- C17: `rgb2gdkImage` returns NULL whenever the image reports a bits-per-pixel other
than 8, 16, 24 or 32, and then the canvas state, with the scratch buffer `xidata` and its
capacity `xisize`, is left as it was; it also returns NULL when `get_data_buffer` returns
NULL, and when `gdk_image_new` fails. -/
theorem rgb2gdkImage_failure (E : RgbEnv) (ctx : cdCtxCanvas) (ew eh : Int) (P : RgbPlanes)
    (by_ bx bw bh iw : Int) :
    (∀ xim, E.xim = some xim → xim.bits_per_pixel ≠ 8 → xim.bits_per_pixel ≠ 16 →
      xim.bits_per_pixel ≠ 24 → xim.bits_per_pixel ≠ 32 →
      rgb2gdkImage E ctx ew eh P by_ bx bw bh iw = (none, ctx)) ∧
    (∀ xim, E.xim = some xim →
      (get_data_buffer ctx (eh * (xim.bpl : Int)) E.alloc).1.isNone = true →
      (rgb2gdkImage E ctx ew eh P by_ bx bw bh iw).1 = none) ∧
    (E.xim = none → rgb2gdkImage E ctx ew eh P by_ bx bw bh iw = (none, ctx)) := by
  refine ⟨?_, ?_, ?_⟩
  · intro xim hx h8 h16 h24 h32
    simp [rgb2gdkImage, hx, h8, h16, h24, h32]
  · intro xim hx hbuf
    unfold rgb2gdkImage
    simp only [hx]
    split_ifs
    · rfl
    · cases hr : (get_data_buffer ctx (eh * (xim.bpl : Int)) E.alloc).1 with
      | none => rfl
      | some b => rw [hr] at hbuf; cases hbuf
  · intro hx
    simp [rgb2gdkImage, hx]

/-- Witness of `rgb2gdk_alpha_blend`: source (200, 100, 0) over a destination pixel 10
with alpha 128. -/
theorem rgb2gdk_alpha_blend_witness :
    rgb2gdk_channels (rgb_env 32) (noregion_ctx 4 4) (rgb_planes (some fun _ => 128)) 0 0 0 =
      (CD_ALPHA_BLEND 200 ((rgb_env 32).cdgdkGetRGB (noregion_ctx 4 4) 10).1 128,
       CD_ALPHA_BLEND 100 ((rgb_env 32).cdgdkGetRGB (noregion_ctx 4 4) 10).2.1 128,
       CD_ALPHA_BLEND 0 ((rgb_env 32).cdgdkGetRGB (noregion_ctx 4 4) 10).2.2 128) ∧
    CD_ALPHA_BLEND 200 10 128 ≤ 255 :=
  ⟨(rgb2gdk_alpha_blend (rgb_env 32) (noregion_ctx 4 4) (rgb_planes (some fun _ => 128))
      0 0 0 rfl).2.2.2.2.1 (fun _ => 128) rfl,
   (rgb2gdk_alpha_blend (rgb_env 32) (noregion_ctx 4 4) (rgb_planes (some fun _ => 128))
      0 0 0 rfl).2.1 200 10 128 (by decide) (by decide) (by decide)⟩

/-- Witness of `rgb2gdkImage_failure`: an image of 15 bits per pixel. -/
theorem rgb2gdkImage_failure_witness :
    rgb2gdkImage (rgb_env 15) (noregion_ctx 4 4) 2 2 (rgb_planes none) 0 0 2 2 2 =
      (none, noregion_ctx 4 4) :=
  (rgb2gdkImage_failure (rgb_env 15) (noregion_ctx 4 4) 2 2 (rgb_planes none) 0 0 2 2 2).1
    _ rfl (by decide) (by decide) (by decide) (by decide)

theorem and_two_pow_31_eq_zero_iff (u : Nat) (hu : u < 2 ^ 32) :
    u &&& 0x80000000 = 0 ↔ u < 2 ^ 31 := by
  have h31 : (0x80000000 : Nat) = 2 ^ 31 := by norm_num
  constructor
  · intro h
    by_contra hge
    have hbit : u.testBit 31 = true := by
      rw [Nat.testBit_to_div_mod]
      simp only [decide_eq_true_eq]
      omega
    have : (u &&& 0x80000000).testBit 31 = true := by
      rw [Nat.testBit_and, hbit, h31, Nat.testBit_two_pow]
      simp
    rw [h] at this
    simp at this
  · intro h
    apply Nat.eq_of_testBit_eq
    intro i
    rw [Nat.testBit_and, h31, Nat.testBit_two_pow, Nat.zero_testBit]
    by_cases hi : 31 = i
    · subst hi
      rw [Nat.testBit_lt_two_pow h]
      simp
    · simp [hi]

/-- The loop of `highbit` after `d` shifts, on a value below `2^32` that is at least
`2^d`: it stops at the position of the highest set bit. -/
theorem highbit_loop_spec : ∀ (fuel d u : Nat), d ≤ 31 → 33 ≤ fuel + d → u < 2 ^ 32 →
    2 ^ d ≤ u →
    ∃ h : Nat, highbit_loop fuel (31 - (d : Int)) u = (h : Int) ∧ 2 ^ (h + d) ≤ u ∧
      u < 2 ^ (h + d + 1) := by
  intro fuel
  induction fuel with
  | zero => intro d u hd hf; omega
  | succ fuel ih =>
    intro d u hd hf hu hlow
    unfold highbit_loop
    by_cases hz : u &&& 0x80000000 = 0
    · have hlt : u < 2 ^ 31 := (and_two_pow_31_eq_zero_iff u hu).mp hz
      have hd31 : d < 31 := by
        by_contra hge
        have : d = 31 := by omega
        subst this
        omega
      have hcond : u &&& 0x80000000 = 0 ∧ (0 : Int) ≤ 31 - (d : Int) := ⟨hz, by omega⟩
      simp only [hcond, and_self, if_true]
      have hsh : (u <<< 1) % 2 ^ ULONG_BITS = 2 * u := by
        rw [Nat.shiftLeft_eq]
        have : (2:Nat) ^ ULONG_BITS = 18446744073709551616 := by simp [ULONG_BITS]
        rw [this]
        have h32 : (2:Nat) ^ 31 = 2147483648 := by norm_num
        omega
      rw [hsh]
      have hidx : (31 : Int) - (d : Int) - 1 = 31 - ((d + 1 : Nat) : Int) := by
        push_cast; omega
      rw [hidx]
      have h32 : (2:Nat) ^ 32 = 2 * 2 ^ 31 := by norm_num
      obtain ⟨h, e1, e2, e3⟩ := ih (d + 1) (2 * u) (by omega) (by omega) (by omega)
        (by rw [pow_succ]; omega)
      refine ⟨h, e1, ?_, ?_⟩
      · have : 2 ^ (h + (d + 1)) = 2 * 2 ^ (h + d) := by rw [← add_assoc, pow_succ]; ring
        omega
      · have : 2 ^ (h + (d + 1) + 1) = 2 * 2 ^ (h + d + 1) := by
          rw [show h + (d + 1) + 1 = (h + d + 1) + 1 by omega, pow_succ]; ring
        omega
    · have hge : 2 ^ 31 ≤ u := by
        by_contra hlt
        exact hz ((and_two_pow_31_eq_zero_iff u hu).mpr (by omega))
      have hcond : ¬ (u &&& 0x80000000 = 0 ∧ (0 : Int) ≤ 31 - (d : Int)) := fun hc => hz hc.1
      simp only [hcond, if_false]
      refine ⟨31 - d, by omega, ?_, ?_⟩
      · rw [show 31 - d + d = 31 by omega]; exact hge
      · rw [show 31 - d + d + 1 = 32 by omega]; exact hu

/-- Function `highbit` on a non-zero value below `2^32`: the position `h` of the highest
set bit, `2^h ≤ ul < 2^(h+1)`. -/
theorem highbit_spec (ul : Nat) (h0 : 0 < ul) (hu : ul < 2 ^ 32) :
    ∃ h : Nat, highbit ul = (h : Int) ∧ 2 ^ h ≤ ul ∧ ul < 2 ^ (h + 1) := by
  obtain ⟨h, e1, e2, e3⟩ := highbit_loop_spec 33 0 ul (by omega) (by omega) hu (by simpa using h0)
  exact ⟨h, by simpa [highbit] using e1, by simpa using e2, by simpa using e3⟩

theorem pow_bracket_unique (m a b : Nat) (ha1 : 2 ^ a ≤ m) (ha2 : m < 2 ^ (a + 1))
    (hb1 : 2 ^ b ≤ m) (hb2 : m < 2 ^ (b + 1)) : a = b := by
  by_contra hne
  rcases Nat.lt_or_gt_of_ne hne with h | h
  · have : 2 ^ (a + 1) ≤ 2 ^ b := Nat.pow_le_pow_right (by decide) h
    omega
  · have : 2 ^ (b + 1) ≤ 2 ^ a := Nat.pow_le_pow_right (by decide) h
    omega

/-- Function `highbit` on a mask of `k` contiguous bits starting at bit `p`. -/
theorem highbit_contiguous_mask (k p : Nat) (hk : 1 ≤ k) (hp : p + k ≤ 32) :
    highbit ((2 ^ k - 1) <<< p) = ((p + k - 1 : Nat) : Int) := by
  have hk1 : 1 ≤ 2 ^ k := Nat.one_le_two_pow
  have hk2 : 2 ^ (k - 1) * 2 = 2 ^ k := by
    rw [← pow_succ]; congr 1; omega
  have hm : (2 ^ k - 1) <<< p = (2 ^ k - 1) * 2 ^ p := Nat.shiftLeft_eq _ _
  have hpk : 2 ^ (p + k) = 2 ^ k * 2 ^ p := by rw [pow_add]; ring
  have hpk1 : 2 ^ (p + k - 1) = 2 ^ (k - 1) * 2 ^ p := by
    rw [← pow_add]; congr 1; omega
  have hpp : 0 < 2 ^ p := Nat.two_pow_pos p
  have hlow : 2 ^ (p + k - 1) ≤ (2 ^ k - 1) <<< p := by
    rw [hm, hpk1]
    exact Nat.mul_le_mul_right _ (by omega)
  have hhigh : (2 ^ k - 1) <<< p < 2 ^ (p + k - 1 + 1) := by
    rw [show p + k - 1 + 1 = p + k by omega, hm, hpk]
    exact Nat.mul_lt_mul_of_pos_right (by omega) hpp
  have h32 : (2 ^ k - 1) <<< p < 2 ^ 32 :=
    lt_of_lt_of_le hhigh (Nat.pow_le_pow_right (by decide) (by omega))
  have hpos : 0 < (2 ^ k - 1) <<< p := lt_of_lt_of_le (Nat.two_pow_pos _) hlow
  obtain ⟨h, e1, e2, e3⟩ := highbit_spec _ hpos h32
  have : h = p + k - 1 := pow_bracket_unique _ _ _ e2 e3 hlow hhigh
  rw [e1, this]

/-- One channel of `rgb2gdkImage` placed in a mask of `k` contiguous bits at bit `p`: the
field holds the top `k` bits of the 8-bit channel. -/
theorem rgb2gdk_channel_field (c k p : Nat) (hc : c < 256) (hk1 : 1 ≤ k) (hk8 : k ≤ 8)
    (hp : p + k ≤ 32) :
    rgb2gdk_shift c (7 - highbit ((2 ^ k - 1) <<< p)) &&& ((2 ^ k - 1) <<< p) =
      (c >>> (8 - k)) <<< p := by
  rw [highbit_contiguous_mask k p hk1 hp]
  have hc8 : ∀ i, 8 ≤ i → c.testBit i = false := by
    intro i hi
    apply Nat.testBit_lt_two_pow
    exact lt_of_lt_of_le hc (by
      have : 2 ^ 8 ≤ 2 ^ i := Nat.pow_le_pow_right (by decide) hi
      omega)
  unfold rgb2gdk_shift
  simp only [Nat.cast_ofNat]
  by_cases hs : (7 : Int) - ((p + k - 1 : Nat) : Int) < 0
  · have hsh : (-((7 : Int) - ((p + k - 1 : Nat) : Int))).toNat = p + k - 8 := by omega
    have hnowrap : (c <<< (p + k - 8)) % 2 ^ ULONG_BITS = c <<< (p + k - 8) := by
      apply Nat.mod_eq_of_lt
      rw [Nat.shiftLeft_eq]
      have h1 : 2 ^ (p + k - 8) ≤ 2 ^ 24 := Nat.pow_le_pow_right (by decide) (by omega)
      have h2 : c * 2 ^ (p + k - 8) < 256 * 2 ^ 24 := by
        calc c * 2 ^ (p + k - 8) ≤ c * 2 ^ 24 := Nat.mul_le_mul_left _ h1
          _ < 256 * 2 ^ 24 := Nat.mul_lt_mul_of_pos_right hc (by norm_num)
      have h3 : (256 : Nat) * 2 ^ 24 ≤ 2 ^ ULONG_BITS := by simp [ULONG_BITS]
      omega
    simp only [hs, if_true, hsh, hnowrap]
    apply Nat.eq_of_testBit_eq
    intro i
    simp only [Nat.testBit_and, Nat.testBit_shiftLeft, Nat.testBit_shiftRight,
      Nat.testBit_two_pow_sub_one]
    by_cases hip : p ≤ i
    · by_cases hik : i - p < k
      · have e : i - (p + k - 8) = 8 - k + (i - p) := by omega
        have g : i ≥ p + k - 8 := by omega
        simp [hip, hik, e, g]
      · have := hc8 (8 - k + (i - p)) (by omega)
        simp [hip, hik, this]
    · simp [hip]
  · have hsh : ((7 : Int) - ((p + k - 1 : Nat) : Int)).toNat = 8 - (p + k) := by omega
    simp only [hs, if_false, hsh]
    apply Nat.eq_of_testBit_eq
    intro i
    simp only [Nat.testBit_and, Nat.testBit_shiftLeft, Nat.testBit_shiftRight,
      Nat.testBit_two_pow_sub_one]
    by_cases hip : p ≤ i
    · by_cases hik : i - p < k
      · have e : 8 - (p + k) + i = 8 - k + (i - p) := by omega
        simp [hip, hik, e]
      · have := hc8 (8 - k + (i - p)) (by omega)
        simp [hip, hik, this]
    · simp [hip]

theorem and_or3_of_disjoint (R G B m1 m2 m3 : Nat) (h12 : m1 &&& m2 = 0) (h13 : m1 &&& m3 = 0) :
    ((R &&& m1) ||| (G &&& m2) ||| (B &&& m3)) &&& m1 = R &&& m1 := by
  apply Nat.eq_of_testBit_eq
  intro i
  have d12 : (m1 &&& m2).testBit i = false := by rw [h12]; simp
  have d13 : (m1 &&& m3).testBit i = false := by rw [h13]; simp
  simp only [Nat.testBit_and] at d12 d13
  simp only [Nat.testBit_and, Nat.testBit_or]
  generalize R.testBit i = x1
  generalize G.testBit i = x2
  generalize B.testBit i = x3
  generalize m1.testBit i = y1 at d12 d13 ⊢
  generalize m2.testBit i = y2 at d12 ⊢
  generalize m3.testBit i = y3 at d13 ⊢
  cases x1 <;> cases x2 <;> cases x3 <;> cases y1 <;> cases y2 <;> cases y3 <;> simp_all

theorem or3_and_masks (R G B m1 m2 m3 : Nat) :
    ((R &&& m1) ||| (G &&& m2) ||| (B &&& m3)) &&& (m1 ||| m2 ||| m3) =
      (R &&& m1) ||| (G &&& m2) ||| (B &&& m3) := by
  apply Nat.eq_of_testBit_eq
  intro i
  simp only [Nat.testBit_and, Nat.testBit_or]
  cases R.testBit i <;> cases G.testBit i <;> cases B.testBit i <;> cases m1.testBit i <;>
    cases m2.testBit i <;> cases m3.testBit i <;> rfl

/-- C16: on a non-direct-colour visual whose masks are pairwise disjoint runs of `kr`,
`kg`, `kb` contiguous bits (1..8 each, below bit 32) starting at bits `pr`, `pg`, `pb`,
the value `xcol` packed by `rgb2gdkImage` from 8-bit `r`, `g`, `b` holds in each mask
field the top `k` bits of the channel (`channel >> (8-k)`), has no bit set outside the
three masks, and for `k = 8` gives the channel back as
`(xcol & mask) >> (highbit(mask) - 7)`. -/
theorem rgb2gdk_xcol_fields (ctx : cdCtxCanvas) (table : Nat → Nat) (r g b : Nat)
    (kr pr kg pg kb pb : Nat) (hr : r < 256) (hg : g < 256) (hb : b < 256)
    (hkr : 1 ≤ kr ∧ kr ≤ 8 ∧ pr + kr ≤ 32) (hkg : 1 ≤ kg ∧ kg ≤ 8 ∧ pg + kg ≤ 32)
    (hkb : 1 ≤ kb ∧ kb ≤ 8 ∧ pb + kb ≤ 32)
    (hmr : ctx.vis.red_mask = (2 ^ kr - 1) <<< pr)
    (hmg : ctx.vis.green_mask = (2 ^ kg - 1) <<< pg)
    (hmb : ctx.vis.blue_mask = (2 ^ kb - 1) <<< pb)
    (hrg : ctx.vis.red_mask &&& ctx.vis.green_mask = 0)
    (hrb : ctx.vis.red_mask &&& ctx.vis.blue_mask = 0)
    (hgb : ctx.vis.green_mask &&& ctx.vis.blue_mask = 0) :
    (rgb2gdk_xcol ctx false table r g b &&& ctx.vis.red_mask) >>> pr = r >>> (8 - kr) ∧
    (rgb2gdk_xcol ctx false table r g b &&& ctx.vis.green_mask) >>> pg = g >>> (8 - kg) ∧
    (rgb2gdk_xcol ctx false table r g b &&& ctx.vis.blue_mask) >>> pb = b >>> (8 - kb) ∧
    rgb2gdk_xcol ctx false table r g b &&&
        (ctx.vis.red_mask ||| ctx.vis.green_mask ||| ctx.vis.blue_mask) =
      rgb2gdk_xcol ctx false table r g b ∧
    (kr = 8 → (rgb2gdk_xcol ctx false table r g b &&& ctx.vis.red_mask) >>>
        (highbit ctx.vis.red_mask - 7).toNat = r) ∧
    (kg = 8 → (rgb2gdk_xcol ctx false table r g b &&& ctx.vis.green_mask) >>>
        (highbit ctx.vis.green_mask - 7).toNat = g) ∧
    (kb = 8 → (rgb2gdk_xcol ctx false table r g b &&& ctx.vis.blue_mask) >>>
        (highbit ctx.vis.blue_mask - 7).toNat = b) := by
  have hx : rgb2gdk_xcol ctx false table r g b =
      (rgb2gdk_shift r (7 - highbit ctx.vis.red_mask) &&& ctx.vis.red_mask) |||
      (rgb2gdk_shift g (7 - highbit ctx.vis.green_mask) &&& ctx.vis.green_mask) |||
      (rgb2gdk_shift b (7 - highbit ctx.vis.blue_mask) &&& ctx.vis.blue_mask) := by
    simp [rgb2gdk_xcol]
  have hgr : ctx.vis.green_mask &&& ctx.vis.red_mask = 0 := by rw [Nat.and_comm]; exact hrg
  have hbr : ctx.vis.blue_mask &&& ctx.vis.red_mask = 0 := by rw [Nat.and_comm]; exact hrb
  have hbg : ctx.vis.blue_mask &&& ctx.vis.green_mask = 0 := by rw [Nat.and_comm]; exact hgb
  have fr : rgb2gdk_xcol ctx false table r g b &&& ctx.vis.red_mask =
      (r >>> (8 - kr)) <<< pr := by
    rw [hx, and_or3_of_disjoint _ _ _ _ _ _ hrg hrb, hmr]
    exact rgb2gdk_channel_field r kr pr hr hkr.1 hkr.2.1 hkr.2.2
  have fg : rgb2gdk_xcol ctx false table r g b &&& ctx.vis.green_mask =
      (g >>> (8 - kg)) <<< pg := by
    have hperm : rgb2gdk_xcol ctx false table r g b =
        (rgb2gdk_shift g (7 - highbit ctx.vis.green_mask) &&& ctx.vis.green_mask) |||
        (rgb2gdk_shift r (7 - highbit ctx.vis.red_mask) &&& ctx.vis.red_mask) |||
        (rgb2gdk_shift b (7 - highbit ctx.vis.blue_mask) &&& ctx.vis.blue_mask) := by
      rw [hx]; congr 1; exact Nat.or_comm _ _
    rw [hperm, and_or3_of_disjoint _ _ _ _ _ _ hgr hgb, hmg]
    exact rgb2gdk_channel_field g kg pg hg hkg.1 hkg.2.1 hkg.2.2
  have fb : rgb2gdk_xcol ctx false table r g b &&& ctx.vis.blue_mask =
      (b >>> (8 - kb)) <<< pb := by
    have hperm : rgb2gdk_xcol ctx false table r g b =
        (rgb2gdk_shift b (7 - highbit ctx.vis.blue_mask) &&& ctx.vis.blue_mask) |||
        (rgb2gdk_shift g (7 - highbit ctx.vis.green_mask) &&& ctx.vis.green_mask) |||
        (rgb2gdk_shift r (7 - highbit ctx.vis.red_mask) &&& ctx.vis.red_mask) := by
      rw [hx]
      apply Nat.eq_of_testBit_eq
      intro i
      simp only [Nat.testBit_or]
      generalize (rgb2gdk_shift r (7 - highbit ctx.vis.red_mask) &&& ctx.vis.red_mask).testBit i = x1
      generalize (rgb2gdk_shift g (7 - highbit ctx.vis.green_mask) &&&
        ctx.vis.green_mask).testBit i = x2
      generalize (rgb2gdk_shift b (7 - highbit ctx.vis.blue_mask) &&& ctx.vis.blue_mask).testBit i = x3
      cases x1 <;> cases x2 <;> cases x3 <;> rfl
    rw [hperm, and_or3_of_disjoint _ _ _ _ _ _ hbg hbr, hmb]
    exact rgb2gdk_channel_field b kb pb hb hkb.1 hkb.2.1 hkb.2.2
  refine ⟨?_, ?_, ?_, ?_, ?_, ?_, ?_⟩
  · rw [fr, Nat.shiftLeft_shiftRight]
  · rw [fg, Nat.shiftLeft_shiftRight]
  · rw [fb, Nat.shiftLeft_shiftRight]
  · rw [hx]; exact or3_and_masks _ _ _ _ _ _
  · intro h8
    subst h8
    rw [fr, hmr, highbit_contiguous_mask 8 pr (by decide) hkr.2.2]
    have : (((pr + 8 - 1 : Nat) : Int) - 7).toNat = pr := by omega
    rw [this, Nat.shiftLeft_shiftRight]
    rfl
  · intro h8
    subst h8
    rw [fg, hmg, highbit_contiguous_mask 8 pg (by decide) hkg.2.2]
    have : (((pg + 8 - 1 : Nat) : Int) - 7).toNat = pg := by omega
    rw [this, Nat.shiftLeft_shiftRight]
    rfl
  · intro h8
    subst h8
    rw [fb, hmb, highbit_contiguous_mask 8 pb (by decide) hkb.2.2]
    have : (((pb + 8 - 1 : Nat) : Int) - 7).toNat = pb := by omega
    rw [this, Nat.shiftLeft_shiftRight]
    rfl

/-- Witness of `rgb2gdk_xcol_fields`: the colour (0x12, 0x34, 0x56) on the masks
0xFF0000, 0x00FF00, 0x0000FF. -/
theorem rgb2gdk_xcol_fields_witness :
    rgb2gdk_xcol ctx888 false (fun i => i) 0x12 0x34 0x56 = 0x123456 ∧
    (rgb2gdk_xcol ctx888 false (fun i => i) 0x12 0x34 0x56 &&& ctx888.vis.red_mask) >>> 16 =
      0x12 >>> (8 - 8) :=
  ⟨by decide,
   (rgb2gdk_xcol_fields ctx888 (fun i => i) 0x12 0x34 0x56 8 16 8 8 8 0 (by decide) (by decide)
      (by decide) (by decide) (by decide) (by decide) (by decide) (by decide) (by decide)
      (by decide) (by decide) (by decide)).1⟩

/-! ## Properties of the indexed packer -/

theorem map2gdk_pal_inner_nonneg (index : Int → Nat) (by_ bx iw : Int) (i : Nat) :
    ∀ (l : List Nat) (p : Int), 0 ≤ p →
      0 ≤ l.foldl (fun pal_size (j : Nat) =>
        let src := ((i : Int) + by_) * iw + (j : Int) + bx
        let idx : Int := index src
        if idx > pal_size then idx else pal_size) p := by
  intro l
  induction l with
  | nil => intro p hp; exact hp
  | cons j rest ih =>
    intro p hp
    simp only [List.foldl_cons]
    apply ih
    split_ifs <;> omega

theorem map2gdk_pal_size_pos (index : Int → Nat) (by_ bx bw bh iw : Int) :
    1 ≤ map2gdk_pal_size index by_ bx bw bh iw := by
  unfold map2gdk_pal_size
  have h : ∀ (l : List Nat) (p : Int), 0 ≤ p →
      0 ≤ l.foldl (fun pal_size (i : Nat) =>
        (List.range bw.toNat).foldl (fun pal_size (j : Nat) =>
          let src := ((i : Int) + by_) * iw + (j : Int) + bx
          let idx : Int := index src
          if idx > pal_size then idx else pal_size) pal_size) p := by
    intro l
    induction l with
    | nil => intro p hp; exact hp
    | cons i rest ih =>
      intro p hp
      simp only [List.foldl_cons]
      exact ih _ (map2gdk_pal_inner_nonneg index by_ bx iw i _ p hp)
  have := h (List.range bh.toNat) 0 (le_refl _)
  omega

/-- With `match_table` NULL the palette loop faults at its first store. -/
theorem map2gdk_fill_table_null (E : MapEnv) (colors : Int → Nat) (st : MatchState)
    (i : Nat) (rest : List Nat) :
    map2gdk_fill_table E colors none st (i :: rest) = .error .null_store := rfl

theorem map2gdkImage_faults (E : MapEnv) (ctx : cdCtxCanvas) (ew eh : Int)
    (index : Int → Nat) (colors : Int → Nat) (by_ bx bw bh iw : Int) :
    map2gdkImage E ctx ew eh index colors by_ bx bw bh iw = .error .null_store := by
  have hp := map2gdk_pal_size_pos index by_ bx bw bh iw
  unfold map2gdkImage map2gdkImage_from
  obtain ⟨n, hn⟩ : ∃ n : Nat, (map2gdk_pal_size index by_ bx bw bh iw).toNat = n + 1 :=
    ⟨(map2gdk_pal_size index by_ bx bw bh iw).toNat - 1, by omega⟩
  simp only [hn, List.range_succ_eq_map, map2gdk_fill_table_null]

/-- With storage behind `match_table`, every slot the palette loop sets holds the address
of `tmpClr`: after the loop over `l` each index of `l` looks up the pixel of the last
colour resolved. -/
theorem map2gdk_fill_table_alias (E : MapEnv) (colors : Int → Nat)
    (t : Nat → Option ClrRef) :
    ∀ (l : List Nat) (st0 st : MatchState),
      map2gdk_fill_table E colors (some t) st0 l = .ok st →
      (∀ k, k ∈ l → map2gdk_lookup E st k = st.tmpClr.pixel) ∧
      (∀ k, st0.table k = some .tmpClr → st.table k = some .tmpClr) := by
  intro l
  induction l with
  | nil =>
    intro st0 st h
    simp only [map2gdk_fill_table, Except.ok.injEq] at h
    subst h
    exact ⟨fun k hk => (by cases hk), fun k hk => hk⟩
  | cons i rest ih =>
    intro st0 st h
    simp only [map2gdk_fill_table] at h
    obtain ⟨h1, h2⟩ := ih _ st h
    refine ⟨?_, ?_⟩
    · intro k hk
      rcases List.mem_cons.mp hk with hki | hkr
      · have := h2 k (by simp [hki])
        simp [map2gdk_lookup, this]
      · exact h1 k hkr
    · intro k hk
      apply h2
      by_cases hki : k = i
      · simp [hki]
      · simp [hki, hk]

/-- C13: the palette lookup of `map2gdkImage` does not map index `k` to the colour
resolved for `colors[k]`.  The table pointer is NULL, so the function faults at the first
store of the palette loop, whatever its arguments; and with storage behind the pointer
every slot holds the address of the one local `tmpClr`, so every index looks up the pixel
of the last colour resolved: with the palette (0x111111, 0x222222) index 0 yields
0x222222. -/
theorem map2gdkImage_lookup_aliased :
    (∀ (E : MapEnv) (ctx : cdCtxCanvas) (ew eh : Int) (index : Int → Nat) (colors : Int → Nat)
        (by_ bx bw bh iw : Int),
      map2gdkImage E ctx ew eh index colors by_ bx bw bh iw = .error .null_store) ∧
    (∀ (E : MapEnv) (colors : Int → Nat) (t : Nat → Option ClrRef) (n : Nat)
        (st0 st : MatchState),
      map2gdk_fill_table E colors (some t) st0 (List.range n) = .ok st →
      ∀ k, k < n → map2gdk_lookup E st k = st.tmpClr.pixel) ∧
    (∃ st : MatchState,
      map2gdk_fill_table (map_env 24) two_colors (some fun _ => none)
        { ctx := ctx888, tmpClr := (map_env 24).tmpClr0, table := fun _ => none }
        (List.range 2) = .ok st ∧
      map2gdk_lookup (map_env 24) st 0 = 0x222222 ∧
      ((map_env 24).cdgdkGetPixel ctx888 (two_colors 0)).1.pixel = 0x111111) := by
  refine ⟨map2gdkImage_faults, ?_, ?_⟩
  · intro E colors t n st0 st h k hk
    exact (map2gdk_fill_table_alias E colors t _ st0 st h).1 k (List.mem_range.mpr hk)
  · exact ⟨_, rfl, by decide, by decide⟩

/-- C14: three branches of `map2gdkImage` do not write zoom row `i` to buffer row
`eh-1-i`.  The 24/32-bit branch sets `xim->bpl = 0` before using it as the row stride, so
every row starts at offset 0 and the rows overwrite each other (two rows of one 24-bit
pixel: offsets 0, 1, 2 twice); the 12/15/16-bit branch starts at offset 0 and steps back
by `ew` units, so row 1 lies before the buffer (offsets -4, -2); the 8-bit branch stores
nothing.  Only `rgb2gdkImage` and the default branch use `(eh-1-i)` times the stride. -/
theorem map2gdkImage_rows_misplaced :
    (∀ (xim : GdkImage) (eh : Int) (i : Nat), map2gdk_ip_24 { xim with bpl := 0 } eh i = 0) ∧
    map2gdk_stores_24 (fun k => k) two_index (cdGetZoomTable 1 1 0) (cdGetZoomTable 2 2 0)
        { byte_order := .GDK_LSB_FIRST, depth := 24, bpp := 32, bpl := 0, bits_per_pixel := 24,
          mem := fun _ => 0 } 1 2 1 =
      [⟨0, 1, 0⟩, ⟨1, 1, 0⟩, ⟨2, 1, 0⟩, ⟨0, 1, 1⟩, ⟨1, 1, 0⟩, ⟨2, 1, 0⟩] ∧
    map2gdk_stores_16 (fun k => k) two_index (cdGetZoomTable 2 2 0) (cdGetZoomTable 2 2 0)
        { byte_order := .GDK_LSB_FIRST, depth := 16, bpp := 16, bpl := 0, bits_per_pixel := 16,
          mem := fun _ => 0 } 2 2 2 =
      [⟨0, 2, 0⟩, ⟨2, 2, 1⟩, ⟨-4, 2, 1⟩, ⟨-2, 2, 1⟩] ∧
    (∀ (lookup : Nat → Nat) (index : Int → Nat) (fx fy : List Int) (ew eh iw : Int),
      map2gdk_stores_8 lookup index fx fy ew eh iw = []) ∧
    (∃ (xim : GdkImage) (c : cdCtxCanvas) (buf : XiData),
      map2gdkImage_from (map_env 24) (some fun _ => none) ctx888 1 2 two_index two_colors
        0 0 1 2 1 = .ok (some xim, c) ∧
      xim.bpl = 0 ∧ c.xidata = some buf ∧ buf.mem 0 = 0x22 ∧ buf.mem 3 = 0) ∧
    (∀ (eh bperline : Int) (i : Nat),
      rgb2gdk_lip eh bperline i = (eh - 1 - (i : Int)) * bperline) := by
  refine ⟨?_, by decide, by decide, fun _ _ _ _ _ _ _ => rfl, ?_, ?_⟩
  · intro xim eh i
    simp [map2gdk_ip_24]
  · exact ⟨_, _, _, rfl, rfl, rfl, by decide, by decide⟩
  · intro eh bperline i
    unfold rgb2gdk_lip
    ring

/-! ## Properties of the palette-limited resolver -/

/-- Fuel beyond 2 does not change the result of `nearest_rgb`. -/
theorem nearest_rgb_fuel {σ : Type} (ops : CmapOps σ) (k : Nat) (cm : σ) (flag : Int)
    (ctx : cdCtxCanvas) (clr : GdkColor) :
    nearest_rgb ops (k + 2) cm flag ctx clr = nearest_rgb ops 2 cm flag ctx clr := by
  cases h1 : (ops.alloc_color cm (ctx.color_table (find_color ctx clr))).2 with
  | some c => simp only [nearest_rgb, h1]
  | none =>
    by_cases hf : flag = 1
    · simp only [nearest_rgb, h1, hf, if_true]
    · cases h2 : (ops.alloc_color
          (update_colors ops (ops.alloc_color cm (ctx.color_table (find_color ctx clr))).1 ctx).1
          ((update_colors ops (ops.alloc_color cm (ctx.color_table (find_color ctx clr))).1
            ctx).2.color_table
            (find_color (update_colors ops
              (ops.alloc_color cm (ctx.color_table (find_color ctx clr))).1 ctx).2 clr))).2 with
      | some c => simp only [nearest_rgb, h1, hf, if_false, h2]
      | none => simp only [nearest_rgb, h1, hf, if_false, h2, if_true]

/-- One top-level call of `nearest_rgb`: it returns within recursion depth 2, whatever
the colormap answers and whatever the flag holds on entry. -/
theorem nearest_rgb_result {σ : Type} (ops : CmapOps σ) (k : Nat) (cm : σ) (flag : Int)
    (ctx : cdCtxCanvas) (clr : GdkColor) :
    ∃ r : NearestResult σ, nearest_rgb ops (k + 2) cm flag ctx clr = some r ∧
      nearest_rgb ops 2 cm flag ctx clr = some r ∧
      r.scans ≤ 2 ∧ r.refreshes ≤ 1 ∧ r.pixel = (r.ctx.color_table r.pos).pixel ∧
      ((r.scans = 1 ∧ r.refreshes = 0 ∧ r.pos = find_color ctx clr) ∨
       (r.scans = 2 ∧ r.refreshes = 1 ∧
        r.pos = find_color (update_colors ops
          (ops.alloc_color cm (ctx.color_table (find_color ctx clr))).1 ctx).2 clr)) := by
  rw [nearest_rgb_fuel]
  cases h1 : (ops.alloc_color cm (ctx.color_table (find_color ctx clr))).2 with
  | some c => simp [nearest_rgb, h1]
  | none =>
    by_cases hf : flag = 1
    · simp [nearest_rgb, h1, hf]
    · cases h2 : (ops.alloc_color
          (update_colors ops (ops.alloc_color cm (ctx.color_table (find_color ctx clr))).1 ctx).1
          ((update_colors ops (ops.alloc_color cm (ctx.color_table (find_color ctx clr))).1
            ctx).2.color_table
            (find_color (update_colors ops
              (ops.alloc_color cm (ctx.color_table (find_color ctx clr))).1 ctx).2 clr))).2 with
      | some c => simp [nearest_rgb, h1, hf, h2]
      | none => simp [nearest_rgb, h1, hf, h2]

/-- C20: for every behaviour of the colormap and every value of the retry flag on entry,
one top-level call of `nearest_rgb` returns (recursion depth at most 2, whatever fuel
beyond 2 is given) after at most two `find_color` scans and at most one `update_colors`
refresh, and the pixel returned is the one of the slot `pos` found by its last scan. -/
theorem nearest_rgb_bounded {σ : Type} (ops : CmapOps σ) (k : Nat) (cm : σ) (flag : Int)
    (ctx : cdCtxCanvas) (clr : GdkColor) :
    ∃ r : NearestResult σ, nearest_rgb ops (k + 2) cm flag ctx clr = some r ∧
      nearest_rgb ops 2 cm flag ctx clr = some r ∧
      r.scans ≤ 2 ∧ r.refreshes ≤ 1 ∧ r.pixel = (r.ctx.color_table r.pos).pixel ∧
      ((r.scans = 1 ∧ r.refreshes = 0 ∧ r.pos = find_color ctx clr) ∨
       (r.scans = 2 ∧ r.refreshes = 1 ∧
        r.pos = find_color (update_colors ops
          (ops.alloc_color cm (ctx.color_table (find_color ctx clr))).1 ctx).2 clr)) :=
  nearest_rgb_result ops k cm flag ctx clr

theorem not_truecolor_request {σ : Type} (M : CdMacros) (ops : CmapOps σ) (fuel : Nat)
    (cm : σ) (flag : Int) (ctx : cdCtxCanvas) (clr0 : GdkColor) (rgb : Nat) :
    not_truecolor_get_pixel M ops fuel cm flag ctx clr0 rgb =
      match (ops.alloc_color cm (requested_color M clr0 rgb)).2 with
      | none =>
        (nearest_rgb ops fuel (ops.alloc_color cm (requested_color M clr0 rgb)).1 flag ctx
            (requested_color M clr0 rgb)).map fun res =>
          { clr := { requested_color M clr0 rgb with pixel := res.pixel }, cm := res.cm
            ctx := res.ctx, nearest_try := res.nearest_try }
      | some c =>
        some { clr := c, cm := (ops.alloc_color cm (requested_color M clr0 rgb)).1
               ctx := { ctx with
                 color_table := fun k => if k = c.pixel then c else ctx.color_table k }
               nearest_try := flag } := rfl

/-- C11: when the colormap allocation of the requested colour succeeds and gives the
colour `c` with slot `p = c.pixel`, `not_truecolor_get_pixel` stores `c` in
`color_table[p]`, leaves every other slot as it was and returns `c`; when the allocation
fails it returns (no error, for any fuel of at least 2) the requested colour with the
pixel `nearest_rgb` returns, which is the pixel of the slot its last scan chose. -/
theorem not_truecolor_get_pixel_table {σ : Type} (M : CdMacros) (ops : CmapOps σ) (k : Nat)
    (cm : σ) (flag : Int) (ctx : cdCtxCanvas) (clr0 : GdkColor) (rgb : Nat) :
    (∀ c : GdkColor, (ops.alloc_color cm (requested_color M clr0 rgb)).2 = some c →
      ∃ r : GetPixelResult σ,
        not_truecolor_get_pixel M ops (k + 2) cm flag ctx clr0 rgb = some r ∧
        r.clr = c ∧ r.ctx.color_table c.pixel = c ∧
        (∀ q, q ≠ c.pixel → r.ctx.color_table q = ctx.color_table q) ∧
        r.nearest_try = flag) ∧
    ((ops.alloc_color cm (requested_color M clr0 rgb)).2 = none →
      ∃ (r : GetPixelResult σ) (n : NearestResult σ),
        not_truecolor_get_pixel M ops (k + 2) cm flag ctx clr0 rgb = some r ∧
        nearest_rgb ops (k + 2) (ops.alloc_color cm (requested_color M clr0 rgb)).1 flag ctx
          (requested_color M clr0 rgb) = some n ∧
        r.clr.pixel = n.pixel ∧ n.pixel = (n.ctx.color_table n.pos).pixel ∧
        r.clr.red = (requested_color M clr0 rgb).red ∧
        r.clr.green = (requested_color M clr0 rgb).green ∧
        r.clr.blue = (requested_color M clr0 rgb).blue ∧ r.ctx = n.ctx) := by
  constructor
  · intro c hc
    rw [not_truecolor_request, hc]
    refine ⟨_, rfl, rfl, by simp, ?_, rfl⟩
    intro q hq
    simp [hq]
  · intro hn
    rw [not_truecolor_request, hn]
    obtain ⟨n, h1, _, _, _, h5, _⟩ := nearest_rgb_result ops k
      (ops.alloc_color cm (requested_color M clr0 rgb)).1 flag ctx (requested_color M clr0 rgb)
    rw [h1]
    simp only [Option.map_some']
    exact ⟨_, n, rfl, rfl, rfl, h5, rfl, rfl, rfl, rfl⟩

/-- Witness of `not_truecolor_get_pixel_table`: the colormap answers TRUE with slot 1
for white on the three-entry table. -/
theorem not_truecolor_get_pixel_table_witness :
    ∃ r : GetPixelResult (List (Option Nat)),
      not_truecolor_get_pixel usual_macros scripted_cmap 2 [some 1] 0 palette_ctx
        { pixel := 0, red := 0, green := 0, blue := 0 } 0xFFFFFF = some r ∧
      r.clr = { pixel := 1, red := 65535, green := 65535, blue := 65535 } ∧
      r.ctx.color_table 1 = { pixel := 1, red := 65535, green := 65535, blue := 65535 } ∧
      (∀ q, q ≠ ({ pixel := 1, red := 65535, green := 65535, blue := 65535 } : GdkColor).pixel →
        r.ctx.color_table q = palette_ctx.color_table q) ∧
      r.nearest_try = 0 :=
  (not_truecolor_get_pixel_table usual_macros scripted_cmap 0 [some 1] 0 palette_ctx
    { pixel := 0, red := 0, green := 0, blue := 0 } 0xFFFFFF).1
    { pixel := 1, red := 65535, green := 65535, blue := 65535 } (by decide)

/-! ## Properties of the pattern palette -/

theorem find_match_some (p : Nat → Nat) (m c r : Nat) (h : find_match p m c = some r) :
    ∃ k, k < m ∧ p k = c ∧ r = k % 256 := by
  unfold find_match at h
  cases hf : (List.range m).find? (fun i => p i == c) with
  | none => rw [hf] at h; cases h
  | some k =>
    rw [hf] at h
    simp only [Option.map_some', Option.some.injEq] at h
    have h1 := List.find?_some hf
    have h2 := List.mem_of_find?_eq_some hf
    exact ⟨k, List.mem_range.mp h2, by simpa using h1, h.symm⟩

theorem find_match_none (p : Nat → Nat) (m c : Nat) (h : find_match p m c = none) :
    ∀ k, k < m → p k ≠ c := by
  unfold find_match at h
  cases hf : (List.range m).find? (fun i => p i == c) with
  | some k => rw [hf] at h; cases h
  | none =>
    intro k hk
    have := List.find?_eq_none.mp hf k (List.mem_range.mpr hk)
    simpa using this

theorem first_occ_unique (colors : Nat → Nat) (i j c : Nat) (hi : first_occ colors i c)
    (hj : first_occ colors j c) : i = j := by
  rcases Nat.lt_trichotomy i j with h | h | h
  · exact absurd hi.1 (hj.2 i h)
  · exact h
  · exact absurd hj.1 (hi.2 j h)

/-- The palette never holds more entries than the pattern has distinct colours. -/
theorem PatInv_card (colors : Nat → Nat) (size n : Nat) (st : PatState) (hn : n ≤ size)
    (hsize : 1 ≤ size) (hinv : PatInv colors n st) :
    st.pal_size ≤ (Finset.image colors (Finset.range size)).card := by
  obtain ⟨_, hc, _, he⟩ := hinv
  have hcard := Finset.card_le_card_of_injOn (s := Finset.range st.pal_size)
    (t := Finset.image colors (Finset.range size)) st.palette ?_ ?_
  · simpa using hcard
  · intro k hk
    have hk' : k < st.pal_size := by simpa using hk
    obtain ⟨i, hi, hfo⟩ := hc k hk'
    exact Finset.mem_image.mpr ⟨i, Finset.mem_range.mpr (by omega), hfo.1⟩
  · intro k hk k2 hk2 heq
    have hk' : k < st.pal_size := by simpa using hk
    have hk2' : k2 < st.pal_size := by simpa using hk2
    obtain ⟨i, _, hfo⟩ := hc k hk'
    obtain ⟨i2, _, hfo2⟩ := hc k2 hk2'
    by_contra hne
    rcases Nat.lt_or_gt_of_ne hne with h | h
    · have := he k k2 i i2 h hk2' hfo hfo2
      have hu := first_occ_unique colors i i2 _ hfo (by rw [heq]; exact hfo2)
      omega
    · have := he k2 k i2 i h hk' hfo2 hfo
      have hu := first_occ_unique colors i i2 _ hfo (by rw [heq]; exact hfo2)
      omega

theorem PatInv_step (colors : Nat → Nat) (size n : Nat) (st : PatState) (hn : n < size)
    (hd : (Finset.image colors (Finset.range size)).card < 256)
    (hinv : PatInv colors n st) (hs : st.stopped = false) :
    PatInv colors (n + 1) (cdpattern_step colors st n) ∧
      (cdpattern_step colors st n).stopped = false := by
  have hm : st.pal_size < 256 :=
    lt_of_le_of_lt (PatInv_card colors size n st (by omega) (by omega) hinv) hd
  obtain ⟨hb, hc, hdx, he⟩ := hinv
  unfold cdpattern_step
  simp only [hs, Bool.false_eq_true, if_false]
  cases hfm : find_match st.palette st.pal_size (colors n) with
  | some r =>
    obtain ⟨k, hk, hpk, hr⟩ := find_match_some _ _ _ _ hfm
    have hrk : r = k := by omega
    subst hrk
    dsimp only
    refine ⟨⟨hb, ?_, ?_, he⟩, rfl⟩
    · intro k2 hk2
      obtain ⟨i, hi, hfo⟩ := hc k2 hk2
      exact ⟨i, by omega, hfo⟩
    · intro i hi
      by_cases hin : i = n
      · subst hin
        simp only [if_true]
        exact ⟨hk, hpk⟩
      · simp only [hin, if_false]
        exact hdx i (by omega)
  | none =>
    have hno := find_match_none _ _ _ hfm
    have hn1 : 1 ≤ n := by
      by_contra h0
      have hz : n = 0 := by omega
      subst hz
      obtain ⟨i, hi, hfo⟩ := hc 0 (by omega)
      have hi0 : i = 0 := by omega
      subst hi0
      exact hno 0 (by omega) hfo.1.symm
    have hfirst : first_occ colors n (colors n) := by
      refine ⟨rfl, ?_⟩
      intro j hj hcj
      obtain ⟨h1, h2⟩ := hdx j hj
      exact hno _ h1 (by rw [h2, hcj])
    have hmod : st.pal_size % 256 = st.pal_size := Nat.mod_eq_of_lt hm
    have hQ : PatInv colors (n + 1)
        { palette := fun k => if k = st.pal_size then colors n else st.palette k
          index := fun k => if k = n then st.pal_size % 256 else st.index k
          pal_size := st.pal_size + 1
          stopped := decide (st.pal_size + 1 = 256) } := by
      refine ⟨by simp, ?_, ?_, ?_⟩
      · intro k hk
        by_cases hkm : k = st.pal_size
        · simp only [hkm, if_true]
          exact ⟨n, by omega, hfirst⟩
        · simp only [hkm, if_false]
          obtain ⟨i, hi, hfo⟩ := hc k (by simp at hk; omega)
          exact ⟨i, by omega, hfo⟩
      · intro i hi
        by_cases hin : i = n
        · subst hin
          simp [hmod]
        · simp only [hin, if_false]
          obtain ⟨h1, h2⟩ := hdx i (by omega)
          have hne : st.index i ≠ st.pal_size := by omega
          simp only [hne, if_false]
          exact ⟨by omega, h2⟩
      · intro k k2 i i2 hkk hk2 hfo hfo2
        have hk2' : k2 < st.pal_size + 1 := hk2
        have hkne : k ≠ st.pal_size := by omega
        simp only [hkne, if_false] at hfo
        by_cases hk2m : k2 = st.pal_size
        · simp only [hk2m, if_true] at hfo2
          have hi2 : i2 = n := first_occ_unique colors i2 n _ hfo2 hfirst
          obtain ⟨i0, hi0, hfo0⟩ := hc k (by omega)
          have : i = i0 := first_occ_unique colors i i0 _ hfo hfo0
          omega
        · simp only [hk2m, if_false] at hfo2
          exact he k k2 i i2 hkk (by omega) hfo hfo2
    dsimp only
    refine ⟨hQ, ?_⟩
    have hcard := PatInv_card colors size (n + 1) _ (by omega) (by omega) hQ
    have hlt : st.pal_size + 1 < 256 := lt_of_le_of_lt hcard hd
    simp only [decide_eq_false_iff_not]
    omega

theorem PatInv_run (colors : Nat → Nat) (size : Nat) (palette0 index0 : Nat → Nat)
    (hd : (Finset.image colors (Finset.range size)).card < 256) :
    ∀ n, n ≤ size →
      PatInv colors n ((List.range n).foldl (cdpattern_step colors)
        { palette := fun k => if k = 0 then colors 0 else palette0 k
          pal_size := 1, index := index0, stopped := false }) ∧
      ((List.range n).foldl (cdpattern_step colors)
        { palette := fun k => if k = 0 then colors 0 else palette0 k
          pal_size := 1, index := index0, stopped := false }).stopped = false := by
  intro n
  induction n with
  | zero =>
    intro _
    refine ⟨⟨le_refl _, ?_, ?_, ?_⟩, rfl⟩
    · intro k hk
      have hk0 : k = 0 := by simp at hk; omega
      subst hk0
      exact ⟨0, by simp, by simp [first_occ]⟩
    · intro i hi
      omega
    · intro k k2 i i2 hkk hk2
      simp at hk2
      omega
  | succ n ih =>
    intro hn
    rw [List.range_succ, List.foldl_append]
    simp only [List.foldl_cons, List.foldl_nil]
    obtain ⟨h1, h2⟩ := ih (by omega)
    exact PatInv_step colors size n _ (by omega) hd h1 h2

/-- Every entry the resolving loop fills is the colour returned by a `cdgdkGetPixel` call
on the value at that index. -/
theorem cdpattern_resolve_range (getPixel : cdCtxCanvas → Nat → GdkColor × cdCtxCanvas)
    (values : Nat → Nat) (st0 : cdCtxCanvas × (Nat → GdkColor)) :
    ∀ m k, k < m → ∃ c : cdCtxCanvas,
      (cdpattern_resolve getPixel values (List.range m) st0).2 k = (getPixel c (values k)).1 := by
  intro m
  induction m with
  | zero => intro k hk; omega
  | succ m ih =>
    intro k hk
    unfold cdpattern_resolve
    rw [List.range_succ, List.foldl_append]
    simp only [List.foldl_cons, List.foldl_nil]
    by_cases hkm : k = m
    · subst hkm
      refine ⟨(cdpattern_resolve getPixel values (List.range k) st0).1, ?_⟩
      simp [cdpattern_resolve]
    · obtain ⟨c, hc⟩ := ih k (by omega)
      refine ⟨c, ?_⟩
      simp only [hkm, if_false]
      exact hc

/-- The palette loop of `cdpattern` on a pattern with fewer than 256 distinct colours. -/
theorem cdpattern_palette_spec (colors : Nat → Nat) (size : Nat) (palette0 index0 : Nat → Nat)
    (hsize : 1 ≤ size) (hd : (Finset.image colors (Finset.range size)).card < 256) :
    (cdpattern_palette colors size palette0 index0).stopped = false ∧
    (cdpattern_palette colors size palette0 index0).pal_size =
      (Finset.image colors (Finset.range size)).card ∧
    (∀ k, k < (cdpattern_palette colors size palette0 index0).pal_size →
      ∃ i, i < size ∧
        first_occ colors i ((cdpattern_palette colors size palette0 index0).palette k)) ∧
    (∀ k k2, k < k2 → k2 < (cdpattern_palette colors size palette0 index0).pal_size →
      (cdpattern_palette colors size palette0 index0).palette k ≠
        (cdpattern_palette colors size palette0 index0).palette k2) ∧
    (∀ k k2 i i2, k < k2 → k2 < (cdpattern_palette colors size palette0 index0).pal_size →
      first_occ colors i ((cdpattern_palette colors size palette0 index0).palette k) →
      first_occ colors i2 ((cdpattern_palette colors size palette0 index0).palette k2) →
      i < i2) ∧
    (∀ i, i < size →
      (cdpattern_palette colors size palette0 index0).index i <
        (cdpattern_palette colors size palette0 index0).pal_size ∧
      (cdpattern_palette colors size palette0 index0).palette
        ((cdpattern_palette colors size palette0 index0).index i) = colors i) := by
  obtain ⟨hinv, hstop⟩ := PatInv_run colors size palette0 index0 hd size (le_refl _)
  have hcard := PatInv_card colors size size _ (le_refl _) hsize hinv
  have hst : cdpattern_palette colors size palette0 index0 =
      (List.range size).foldl (cdpattern_step colors)
        { palette := fun k => if k = 0 then colors 0 else palette0 k
          pal_size := 1, index := index0, stopped := false } := rfl
  rw [hst]
  generalize (List.range size).foldl (cdpattern_step colors)
        { palette := fun k => if k = 0 then colors 0 else palette0 k
          pal_size := 1, index := index0, stopped := false } = st at hinv hstop hcard
  obtain ⟨hb, hc, hdx, he⟩ := hinv
  have hmax : max size 1 = size := by omega
  refine ⟨hstop, ?_, ?_, ?_, he, hdx⟩
  · apply le_antisymm hcard
    have hsub : Finset.image colors (Finset.range size) ⊆
        Finset.image st.palette (Finset.range st.pal_size) := by
      intro c hcm
      obtain ⟨i, hi, hci⟩ := Finset.mem_image.mp hcm
      obtain ⟨h1, h2⟩ := hdx i (Finset.mem_range.mp hi)
      exact Finset.mem_image.mpr ⟨st.index i, Finset.mem_range.mpr h1, by rw [h2, hci]⟩
    calc (Finset.image colors (Finset.range size)).card
        ≤ (Finset.image st.palette (Finset.range st.pal_size)).card := Finset.card_le_card hsub
      _ ≤ (Finset.range st.pal_size).card := Finset.card_image_le
      _ = st.pal_size := Finset.card_range _
  · intro k hk
    obtain ⟨i, hi, hfo⟩ := hc k hk
    exact ⟨i, by omega, hfo⟩
  · intro k k2 hkk hk2 heq
    obtain ⟨i, _, hfo⟩ := hc k (by omega)
    obtain ⟨i2, _, hfo2⟩ := hc k2 hk2
    have := he k k2 i i2 hkk hk2 hfo hfo2
    have hu := first_occ_unique colors i i2 _ hfo (by rw [heq]; exact hfo2)
    omega

/-- C19: on a palette-limited display (`bpp ≤ 8`), for a pattern of at least one pixel
with fewer than 256 distinct colours, the palette built by `cdpattern` holds each
distinct colour exactly once (as many entries as distinct colours, no two equal), in
order of first occurrence; every pixel `i` below `w*h` gets an index whose palette entry
is `colors[i]`, and `pixels[i]` is the colour a `cdgdkGetPixel` call returned for
`colors[i]`. -/
theorem cdpattern_palette_exact (getPixel : cdCtxCanvas → Nat → GdkColor × cdCtxCanvas)
    (ctx : cdCtxCanvas) (size : Nat) (colors : Nat → Nat) (pixels0 table0 : Nat → GdkColor)
    (palette0 index0 : Nat → Nat) (hbpp : ctx.canvas.bpp ≤ 8) (hsize : 1 ≤ size)
    (hd : (Finset.image colors (Finset.range size)).card < 256) :
    (cdpattern_palette colors size palette0 index0).stopped = false ∧
    (cdpattern_palette colors size palette0 index0).pal_size =
      (Finset.image colors (Finset.range size)).card ∧
    (∀ k, k < (cdpattern_palette colors size palette0 index0).pal_size →
      ∃ i, i < size ∧
        first_occ colors i ((cdpattern_palette colors size palette0 index0).palette k)) ∧
    (∀ k k2, k < k2 → k2 < (cdpattern_palette colors size palette0 index0).pal_size →
      (cdpattern_palette colors size palette0 index0).palette k ≠
        (cdpattern_palette colors size palette0 index0).palette k2) ∧
    (∀ k k2 i i2, k < k2 → k2 < (cdpattern_palette colors size palette0 index0).pal_size →
      first_occ colors i ((cdpattern_palette colors size palette0 index0).palette k) →
      first_occ colors i2 ((cdpattern_palette colors size palette0 index0).palette k2) →
      i < i2) ∧
    (∀ i, i < size →
      (cdpattern_palette colors size palette0 index0).index i <
        (cdpattern_palette colors size palette0 index0).pal_size ∧
      (cdpattern_palette colors size palette0 index0).palette
        ((cdpattern_palette colors size palette0 index0).index i) = colors i) ∧
    (∀ i, i < size → ∃ c : cdCtxCanvas,
      (cdpattern_pixels getPixel ctx size colors pixels0 table0 palette0 index0).1 i =
        (getPixel c (colors i)).1) := by
  obtain ⟨h1, h2, h3, h4, h5, h6⟩ := cdpattern_palette_spec colors size palette0 index0 hsize hd
  refine ⟨h1, h2, h3, h4, h5, h6, ?_⟩
  intro i hi
  obtain ⟨hidx, hpal⟩ := h6 i hi
  obtain ⟨c, hc⟩ := cdpattern_resolve_range getPixel
    (cdpattern_palette colors size palette0 index0).palette (ctx, table0) _ _ hidx
  refine ⟨c, ?_⟩
  simp only [cdpattern_pixels, hbpp, if_true, hi]
  rw [hc, hpal]

/-- Witness of `cdpattern_palette_exact`: the pattern 7, 9, 7, 5, whose palette is
7, 9, 5 and whose indices are 0, 1, 0, 2. -/
theorem cdpattern_palette_exact_witness :
    (cdpattern_palette pattern4 4 (fun _ => 0) (fun _ => 0)).pal_size = 3 ∧
    (cdpattern_palette pattern4 4 (fun _ => 0) (fun _ => 0)).index 3 = 2 ∧
    (cdpattern_palette pattern4 4 (fun _ => 0) (fun _ => 0)).pal_size =
      (Finset.image pattern4 (Finset.range 4)).card :=
  ⟨by decide, by decide,
   (cdpattern_palette_exact (map_env 24).cdgdkGetPixel palette_ctx 4 pattern4
      (fun _ => { pixel := 0, red := 0, green := 0, blue := 0 })
      (fun _ => { pixel := 0, red := 0, green := 0, blue := 0 }) (fun _ => 0) (fun _ => 0)
      (by decide) (by decide) (by decide)).2.1⟩

/-! ## The retry flag of `nearest_rgb` -/

/-- The static flag after one top-level call of `nearest_rgb` entered with the flag at 0:
it is 1 exactly when the first allocation failed and the allocation of the retry
succeeded. -/
theorem nearest_rgb_flag {σ : Type} (ops : CmapOps σ) (cm : σ) (ctx : cdCtxCanvas)
    (clr : GdkColor) :
    (nearest_rgb ops 2 cm 0 ctx clr).map (fun r => r.nearest_try) =
      some (if (ops.alloc_color cm (ctx.color_table (find_color ctx clr))).2.isNone ∧
          (ops.alloc_color
            (update_colors ops (ops.alloc_color cm (ctx.color_table (find_color ctx clr))).1
              ctx).1
            ((update_colors ops (ops.alloc_color cm (ctx.color_table (find_color ctx clr))).1
              ctx).2.color_table
              (find_color (update_colors ops
                (ops.alloc_color cm (ctx.color_table (find_color ctx clr))).1 ctx).2
                clr))).2.isSome
        then 1 else 0) := by
  cases h1 : (ops.alloc_color cm (ctx.color_table (find_color ctx clr))).2 with
  | some c => simp [nearest_rgb, h1]
  | none =>
    cases h2 : (ops.alloc_color
        (update_colors ops (ops.alloc_color cm (ctx.color_table (find_color ctx clr))).1 ctx).1
        ((update_colors ops (ops.alloc_color cm (ctx.color_table (find_color ctx clr))).1
          ctx).2.color_table
          (find_color (update_colors ops
            (ops.alloc_color cm (ctx.color_table (find_color ctx clr))).1 ctx).2 clr))).2 with
    | some c => simp [nearest_rgb, h1, h2]
    | none => simp [nearest_rgb, h1, h2]

/-- C21: the retry flag of `nearest_rgb` is not reset on every path.  For every colormap,
a call entered with the flag at 0 returns with the flag at 1 exactly when its first
allocation fails and the allocation of the retry succeeds.  On the scripted colormap,
for every table, colour and slot `p`: with the outcomes FALSE, TRUE the call refreshes
once and returns with the flag at 1, and the next call, whose allocation fails, returns
after one scan without any refresh. -/
theorem nearest_rgb_flag_left_set {σ : Type} (ops : CmapOps σ) (cm : σ) (ctx : cdCtxCanvas)
    (clr : GdkColor) (p : Nat) :
    (nearest_rgb ops 2 cm 0 ctx clr).map (fun r => r.nearest_try) =
      some (if (ops.alloc_color cm (ctx.color_table (find_color ctx clr))).2.isNone ∧
          (ops.alloc_color
            (update_colors ops (ops.alloc_color cm (ctx.color_table (find_color ctx clr))).1
              ctx).1
            ((update_colors ops (ops.alloc_color cm (ctx.color_table (find_color ctx clr))).1
              ctx).2.color_table
              (find_color (update_colors ops
                (ops.alloc_color cm (ctx.color_table (find_color ctx clr))).1 ctx).2
                clr))).2.isSome
        then 1 else 0) ∧
    ∃ r : NearestResult (List (Option Nat)),
      nearest_rgb scripted_cmap 2 [none, some p] 0 ctx clr = some r ∧
      r.nearest_try = 1 ∧ r.refreshes = 1 ∧ r.cm = [] ∧
      ∃ r2 : NearestResult (List (Option Nat)),
        nearest_rgb scripted_cmap 2 [none] r.nearest_try r.ctx clr = some r2 ∧
        r2.refreshes = 0 ∧ r2.scans = 1 ∧ r2.nearest_try = 0 :=
  ⟨nearest_rgb_flag ops cm ctx clr, _, rfl, rfl, rfl, rfl, _, rfl, rfl, rfl, rfl⟩

/-! ## Byte layout of the indexed packer -/

theorem map2gdk_imew_spec (ew : Nat) :
    (4 : Int) ∣ map2gdk_imew ew ∧ (ew : Int) ≤ map2gdk_imew ew ∧
      map2gdk_imew ew - ew ≤ 3 := by
  unfold map2gdk_imew
  have h : Int.tmod (ew : Int) 4 = (ew : Int) % 4 :=
    Int.tmod_eq_emod (by omega) (by omega)
  rw [h]
  refine ⟨?_, ?_, ?_⟩
  · apply Int.dvd_of_emod_eq_zero
    omega
  · omega
  · omega

/-- C22: the padded row length of the 8-bit branch of `map2gdkImage` is the least
multiple of 4 not below `ew`, and the buffer requested is `eh * imew` bytes, but the
branch stores no byte: its loop body assigns to the pointer `ip`.  For a 1 x 1 image of
index 0, whose resolved pixel is 0x111111, the capacity recorded is 4, the row length set
in the image is 4, and the buffer holds the bytes the allocator left, whatever they
are. -/
theorem map2gdkImage_8bit_stores_nothing (ew : Nat) (fresh : Int → Nat) :
    ((4 : Int) ∣ map2gdk_imew ew ∧ (ew : Int) ≤ map2gdk_imew ew ∧
      map2gdk_imew ew - ew ≤ 3) ∧
    (∀ (lookup : Nat → Nat) (index : Int → Nat) (fx fy : List Int) (ew eh iw : Int),
      map2gdk_stores_8 lookup index fx fy ew eh iw = []) ∧
    (∃ (xim : GdkImage) (c : cdCtxCanvas) (buf : XiData),
      map2gdkImage_from (map_env_fresh 8 fresh) (some fun _ => none) ctx_depth8 1 1
        two_index two_colors 0 0 1 1 1 = .ok (some xim, c) ∧
      c.xisize = 1 * map2gdk_imew 1 ∧ c.xisize = 4 ∧ xim.bpl = 4 ∧
      c.xidata = some buf ∧ buf.mem = fresh ∧
      ((map_env_fresh 8 fresh).cdgdkGetPixel ctx_depth8 (two_colors (two_index 0))).1.pixel =
        0x111111) := by
  refine ⟨map2gdk_imew_spec ew, fun _ _ _ _ _ _ _ => rfl, ?_⟩
  exact ⟨_, _, _, rfl, rfl, rfl, rfl, rfl, rfl, rfl⟩

/-- Pieces of equal length `n` laid end to end: piece `j` starts at index `j * n`. -/
theorem flatMap_range_getD {α : Type} (f : Nat → List α) (n : Nat) (d : α)
    (hlen : ∀ j, (f j).length = n) :
    ∀ m, ((List.range m).flatMap f).length = m * n ∧
      ∀ j k, j < m → k < n →
        ((List.range m).flatMap f).getD (j * n + k) d = (f j).getD k d := by
  intro m
  induction m with
  | zero => exact ⟨by simp, fun j k hj => by omega⟩
  | succ m ih =>
    obtain ⟨ihl, ihg⟩ := ih
    rw [List.range_succ, List.flatMap_append, List.flatMap_singleton]
    refine ⟨?_, ?_⟩
    · rw [List.length_append, ihl, hlen]
      ring
    · intro j k hj hk
      by_cases hjm : j < m
      · have hidx : j * n + k < ((List.range m).flatMap f).length := by
          rw [ihl]
          have : (j + 1) * n ≤ m * n := Nat.mul_le_mul_right n hjm
          have h2 : (j + 1) * n = j * n + n := by ring
          omega
        rw [List.getD_append _ _ _ _ hidx]
        exact ihg j k hjm hk
      · have hjeq : j = m := by omega
        subst hjeq
        rw [List.getD_append_right _ _ _ _ (by rw [ihl]; omega), ihl]
        congr 1
        omega

theorem byte_of_shift (x s : Nat) : (x >>> s) &&& 0xff = x / 2 ^ s % 256 := by
  rw [Nat.shiftRight_eq_div_pow]
  exact Nat.and_pow_two_sub_one_eq_mod _ 8

theorem byte_low (x : Nat) : x &&& 0xff = x % 256 :=
  Nat.and_pow_two_sub_one_eq_mod x 8

/-- The bytes of one pixel in the 24/32-bit branch of `map2gdkImage`: 3 or 4 bytes that
carry the low 24 bits of the value in either byte order, the extra byte being 0. -/
theorem map2gdk_bytes_24_spec (do32 : Bool) (xcol : Nat) :
    (map2gdk_bytes_24 do32 .GDK_MSB_FIRST xcol).length = (if do32 then 4 else 3) ∧
    (map2gdk_bytes_24 do32 .GDK_LSB_FIRST xcol).length = (if do32 then 4 else 3) ∧
    be_value (map2gdk_bytes_24 do32 .GDK_MSB_FIRST xcol) = xcol % 2 ^ 24 ∧
    le_value (map2gdk_bytes_24 do32 .GDK_LSB_FIRST xcol) = xcol % 2 ^ 24 ∧
    (map2gdk_bytes_24 true .GDK_MSB_FIRST xcol).getD 0 1 = 0 ∧
    (map2gdk_bytes_24 true .GDK_LSB_FIRST xcol).getD 3 1 = 0 := by
  cases do32 <;>
    simp only [map2gdk_bytes_24, be_value, le_value, byte_of_shift, byte_low, if_true,
      if_false, List.nil_append, List.append_nil, List.cons_append, List.length_cons,
      List.length_nil, List.foldl_cons, List.foldl_nil, List.foldr_cons, List.foldr_nil,
      List.getD_cons_zero, List.getD_cons_succ, reduceCtorEq, Bool.false_eq_true] <;>
    refine ⟨by trivial, by trivial, ?_, ?_, by trivial, by trivial⟩ <;> omega

theorem map2gdk_bytes_24_length (do32 : Bool) (byte_order : GdkByteOrder) (xcol : Nat) :
    (map2gdk_bytes_24 do32 byte_order xcol).length = (if do32 then 4 else 3) := by
  cases byte_order
  · exact (map2gdk_bytes_24_spec do32 xcol).2.1
  · exact (map2gdk_bytes_24_spec do32 xcol).1

/-- Where the 24/32-bit branch stores byte `k` of the pixel of column `j` in zoom row
`i`: at `ip + j * n + k`, with `n` the number of bytes of a pixel. -/
theorem map2gdk_stores_24_mem (lookup : Nat → Nat) (index : Int → Nat) (fx fy : List Int)
    (xim : GdkImage) (ew eh iw : Int) (i j k : Nat)
    (hi : i < eh.toNat) (hj : j < ew.toNat)
    (hk : k < (if decide (xim.bits_per_pixel = 32) = true then 4 else 3)) :
    ({ off := map2gdk_ip_24 xim eh i +
          ((j * (if decide (xim.bits_per_pixel = 32) = true then 4 else 3) + k : Nat) : Int)
       size := 1
       value := (map2gdk_bytes_24 (decide (xim.bits_per_pixel = 32)) xim.byte_order
          (lookup (index (map2gdk_src fx fy iw i j)))).getD k 0 } : Store) ∈
      map2gdk_stores_24 lookup index fx fy xim ew eh iw := by
  unfold map2gdk_stores_24
  simp only [List.mem_flatMap, List.mem_map, List.mem_range]
  refine ⟨i, hi, j * (if decide (xim.bits_per_pixel = 32) = true then 4 else 3) + k, ?_, ?_⟩
  · have h := (flatMap_range_getD
      (fun (j : Nat) => map2gdk_bytes_24 (decide (xim.bits_per_pixel = 32)) xim.byte_order
        (lookup (index (map2gdk_src fx fy iw i j))))
      (if decide (xim.bits_per_pixel = 32) = true then 4 else 3) 0
      (fun j => map2gdk_bytes_24_length _ _ _) ew.toNat).1
    rw [h]
    have h1 : (j + 1) * (if decide (xim.bits_per_pixel = 32) = true then 4 else 3) ≤
        ew.toNat * (if decide (xim.bits_per_pixel = 32) = true then 4 else 3) :=
      Nat.mul_le_mul_right _ hj
    have h2 : (j + 1) * (if decide (xim.bits_per_pixel = 32) = true then 4 else 3) =
        j * (if decide (xim.bits_per_pixel = 32) = true then 4 else 3) +
          (if decide (xim.bits_per_pixel = 32) = true then 4 else 3) := by ring
    omega
  · have h := (flatMap_range_getD
      (fun (j : Nat) => map2gdk_bytes_24 (decide (xim.bits_per_pixel = 32)) xim.byte_order
        (lookup (index (map2gdk_src fx fy iw i j))))
      (if decide (xim.bits_per_pixel = 32) = true then 4 else 3) 0
      (fun j => map2gdk_bytes_24_length _ _ _) ew.toNat).2 j k hj hk
    rw [h]

/-! ## Properties of the direct-colour table -/

/-- The backward loop of `makeDirectCmap` stops at the first allocated level at or below
`i`, or one step past level 0. -/
theorem makeDirectCmap_numbak_spec (og : Nat → Nat) (i : Nat) :
    ∀ (fuel nb : Nat), nb ≤ i + 1 → i + 2 ≤ fuel + nb → (∀ m, m < nb → og (i - m) = 0) →
      ∃ r : Nat, makeDirectCmap_numbak og (i : Int) fuel (nb : Int) = (r : Int) ∧ nb ≤ r ∧
        r ≤ i + 1 ∧ (∀ m, m < r → og (i - m) = 0) ∧ (r ≤ i → og (i - r) ≠ 0) := by
  intro fuel
  induction fuel with
  | zero => intro nb h1 h2; omega
  | succ fuel ih =>
    intro nb h1 h2 h3
    unfold makeDirectCmap_numbak
    by_cases hc : (i : Int) - (nb : Int) ≥ 0 ∧ og ((i : Int) - (nb : Int)).toNat = 0
    · rw [if_pos hc]
      have hnb : nb ≤ i := by omega
      have htn : ((i : Int) - (nb : Int)).toNat = i - nb := by omega
      obtain ⟨r, e, r1, r2, r3, r4⟩ := ih (nb + 1) (by omega) (by omega) (by
        intro m hm
        by_cases hmn : m = nb
        · subst hmn; rw [← htn]; exact hc.2
        · exact h3 m (by omega))
      refine ⟨r, ?_, by omega, r2, r3, r4⟩
      rw [← e]
      push_cast
      rfl
    · rw [if_neg hc]
      refine ⟨nb, rfl, le_refl _, h1, h3, ?_⟩
      intro hle h0
      have htn : ((i : Int) - (nb : Int)).toNat = i - nb := by omega
      exact hc ⟨by omega, by rw [htn]; exact h0⟩

/-- The forward loop of `makeDirectCmap` stops at the first allocated level at or above
`i`, or at `cmaplen`. -/
theorem makeDirectCmap_numfwd_spec (og : Nat → Nat) (N i : Nat) :
    ∀ (fuel nf : Nat), i + nf ≤ N → N + 1 ≤ fuel + nf + i →
      (∀ m, m < nf → og (i + m) = 0) →
      ∃ r : Nat, makeDirectCmap_numfwd og (N : Int) (i : Int) fuel (nf : Int) = (r : Int) ∧
        nf ≤ r ∧ i + r ≤ N ∧ (∀ m, m < r → og (i + m) = 0) ∧ (i + r < N → og (i + r) ≠ 0) := by
  intro fuel
  induction fuel with
  | zero => intro nf h1 h2; omega
  | succ fuel ih =>
    intro nf h1 h2 h3
    unfold makeDirectCmap_numfwd
    by_cases hc : (i : Int) + (nf : Int) < (N : Int) ∧ og ((i : Int) + (nf : Int)).toNat = 0
    · rw [if_pos hc]
      have hnf : i + nf < N := by omega
      have htn : ((i : Int) + (nf : Int)).toNat = i + nf := by omega
      obtain ⟨r, e, r1, r2, r3, r4⟩ := ih (nf + 1) (by omega) (by omega) (by
        intro m hm
        by_cases hmn : m = nf
        · subst hmn; rw [← htn]; exact hc.2
        · exact h3 m (by omega))
      refine ⟨r, ?_, by omega, r2, r3, r4⟩
      rw [← e]
      push_cast
      rfl
    · rw [if_neg hc]
      refine ⟨nf, rfl, le_refl _, h1, h3, ?_⟩
      intro hlt h0
      have htn : ((i : Int) + (nf : Int)).toNat = i + nf := by omega
      exact hc ⟨by omega, by rw [htn]; exact h0⟩

/-- The hole-filling step of `makeDirectCmap` at an unallocated level `i`, when some
level was allocated: the entry becomes the table entry of an allocated level `s` that is
nearest to `i`. -/
theorem makeDirectCmap_fill_step_hole (og : Nat → Nat) (N : Nat) (hN : N ≤ 256)
    (t : Nat → Nat) (i : Nat) (hi : i < N) (hog : og i = 0)
    (hex : ∃ l, l < N ∧ og l ≠ 0) :
    ∃ s, s < N ∧ og s ≠ 0 ∧ (∀ l, l < N → og l ≠ 0 → level_dist i s ≤ level_dist i l) ∧
      makeDirectCmap_fill_step og (N : Int) t i = fun k => if k = i then t s else t k := by
  obtain ⟨nb, eb, -, b2, b3, b4⟩ := makeDirectCmap_numbak_spec og i 257 0 (by omega) (by omega)
    (fun m hm => by omega)
  obtain ⟨nf, ef, -, f2, f3, f4⟩ := makeDirectCmap_numfwd_spec og N i 257 0 (by omega)
    (by omega) (fun m hm => by omega)
  simp only [Nat.cast_zero] at eb ef
  have hback : ∀ l, l ≤ i → og l ≠ 0 → nb ≤ i ∧ nb ≤ i - l := by
    intro l hl hgot
    by_contra hcon
    have hm : i - l < nb := by omega
    have := b3 (i - l) hm
    rw [show i - (i - l) = l by omega] at this
    exact hgot this
  have hfwd : ∀ l, i < l → l < N → og l ≠ 0 → i + nf < N ∧ nf ≤ l - i := by
    intro l hl hlN hgot
    by_contra hcon
    have hm : l - i < nf := by omega
    have := f3 (l - i) hm
    rw [show i + (l - i) = l by omega] at this
    exact hgot this
  unfold makeDirectCmap_fill_step
  rw [if_pos hog]
  simp only [eb, ef]
  by_cases hb : nb ≤ i
  · have htb : ((i : Int) - (nb : Int)).toNat = i - nb := by omega
    have hcb : ¬ ((i : Int) - (nb : Int) < 0 ∨ og ((i : Int) - (nb : Int)).toNat = 0) := by
      rw [htb]
      rintro (h | h)
      · omega
      · exact b4 hb h
    rw [if_neg hcb]
    by_cases hf : i + nf < N
    · have htf : ((i : Int) + (nf : Int)).toNat = i + nf := by omega
      have hcf : ¬ ((i : Int) + (nf : Int) ≥ (N : Int) ∨
          og ((i : Int) + (nf : Int)).toNat = 0) := by
        rw [htf]
        rintro (h | h)
        · omega
        · exact f4 hf h
      rw [if_neg hcf]
      by_cases hlt : nb < nf
      · rw [if_pos (by exact_mod_cast hlt), htb]
        refine ⟨i - nb, by omega, b4 hb, ?_, rfl⟩
        intro l hl hgot
        unfold level_dist
        by_cases hli : l ≤ i
        · have := hback l hli hgot
          split_ifs <;> omega
        · have := hfwd l (by omega) hl hgot
          split_ifs <;> omega
      · rw [if_neg (by exact_mod_cast hlt), if_pos (by omega), htf]
        refine ⟨i + nf, hf, f4 hf, ?_, rfl⟩
        intro l hl hgot
        unfold level_dist
        by_cases hli : l ≤ i
        · have := hback l hli hgot
          split_ifs <;> omega
        · have := hfwd l (by omega) hl hgot
          split_ifs <;> omega
    · have hcf : ((i : Int) + (nf : Int) ≥ (N : Int) ∨
          og ((i : Int) + (nf : Int)).toNat = 0) := Or.inl (by omega)
      rw [if_pos hcf, if_pos (by omega), htb]
      refine ⟨i - nb, by omega, b4 hb, ?_, rfl⟩
      intro l hl hgot
      unfold level_dist
      by_cases hli : l ≤ i
      · have := hback l hli hgot
        split_ifs <;> omega
      · have := hfwd l (by omega) hl hgot
        omega
  · have hcb : ((i : Int) - (nb : Int) < 0 ∨ og ((i : Int) - (nb : Int)).toNat = 0) :=
      Or.inl (by omega)
    rw [if_pos hcb]
    by_cases hf : i + nf < N
    · have htf : ((i : Int) + (nf : Int)).toNat = i + nf := by omega
      have hcf : ¬ ((i : Int) + (nf : Int) ≥ (N : Int) ∨
          og ((i : Int) + (nf : Int)).toNat = 0) := by
        rw [htf]
        rintro (h | h)
        · omega
        · exact f4 hf h
      rw [if_neg hcf, if_neg (by omega), if_pos (by omega), htf]
      refine ⟨i + nf, hf, f4 hf, ?_, rfl⟩
      intro l hl hgot
      unfold level_dist
      by_cases hli : l ≤ i
      · have := hback l hli hgot
        omega
      · have := hfwd l (by omega) hl hgot
        split_ifs <;> omega
    · exfalso
      obtain ⟨l, hl, hgot⟩ := hex
      by_cases hli : l ≤ i
      · have := hback l hli hgot
        omega
      · have := hfwd l (by omega) hl hgot
        omega

/-- State of the hole-filling loop of `makeDirectCmap` after the levels `0 .. n-1`. -/
theorem makeDirectCmap_fill_inv (og : Nat → Nat) (N : Nat) (hN : N ≤ 256) (t0 : Nat → Nat)
    (hex : ∃ l, l < N ∧ og l ≠ 0) :
    ∀ n, n ≤ N →
      (∀ k, k < N → og k ≠ 0 →
        (List.range n).foldl (makeDirectCmap_fill_step og (N : Int))
          (fun k => if k < 256 then k else t0 k) k = k) ∧
      (∀ k, k < n → og k = 0 →
        (List.range n).foldl (makeDirectCmap_fill_step og (N : Int))
            (fun k => if k < 256 then k else t0 k) k < N ∧
        og ((List.range n).foldl (makeDirectCmap_fill_step og (N : Int))
            (fun k => if k < 256 then k else t0 k) k) ≠ 0 ∧
        ∀ l, l < N → og l ≠ 0 →
          level_dist k ((List.range n).foldl (makeDirectCmap_fill_step og (N : Int))
            (fun k => if k < 256 then k else t0 k) k) ≤ level_dist k l) ∧
      (∀ k, n ≤ k →
        (List.range n).foldl (makeDirectCmap_fill_step og (N : Int))
          (fun k => if k < 256 then k else t0 k) k = if k < 256 then k else t0 k) := by
  intro n
  induction n with
  | zero =>
    intro _
    refine ⟨?_, ?_, ?_⟩
    · intro k hk _
      simp only [List.range_zero, List.foldl_nil]
      rw [if_pos (by omega)]
    · intro k hk
      omega
    · intro k _
      rfl
  | succ n ih =>
    intro hn
    obtain ⟨ia, ib, ic⟩ := ih (by omega)
    rw [List.range_succ, List.foldl_append]
    simp only [List.foldl_cons, List.foldl_nil]
    generalize (List.range n).foldl (makeDirectCmap_fill_step og (N : Int))
      (fun k => if k < 256 then k else t0 k) = t at ia ib ic
    by_cases hog : og n = 0
    · obtain ⟨s, s1, s2, s3, s4⟩ := makeDirectCmap_fill_step_hole og N hN t n (by omega) hog hex
      rw [s4]
      have hts : t s = s := ia s s1 s2
      refine ⟨?_, ?_, ?_⟩
      · intro k hk hgot
        have hkn : k ≠ n := fun h => hgot (h ▸ hog)
        simp only [hkn, if_false]
        exact ia k hk hgot
      · intro k hk hk0
        by_cases hkn : k = n
        · subst hkn
          simp only [if_true, hts]
          exact ⟨s1, s2, s3⟩
        · simp only [hkn, if_false]
          exact ib k (by omega) hk0
      · intro k hk
        have hkn : k ≠ n := by omega
        simp only [hkn, if_false]
        exact ic k (by omega)
    · have hstep : makeDirectCmap_fill_step og (N : Int) t n = t := by
        unfold makeDirectCmap_fill_step
        rw [if_neg hog]
      rw [hstep]
      refine ⟨ia, ?_, fun k hk => ic k (by omega)⟩
      intro k hk hk0
      have hkn : k ≠ n := fun h => hog (h ▸ hk0)
      exact ib k (by omega) hk0

theorem makeDirectCmap_probe_succ {σ : Type} (ops : CmapOps σ) (cm : σ) (ctx : cdCtxCanvas)
    (c0 : GdkColor) (n : Nat) :
    makeDirectCmap_probe ops cm ctx c0 (n + 1) =
      makeDirectCmap_probe_step ops ctx (makeDirectCmap_probe ops cm ctx c0 n) n := by
  unfold makeDirectCmap_probe
  rw [List.range_succ, List.foldl_append]
  rfl

/-- State of the probing loop of `makeDirectCmap` after `n` levels: `numgot` is 0 exactly
when no level was marked, and no level from `n` on is marked. -/
theorem makeDirectCmap_probe_inv {σ : Type} (ops : CmapOps σ) (cm : σ) (ctx : cdCtxCanvas)
    (c0 : GdkColor) :
    ∀ n, 0 ≤ (makeDirectCmap_probe ops cm ctx c0 n).numgot ∧
      ((makeDirectCmap_probe ops cm ctx c0 n).numgot = 0 ↔
        ∀ k, (makeDirectCmap_probe ops cm ctx c0 n).origgot k = 0) ∧
      (∀ k, n ≤ k → (makeDirectCmap_probe ops cm ctx c0 n).origgot k = 0) := by
  intro n
  induction n with
  | zero => exact ⟨le_refl _, ⟨fun _ _ => rfl, fun _ => rfl⟩, fun _ _ => rfl⟩
  | succ n ih =>
    obtain ⟨i1, i2, i3⟩ := ih
    rw [makeDirectCmap_probe_succ]
    generalize makeDirectCmap_probe ops cm ctx c0 n = st at i1 i2 i3
    cases h : (ops.alloc_color st.cm (makeDirectCmap_color ctx st.c n)).2 with
    | none =>
      simp only [makeDirectCmap_probe_step, h]
      exact ⟨i1, i2, fun k hk => i3 k (by omega)⟩
    | some c2 =>
      simp only [makeDirectCmap_probe_step, h]
      refine ⟨by omega, ⟨fun h0 => by omega, fun hall => ?_⟩, ?_⟩
      · have := hall n
        simp at this
      · intro k hk
        have hkn : k ≠ n := by omega
        simp only [hkn, if_false]
        exact i3 k (by omega)

/-- A level is marked in `origgot` exactly when its allocation returned TRUE. -/
theorem makeDirectCmap_probe_got {σ : Type} (ops : CmapOps σ) (cm : σ) (ctx : cdCtxCanvas)
    (c0 : GdkColor) (i : Nat) :
    ∀ n, i < n →
      ((makeDirectCmap_probe ops cm ctx c0 n).origgot i ≠ 0 ↔
        (ops.alloc_color (makeDirectCmap_probe ops cm ctx c0 i).cm
          (makeDirectCmap_color ctx (makeDirectCmap_probe ops cm ctx c0 i).c i)).2.isSome =
          true) := by
  intro n
  induction n with
  | zero => intro h; omega
  | succ n ih =>
    intro hi
    rw [makeDirectCmap_probe_succ]
    by_cases hin : i = n
    · subst hin
      have h0 := (makeDirectCmap_probe_inv ops cm ctx c0 i).2.2 i (le_refl _)
      generalize makeDirectCmap_probe ops cm ctx c0 i = st at h0
      cases h : (ops.alloc_color st.cm (makeDirectCmap_color ctx st.c i)).2 with
      | none => simp [makeDirectCmap_probe_step, h, h0]
      | some c2 => simp [makeDirectCmap_probe_step, h]
    · have := ih (by omega)
      rw [← this]
      generalize makeDirectCmap_probe ops cm ctx c0 n = st
      cases h : (ops.alloc_color st.cm (makeDirectCmap_color ctx st.c n)).2 with
      | none => simp [makeDirectCmap_probe_step, h]
      | some c2 => simp [makeDirectCmap_probe_step, h, hin]

/-- C24: for a colormap of at least 2 entries (`cmaplen` is the size, at most 256)
`makeDirectCmap` returns, a level being marked in `origgot` exactly when its allocation
returned TRUE.  When some level below `cmaplen` was allocated, every entry `i < cmaplen`
of `cdgdkDirectColorTable` is an allocated level, no allocated level is nearer to `i`,
and an allocated level maps to itself; when none was allocated the table is the identity
on 0..255. -/
theorem makeDirectCmap_table_nearest {σ : Type} (ops : CmapOps σ) (cm : σ)
    (ctx : cdCtxCanvas) (c0 : GdkColor) (table0 : Nat → Nat)
    (hlen : 2 ≤ ctx.vis.colormap_size) :
    ∃ r : σ × (Nat → Nat), makeDirectCmap ops cm ctx c0 table0 = some r ∧
      (∀ i, i < (makeDirectCmap_cmaplen ctx).toNat →
        ((makeDirectCmap_probe ops cm ctx c0 (makeDirectCmap_cmaplen ctx).toNat).origgot i ≠ 0 ↔
          (ops.alloc_color (makeDirectCmap_probe ops cm ctx c0 i).cm
            (makeDirectCmap_color ctx (makeDirectCmap_probe ops cm ctx c0 i).c i)).2.isSome =
            true)) ∧
      ((∃ l, l < (makeDirectCmap_cmaplen ctx).toNat ∧
          (makeDirectCmap_probe ops cm ctx c0 (makeDirectCmap_cmaplen ctx).toNat).origgot l ≠ 0) →
        ∀ i, i < (makeDirectCmap_cmaplen ctx).toNat →
          r.2 i < (makeDirectCmap_cmaplen ctx).toNat ∧
          (makeDirectCmap_probe ops cm ctx c0 (makeDirectCmap_cmaplen ctx).toNat).origgot
            (r.2 i) ≠ 0 ∧
          (∀ l, l < (makeDirectCmap_cmaplen ctx).toNat →
            (makeDirectCmap_probe ops cm ctx c0 (makeDirectCmap_cmaplen ctx).toNat).origgot l ≠ 0 →
            level_dist i (r.2 i) ≤ level_dist i l) ∧
          ((makeDirectCmap_probe ops cm ctx c0 (makeDirectCmap_cmaplen ctx).toNat).origgot i ≠ 0 →
            r.2 i = i)) ∧
      ((∀ l, l < (makeDirectCmap_cmaplen ctx).toNat →
          (makeDirectCmap_probe ops cm ctx c0 (makeDirectCmap_cmaplen ctx).toNat).origgot l = 0) →
        ∀ i, i < 256 → r.2 i = i) := by
  have hc2 : 2 ≤ makeDirectCmap_cmaplen ctx ∧ makeDirectCmap_cmaplen ctx ≤ 256 := by
    unfold makeDirectCmap_cmaplen
    simp only
    split_ifs <;> omega
  have hcast : makeDirectCmap_cmaplen ctx = (((makeDirectCmap_cmaplen ctx).toNat : Nat) : Int) := by
    omega
  have hN : (makeDirectCmap_cmaplen ctx).toNat ≤ 256 := by omega
  obtain ⟨p1, p2, p3⟩ := makeDirectCmap_probe_inv ops cm ctx c0 (makeDirectCmap_cmaplen ctx).toNat
  have hgot := fun i hi =>
    makeDirectCmap_probe_got ops cm ctx c0 i (makeDirectCmap_cmaplen ctx).toNat hi
  unfold makeDirectCmap
  simp only
  rw [if_neg (by omega)]
  generalize hP : makeDirectCmap_probe ops cm ctx c0 (makeDirectCmap_cmaplen ctx).toNat = P
    at p1 p2 p3 hgot ⊢
  by_cases h0 : P.numgot = 0
  · rw [if_pos h0]
    refine ⟨_, rfl, hgot, ?_, ?_⟩
    · rintro ⟨l, _, hl⟩
      exact absurd (p2.mp h0 l) hl
    · intro _ i hi
      simp only [hi, if_true]
  · rw [if_neg h0]
    have hex : ∃ l, l < (makeDirectCmap_cmaplen ctx).toNat ∧ P.origgot l ≠ 0 := by
      by_contra hcon
      apply h0
      rw [p2]
      intro k
      by_contra hk
      apply hcon
      refine ⟨k, ?_, hk⟩
      by_contra hge
      exact hk (p3 k (by omega))
    refine ⟨_, rfl, hgot, ?_, ?_⟩
    · intro _ i hi
      simp only
      rw [hcast]
      obtain ⟨ia, ib, -⟩ := makeDirectCmap_fill_inv P.origgot (makeDirectCmap_cmaplen ctx).toNat
        hN table0 hex (makeDirectCmap_cmaplen ctx).toNat (le_refl _)
      simp only [Int.toNat_ofNat]
      by_cases hi0 : P.origgot i = 0
      · obtain ⟨b1, b2, b3⟩ := ib i hi hi0
        exact ⟨b1, b2, b3, fun h => absurd hi0 h⟩
      · have hii := ia i hi hi0
        rw [hii]
        refine ⟨hi, hi0, ?_, fun _ => rfl⟩
        intro l _ _
        simp [level_dist]
    · intro hall
      obtain ⟨l, hl, hl0⟩ := hex
      exact absurd (hall l hl) hl0

/-- Witness of `makeDirectCmap_table_nearest`: a colormap of 4 entries in which the levels
0 and 3 are allocated and the levels 1 and 2 are not; the table becomes 0, 0, 3, 3. -/
theorem makeDirectCmap_table_nearest_witness :
    (2 : Int) ≤ ctx_cmap4.vis.colormap_size ∧
    (makeDirectCmap scripted_cmap [some 0, none, none, some 3] ctx_cmap4
        { pixel := 0, red := 0, green := 0, blue := 0 } (fun _ => 0)).map
      (fun r => [r.2 0, r.2 1, r.2 2, r.2 3]) = some [0, 0, 3, 3] ∧
    ∃ r : List (Option Nat) × (Nat → Nat),
      makeDirectCmap scripted_cmap [some 0, none, none, some 3] ctx_cmap4
        { pixel := 0, red := 0, green := 0, blue := 0 } (fun _ => 0) = some r ∧
      r.2 1 < (makeDirectCmap_cmaplen ctx_cmap4).toNat ∧
      (makeDirectCmap_probe scripted_cmap [some 0, none, none, some 3] ctx_cmap4
        { pixel := 0, red := 0, green := 0, blue := 0 }
        (makeDirectCmap_cmaplen ctx_cmap4).toNat).origgot (r.2 1) ≠ 0 ∧
      ∀ l, l < (makeDirectCmap_cmaplen ctx_cmap4).toNat →
        (makeDirectCmap_probe scripted_cmap [some 0, none, none, some 3] ctx_cmap4
          { pixel := 0, red := 0, green := 0, blue := 0 }
          (makeDirectCmap_cmaplen ctx_cmap4).toNat).origgot l ≠ 0 →
        level_dist 1 (r.2 1) ≤ level_dist 1 l :=
  ⟨by decide, by decide,
   (makeDirectCmap_table_nearest scripted_cmap [some 0, none, none, some 3] ctx_cmap4
      { pixel := 0, red := 0, green := 0, blue := 0 } (fun _ => 0) (by decide)).imp
      fun _ h =>
        ⟨h.1, (h.2.2.1 ⟨0, by decide, by decide⟩ 1 (by decide)).1,
          (h.2.2.1 ⟨0, by decide, by decide⟩ 1 (by decide)).2.1,
          (h.2.2.1 ⟨0, by decide, by decide⟩ 1 (by decide)).2.2.1⟩⟩

/-! ## The pattern palette at 256 colours -/

theorem cdpattern_palette_succ (colors : Nat → Nat) (n : Nat) (palette0 index0 : Nat → Nat) :
    cdpattern_palette colors (n + 1) palette0 index0 =
      cdpattern_step colors (cdpattern_palette colors n palette0 index0) n := by
  unfold cdpattern_palette
  rw [List.range_succ, List.foldl_append]
  rfl

/-- The palette loop of `cdpattern` stores `index[i]` only in its own iteration `i`. -/
theorem cdpattern_index_frame (colors : Nat → Nat) (palette0 index0 : Nat → Nat) :
    ∀ n k, n ≤ k → (cdpattern_palette colors n palette0 index0).index k = index0 k := by
  intro n
  induction n with
  | zero => intro k _; rfl
  | succ n ih =>
    intro k hk
    rw [cdpattern_palette_succ]
    have hkn : k ≠ n := by omega
    have := ih k (by omega)
    generalize cdpattern_palette colors n palette0 index0 = st at this
    unfold cdpattern_step
    by_cases hs : st.stopped = true
    · rw [if_pos hs]; exact this
    · rw [if_neg hs]
      cases hfm : find_match st.palette st.pal_size (colors n) with
      | none => simp only [hkn, if_false]; exact this
      | some m => simp only [hkn, if_false]; exact this

/-- Once the palette loop of `cdpattern` is left through `break`, its state stays. -/
theorem cdpattern_palette_stopped (colors : Nat → Nat) (palette0 index0 : Nat → Nat)
    (m : Nat) (hs : (cdpattern_palette colors m palette0 index0).stopped = true) :
    ∀ n, m ≤ n → cdpattern_palette colors n palette0 index0 =
      cdpattern_palette colors m palette0 index0 := by
  intro n hn
  induction n with
  | zero =>
    have : m = 0 := by omega
    subst this; rfl
  | succ n ih =>
    by_cases hmn : m = n + 1
    · subst hmn; rfl
    · rw [cdpattern_palette_succ, ih (by omega)]
      unfold cdpattern_step
      rw [if_pos hs]

/-- The palette loop of `cdpattern` when pixel `n0` brings the 256th distinct colour: the
loop is left at `n0`, and no later pixel gets an index. -/
theorem cdpattern_palette_break (colors : Nat → Nat) (size n0 : Nat)
    (palette0 index0 : Nat → Nat) (hn0 : n0 < size) (hn1 : 1 ≤ n0)
    (hcard : (Finset.image colors (Finset.range n0)).card = 255)
    (hnew : ∀ j, j < n0 → colors j ≠ colors n0) :
    (cdpattern_palette colors size palette0 index0).pal_size = 256 ∧
    (cdpattern_palette colors size palette0 index0).stopped = true ∧
    (cdpattern_palette colors size palette0 index0).index n0 = 255 ∧
    (cdpattern_palette colors size palette0 index0).palette 255 = colors n0 ∧
    (∀ k, k < 255 → (cdpattern_palette colors size palette0 index0).palette k =
      (cdpattern_palette colors n0 palette0 index0).palette k) ∧
    (∀ i, n0 < i → (cdpattern_palette colors size palette0 index0).index i = index0 i) := by
  obtain ⟨s1, s2, s3, -, -, -⟩ := cdpattern_palette_spec colors n0 palette0 index0 hn1
    (by omega)
  have hframe := cdpattern_index_frame colors palette0 index0 n0
  have hstep := cdpattern_palette_succ colors n0 palette0 index0
  rw [hcard] at s2
  have hfm : find_match (cdpattern_palette colors n0 palette0 index0).palette
      (cdpattern_palette colors n0 palette0 index0).pal_size (colors n0) = none := by
    cases h : find_match (cdpattern_palette colors n0 palette0 index0).palette
      (cdpattern_palette colors n0 palette0 index0).pal_size (colors n0) with
    | none => rfl
    | some r =>
      exfalso
      obtain ⟨k, hk, hpk, -⟩ := find_match_some _ _ _ _ h
      obtain ⟨i, hi, hfo⟩ := s3 k hk
      exact hnew i hi (by rw [hfo.1, hpk])
  have hfm2 := hfm
  rw [s2] at hfm2
  have hfin := cdpattern_palette_stopped colors palette0 index0 (n0 + 1)
    (by rw [hstep]; simp [cdpattern_step, s1, hfm2, s2]) size (by omega)
  rw [hfin, hstep]
  generalize cdpattern_palette colors n0 palette0 index0 = st at s1 s2 hfm hfm2 hframe
  simp only [cdpattern_step, s1, hfm2, s2, Bool.false_eq_true, if_false]
  refine ⟨trivial, by simp, by simp, by simp, ?_, ?_⟩
  · intro k hk
    have : k ≠ 255 := by omega
    simp [this]
  · intro i hi
    have : i ≠ n0 := by omega
    simp only [this, if_false]
    exact hframe i (by omega)

/-- The first palette entry of `cdpattern` is always `colors[0]`. -/
theorem cdpattern_palette_zero (colors : Nat → Nat) (palette0 index0 : Nat → Nat) :
    ∀ n, 1 ≤ (cdpattern_palette colors n palette0 index0).pal_size ∧
      (cdpattern_palette colors n palette0 index0).palette 0 = colors 0 := by
  intro n
  induction n with
  | zero => exact ⟨le_refl _, rfl⟩
  | succ n ih =>
    rw [cdpattern_palette_succ]
    generalize cdpattern_palette colors n palette0 index0 = st at ih
    obtain ⟨h1, h2⟩ := ih
    unfold cdpattern_step
    by_cases hs : st.stopped = true
    · rw [if_pos hs]; exact ⟨h1, h2⟩
    · rw [if_neg hs]
      cases hfm : find_match st.palette st.pal_size (colors n) with
      | none =>
        have : (0 : Nat) ≠ st.pal_size := by omega
        simp only [this, if_false]
        exact ⟨by omega, h2⟩
      | some m => exact ⟨h1, h2⟩

/-- C25: with 256 distinct colours `cdpattern` does not index the pixels that follow the
one bringing the 256th colour.  For the pattern 0, 1, ..., 255, 0 the palette loop is
left through `break` at pixel 255 with 256 palette entries; the colour of pixel 256 is in
the palette at position 0, where a first-match scan finds it, but `index[256]` is never
stored: it keeps whatever the uninitialised array held. -/
theorem cdpattern_break_leaves_unindexed (palette0 index0 : Nat → Nat) :
    (cdpattern_palette pattern257 257 palette0 index0).pal_size = 256 ∧
    (cdpattern_palette pattern257 257 palette0 index0).stopped = true ∧
    (cdpattern_palette pattern257 257 palette0 index0).index 255 = 255 ∧
    (cdpattern_palette pattern257 257 palette0 index0).palette 0 = pattern257 256 ∧
    find_match (cdpattern_palette pattern257 257 palette0 index0).palette
      (cdpattern_palette pattern257 257 palette0 index0).pal_size (pattern257 256) = some 0 ∧
    (cdpattern_palette pattern257 257 palette0 index0).index 256 = index0 256 := by
  have hcard : (Finset.image pattern257 (Finset.range 255)).card = 255 := by
    rw [Finset.card_image_of_injOn, Finset.card_range]
    intro a ha b hb hab
    simp only [Finset.coe_range, Set.mem_Iio] at ha hb
    simp only [pattern257] at hab
    omega
  have hnew : ∀ j, j < 255 → pattern257 j ≠ pattern257 255 := by
    intro j hj
    simp only [pattern257]
    omega
  obtain ⟨b1, b2, b3, -, -, b6⟩ := cdpattern_palette_break pattern257 257 255 palette0 index0
    (by omega) (by omega) hcard hnew
  have hz := (cdpattern_palette_zero pattern257 palette0 index0 257).2
  have hz2 : (cdpattern_palette pattern257 257 palette0 index0).palette 0 = pattern257 256 := by
    rw [hz]; rfl
  refine ⟨b1, b2, b3, hz2, ?_, b6 256 (by omega)⟩
  rw [b1]
  unfold find_match
  rw [show (256 : Nat) = 255 + 1 from rfl, List.range_succ_eq_map]
  simp [hz2]

/-! ## The function `highbit` -/

theorem and_two_pow_31_mod (u : Nat) : u % 2 ^ 32 &&& 0x80000000 = u &&& 0x80000000 := by
  apply Nat.eq_of_testBit_eq
  intro i
  have h31 : (0x80000000 : Nat) = 2 ^ 31 := by norm_num
  rw [Nat.testBit_and, Nat.testBit_and, h31, Nat.testBit_two_pow, Nat.testBit_mod_two_pow]
  by_cases hi : 31 = i
  · subst hi; simp
  · simp [hi]

/-- The loop of `highbit` only looks at the low 32 bits of its argument. -/
theorem highbit_loop_mod : ∀ (fuel : Nat) (i : Int) (u : Nat),
    highbit_loop fuel i u = highbit_loop fuel i (u % 2 ^ 32) := by
  intro fuel
  induction fuel with
  | zero => intro i u; rfl
  | succ fuel ih =>
    intro i u
    unfold highbit_loop
    rw [and_two_pow_31_mod]
    have hsh : (u <<< 1 % 2 ^ ULONG_BITS) % 2 ^ 32 =
        ((u % 2 ^ 32) <<< 1 % 2 ^ ULONG_BITS) % 2 ^ 32 := by
      rw [Nat.shiftLeft_eq, Nat.shiftLeft_eq]
      have : (2 : Nat) ^ ULONG_BITS = 18446744073709551616 := by simp [ULONG_BITS]
      rw [this]
      have h32 : (2 : Nat) ^ 32 = 4294967296 := by norm_num
      rw [h32]
      omega
    rw [ih (i - 1) (u <<< 1 % 2 ^ ULONG_BITS), ih (i - 1) ((u % 2 ^ 32) <<< 1 % 2 ^ ULONG_BITS),
      hsh]

/-- Function `highbit` on any `unsigned long`: the highest set bit among the low 32 bits,
and -1 when none of them is set. -/
theorem highbit_low32 (ul : Nat) :
    (ul % 2 ^ 32 = 0 → highbit ul = -1) ∧
    (0 < ul % 2 ^ 32 → ∃ h : Nat, highbit ul = (h : Int) ∧ h ≤ 31 ∧ 2 ^ h ≤ ul % 2 ^ 32 ∧
      ul % 2 ^ 32 < 2 ^ (h + 1)) := by
  have hmod : highbit ul = highbit (ul % 2 ^ 32) := highbit_loop_mod 33 31 ul
  refine ⟨?_, ?_⟩
  · intro h0
    rw [hmod, h0]
    decide
  · intro hpos
    obtain ⟨h, e1, e2, e3⟩ := highbit_spec (ul % 2 ^ 32) hpos (Nat.mod_lt _ (by norm_num))
    refine ⟨h, by rw [hmod]; exact e1, ?_, e2, e3⟩
    by_contra hgt
    have : 2 ^ 32 ≤ 2 ^ h := Nat.pow_le_pow_right (by decide) (by omega)
    have := Nat.mod_lt ul (show 0 < 2 ^ 32 by norm_num)
    omega

/-- C26 as stated fails for a value with no bit set among the low 32: `highbit` of
`2^32`, a non-zero `unsigned long`, is -1, not the position 32 of its highest set bit. -/
theorem highbit_above_32_bits :
    0 < 2 ^ 32 ∧ 2 ^ 32 < 2 ^ ULONG_BITS ∧ highbit (2 ^ 32) = -1 ∧
    ¬ ∃ h : Nat, highbit (2 ^ 32) = (h : Int) ∧ 2 ^ h ≤ 2 ^ 32 ∧ 2 ^ 32 < 2 ^ (h + 1) := by
  refine ⟨by norm_num, by simp [ULONG_BITS], by decide, ?_⟩
  rintro ⟨h, e, -, -⟩
  have h1 : highbit (2 ^ 32) = -1 := by decide
  rw [h1] at e
  omega

/-- C26 amended: for every `unsigned long` value `ul`, `highbit(ul)` is the position `h`
(0..31) of the highest set bit among the low 32 bits of `ul`, that is
`2^h ≤ ul mod 2^32 < 2^(h+1)`, and -1 when none of the low 32 bits is set; so for every
non-zero `ul` below `2^32` it is the position of the highest set bit of `ul`, and for
`ul = 0` it is -1. -/
theorem highbit_position (ul : Nat) :
    (ul % 2 ^ 32 = 0 → highbit ul = -1) ∧
    (0 < ul % 2 ^ 32 → ∃ h : Nat, highbit ul = (h : Int) ∧ h ≤ 31 ∧ 2 ^ h ≤ ul % 2 ^ 32 ∧
      ul % 2 ^ 32 < 2 ^ (h + 1)) ∧
    (0 < ul → ul < 2 ^ 32 → ∃ h : Nat, highbit ul = (h : Int) ∧ h ≤ 31 ∧ 2 ^ h ≤ ul ∧
      ul < 2 ^ (h + 1)) ∧
    highbit 0 = -1 := by
  obtain ⟨h1, h2⟩ := highbit_low32 ul
  refine ⟨h1, h2, ?_, by decide⟩
  intro hpos hlt
  have hm : ul % 2 ^ 32 = ul := Nat.mod_eq_of_lt hlt
  rw [hm] at h2
  exact h2 hpos

/-- Witness of `highbit_position`: the highest set bit of 0x00FF0000 is bit 23. -/
theorem highbit_position_witness :
    ∃ h : Nat, highbit 0xFF0000 = (h : Int) ∧ h ≤ 31 ∧ 2 ^ h ≤ 0xFF0000 ∧
      0xFF0000 < 2 ^ (h + 1) :=
  (highbit_position 0xFF0000).2.2.1 (by norm_num) (by norm_num)

/-! ## Exact matches in `find_color` -/

theorem tdiv_zero_bounds (d b : Int) (hb : 0 < b) (h : Int.tdiv d b = 0) :
    -b < d ∧ d < b := by
  by_cases hd : 0 ≤ d
  · rw [Int.tdiv_eq_ediv hd (le_of_lt hb)] at h
    have h1 := Int.emod_add_ediv d b
    rw [h] at h1
    have h2 := Int.emod_lt_of_pos d hb
    have h3 := Int.emod_nonneg d (ne_of_gt hb)
    omega
  · have hneg : d = -(-d) := by omega
    have hd2 : 0 ≤ -d := by omega
    rw [hneg, Int.neg_tdiv, Int.tdiv_eq_ediv hd2 (le_of_lt hb)] at h
    have h1 := Int.emod_add_ediv (-d) b
    have h0 : -d / b = 0 := by omega
    rw [h0] at h1
    have h2 := Int.emod_lt_of_pos (-d) hb
    have h3 := Int.emod_nonneg (-d) (ne_of_gt hb)
    omega

theorem sq_sum_zero (a b c : Int) (h : a ^ 2 + b ^ 2 + c ^ 2 = 0) : a = 0 ∧ b = 0 ∧ c = 0 := by
  have ha := sq_nonneg a
  have hb := sq_nonneg b
  have hc := sq_nonneg c
  refine ⟨?_, ?_, ?_⟩
  · exact pow_eq_zero_iff (n := 2) (by decide) |>.mp (by omega)
  · exact pow_eq_zero_iff (n := 2) (by decide) |>.mp (by omega)
  · exact pow_eq_zero_iff (n := 2) (by decide) |>.mp (by omega)

/-- What `find_color` returns when the table holds the target exactly at slot `e`: the
lowest slot whose distance to the target is 0. -/
theorem find_color_zero_dist (ctx : cdCtxCanvas) (xc1 : GdkColor) (e : Nat)
    (h1 : xc1.wf) (ht : ∀ i, i < ctx.num_colors → (ctx.color_table i).wf)
    (he : e < ctx.num_colors) (her : (ctx.color_table e).red = xc1.red)
    (heg : (ctx.color_table e).green = xc1.green) (heb : (ctx.color_table e).blue = xc1.blue) :
    find_color ctx xc1 < ctx.num_colors ∧ find_color ctx xc1 ≤ e ∧
    spec_color_dist xc1 (ctx.color_table (find_color ctx xc1)) = 0 ∧
    (∀ i, i < find_color ctx xc1 → 0 < spec_color_dist xc1 (ctx.color_table i)) := by
  have hlt : ∀ i, i < ctx.num_colors → find_color_dist xc1 (ctx.color_table i) < ULONG_MAX :=
    fun i hi => (find_color_dist_spec xc1 _ h1 (ht i hi)).2
  have hsp : ∀ i, i < ctx.num_colors →
      (find_color_dist xc1 (ctx.color_table i) : Int) = spec_color_dist xc1 (ctx.color_table i) :=
    fun i hi => (find_color_dist_spec xc1 _ h1 (ht i hi)).1
  have hde : spec_color_dist xc1 (ctx.color_table e) = 0 := by
    simp [spec_color_dist, her, heg, heb]
  have hde2 : find_color_dist xc1 (ctx.color_table e) = 0 := by
    have := hsp e he
    rw [hde] at this
    exact_mod_cast this
  rcases find_color_loop_inv ctx.color_table xc1 ctx.num_colors hlt ctx.num_colors (le_refl _)
    with ⟨h0, _⟩ | ⟨p1, p2, p3, p4⟩
  · omega
  · have hp : find_color ctx xc1 =
        ((List.range ctx.num_colors).foldl (find_color_step ctx.color_table xc1)
          (0, ULONG_MAX)).1 := rfl
    rw [← hp] at p1 p2 p4
    have hmin := p3 e he
    rw [p2, hde2] at hmin
    have hz : find_color_dist xc1 (ctx.color_table (find_color ctx xc1)) = 0 := by omega
    refine ⟨p1, ?_, ?_, ?_⟩
    · by_contra hgt
      have := p4 e (by omega)
      rw [p2, hz, hde2] at this
      omega
    · rw [← hsp _ p1, hz]
      rfl
    · intro i hi
      have := p4 i hi
      rw [p2, hz] at this
      rw [← hsp i (by omega)]
      exact_mod_cast this

/-- C27 as stated fails when a close entry precedes the exact one: in a table holding red
100 at slot 0 and black at slot 1, the target black is at slot 1, yet `find_color`
returns slot 0, whose colour is not the target. -/
theorem find_color_passes_exact_match :
    1 < near_ctx.num_colors ∧
    (near_ctx.color_table 1).red = 0 ∧ (near_ctx.color_table 1).green = 0 ∧
    (near_ctx.color_table 1).blue = 0 ∧
    find_color near_ctx { pixel := 0, red := 0, green := 0, blue := 0 } = 0 ∧
    (near_ctx.color_table
      (find_color near_ctx { pixel := 0, red := 0, green := 0, blue := 0 })).red = 100 := by
  decide

/-- C27 amended: whenever the colour table holds, at a slot `e` in use, an entry whose
red, green and blue equal those of the target, `find_color` returns the lowest slot at
distance 0 from the target: a slot in use, not above `e`, whose red, green and blue
differ from the target's by less than 850, 432 and 2318, every lower slot being at a
positive distance.  The slot returned need not hold the target itself. -/
theorem find_color_exact_or_close (ctx : cdCtxCanvas) (xc1 : GdkColor) (e : Nat)
    (h1 : xc1.wf) (ht : ∀ i, i < ctx.num_colors → (ctx.color_table i).wf)
    (he : e < ctx.num_colors) (her : (ctx.color_table e).red = xc1.red)
    (heg : (ctx.color_table e).green = xc1.green) (heb : (ctx.color_table e).blue = xc1.blue) :
    find_color ctx xc1 < ctx.num_colors ∧ find_color ctx xc1 ≤ e ∧
    spec_color_dist xc1 (ctx.color_table (find_color ctx xc1)) = 0 ∧
    (-850 < (xc1.red : Int) - ((ctx.color_table (find_color ctx xc1)).red : Int) ∧
      (xc1.red : Int) - ((ctx.color_table (find_color ctx xc1)).red : Int) < 850) ∧
    (-432 < (xc1.green : Int) - ((ctx.color_table (find_color ctx xc1)).green : Int) ∧
      (xc1.green : Int) - ((ctx.color_table (find_color ctx xc1)).green : Int) < 432) ∧
    (-2318 < (xc1.blue : Int) - ((ctx.color_table (find_color ctx xc1)).blue : Int) ∧
      (xc1.blue : Int) - ((ctx.color_table (find_color ctx xc1)).blue : Int) < 2318) ∧
    (∀ i, i < find_color ctx xc1 → 0 < spec_color_dist xc1 (ctx.color_table i)) := by
  obtain ⟨a1, a2, a3, a4⟩ := find_color_zero_dist ctx xc1 e h1 ht he her heg heb
  have hz := a3
  unfold spec_color_dist at hz
  obtain ⟨z1, z2, z3⟩ := sq_sum_zero _ _ _ hz
  exact ⟨a1, a2, a3, tdiv_zero_bounds _ 850 (by decide) z1,
    tdiv_zero_bounds _ 432 (by decide) z2, tdiv_zero_bounds _ 2318 (by decide) z3, a4⟩

/-- Witness of `find_color_exact_or_close`: in the table of reds 0, 1000, 2000 the target
red 1000 is at slot 1, and `find_color` returns a slot not above 1 at distance 0. -/
theorem find_color_exact_or_close_witness :
    find_color palette_ctx { pixel := 0, red := 1000, green := 0, blue := 0 } ≤ 1 ∧
    spec_color_dist { pixel := 0, red := 1000, green := 0, blue := 0 }
      (palette_ctx.color_table
        (find_color palette_ctx { pixel := 0, red := 1000, green := 0, blue := 0 })) = 0 :=
  ⟨(find_color_exact_or_close palette_ctx { pixel := 0, red := 1000, green := 0, blue := 0 } 1
      (by simp [GdkColor.wf])
      (by
        intro i hi
        have hi3 : i < 3 := hi
        simp only [GdkColor.wf, palette_ctx]
        omega)
      (by decide) (by decide) (by decide) (by decide)).2.1,
   (find_color_exact_or_close palette_ctx { pixel := 0, red := 1000, green := 0, blue := 0 } 1
      (by simp [GdkColor.wf])
      (by
        intro i hi
        have hi3 : i < 3 := hi
        simp only [GdkColor.wf, palette_ctx]
        omega)
      (by decide) (by decide) (by decide) (by decide)).2.2.1⟩

/-! ## Byte layout of the RGB packer -/

/-- The bytes `rgb2gdkImage` stores for one pixel: `n/8` bytes which, read in the byte
order of the image, give the packed value modulo `2^n`. -/
theorem rgb2gdk_bytes_spec (n : Nat) (xcol : Nat) (hn : n = 8 ∨ n = 16 ∨ n = 24 ∨ n = 32) :
    (rgb2gdk_bytes n .GDK_MSB_FIRST xcol).length = n / 8 ∧
    (rgb2gdk_bytes n .GDK_LSB_FIRST xcol).length = n / 8 ∧
    be_value (rgb2gdk_bytes n .GDK_MSB_FIRST xcol) = xcol % 2 ^ n ∧
    le_value (rgb2gdk_bytes n .GDK_LSB_FIRST xcol) = xcol % 2 ^ n := by
  rcases hn with h | h | h | h <;> subst h <;>
    simp only [rgb2gdk_bytes, be_value, le_value, byte_of_shift, byte_low, if_true,
      if_false, List.length_cons, List.length_nil, List.foldl_cons, List.foldl_nil,
      List.foldr_cons, List.foldr_nil, reduceCtorEq, Nat.reduceEqDiff,
      Nat.reduceDiv, Nat.reducePow] <;>
    refine ⟨by trivial, by trivial, ?_, ?_⟩ <;> omega

theorem rgb2gdk_bytes_length (n : Nat) (byte_order : GdkByteOrder) (xcol : Nat)
    (hn : n = 8 ∨ n = 16 ∨ n = 24 ∨ n = 32) :
    (rgb2gdk_bytes n byte_order xcol).length = n / 8 := by
  cases byte_order
  · exact (rgb2gdk_bytes_spec n xcol hn).2.1
  · exact (rgb2gdk_bytes_spec n xcol hn).1

/-- Rows written bottom to top at a stride that holds a row: each byte of each row is in
the memory at the end. -/
theorem rgb2gdk_rows_mem (rows : Nat → List Nat) (eh bperline : Int) (mem0 : Int → Nat)
    (hb : ∀ i, ((rows i).length : Int) ≤ bperline) :
    ∀ n i t, i < n → t < (rows i).length →
      (List.range n).foldl
        (fun m (i : Nat) => write_bytes m (rgb2gdk_lip eh bperline i) (rows i)) mem0
        (rgb2gdk_lip eh bperline i + (t : Int)) = (rows i).getD t 0 := by
  intro n
  induction n with
  | zero => intro i t hi; omega
  | succ n ih =>
    intro i t hi ht
    rw [List.range_succ, List.foldl_append]
    simp only [List.foldl_cons, List.foldl_nil]
    unfold write_bytes
    by_cases hin : i = n
    · subst hin
      have hc : rgb2gdk_lip eh bperline i ≤ rgb2gdk_lip eh bperline i + (t : Int) ∧
          rgb2gdk_lip eh bperline i + (t : Int) <
            rgb2gdk_lip eh bperline i + ((rows i).length : Int) := by
        constructor <;> omega
      rw [if_pos hc]
      congr 1
      omega
    · have hbn := hb n
      have hb0 : (0 : Int) ≤ bperline := by
        have : (0 : Int) ≤ ((rows n).length : Int) := Int.natCast_nonneg _
        omega
      have hlt : (i : Int) + 1 ≤ (n : Int) := by omega
      have hmul : (i : Int) * bperline + bperline ≤ (n : Int) * bperline := by nlinarith
      have hc : ¬ (rgb2gdk_lip eh bperline n ≤ rgb2gdk_lip eh bperline i + (t : Int) ∧
          rgb2gdk_lip eh bperline i + (t : Int) <
            rgb2gdk_lip eh bperline n + ((rows n).length : Int)) := by
        unfold rgb2gdk_lip
        intro hcon
        omega
      rw [if_neg hc]
      exact ih i t (by omega) ht

/-- The row of zoom row `i` in `rgb2gdkImage`: the pixel of column `j` occupies the
`n/8` bytes from index `j * (n/8)`. -/
theorem rgb2gdk_row_bytes_spec (E : RgbEnv) (ctx : cdCtxCanvas) (P : RgbPlanes)
    (xim : GdkImage) (fx fy : List Int) (ew eh iw : Int) (i : Nat)
    (hbpp : xim.bits_per_pixel = 8 ∨ xim.bits_per_pixel = 16 ∨ xim.bits_per_pixel = 24 ∨
      xim.bits_per_pixel = 32) :
    (rgb2gdk_row_bytes E ctx P xim fx fy ew eh iw i).length =
      ew.toNat * (xim.bits_per_pixel / 8) ∧
    ∀ j k, j < ew.toNat → k < xim.bits_per_pixel / 8 →
      (rgb2gdk_row_bytes E ctx P xim fx fy ew eh iw i).getD
          (j * (xim.bits_per_pixel / 8) + k) 0 =
        (rgb2gdk_bytes xim.bits_per_pixel xim.byte_order
          (rgb2gdk_xcol ctx E.direct_color E.cdgdkDirectColorTable
            (rgb2gdk_channels E ctx P (fy.getD i 0 * iw + fx.getD j 0) j (eh - i - 1)).1
            (rgb2gdk_channels E ctx P (fy.getD i 0 * iw + fx.getD j 0) j (eh - i - 1)).2.1
            (rgb2gdk_channels E ctx P (fy.getD i 0 * iw + fx.getD j 0) j
              (eh - i - 1)).2.2)).getD k 0 :=
  flatMap_range_getD _ (xim.bits_per_pixel / 8) 0
    (fun _ => rgb2gdk_bytes_length _ _ _ hbpp) ew.toNat

/-- C28: in `rgb2gdkImage`, for an image of `n` bits per pixel, `n` in 8, 16, 24, 32, the
`n/8` bytes of a pixel read in the byte order of the image (big-endian for MSB-first,
little-endian for LSB-first) give the packed value `xcol` modulo `2^n`; the pixel of
column `j` in zoom row `i` starts at byte offset `(eh-1-i) * bperline + j * (n/8)`; and
when a row fits in `bperline` bytes, byte `k` of that pixel is at that place both in the
scratch buffer and in the returned image. -/
theorem rgb2gdkImage_pixel_bytes (E : RgbEnv) (ctx : cdCtxCanvas) (ew eh : Int)
    (P : RgbPlanes) (by_ bx bw bh iw : Int) (xim : GdkImage) (imagedata : XiData)
    (i j k : Nat) (hx : E.xim = some xim)
    (hbpp : xim.bits_per_pixel = 8 ∨ xim.bits_per_pixel = 16 ∨ xim.bits_per_pixel = 24 ∨
      xim.bits_per_pixel = 32)
    (hbuf : (get_data_buffer ctx (eh * (xim.bpl : Int)) E.alloc).1 = some imagedata)
    (hfit : ew.toNat * (xim.bits_per_pixel / 8) ≤ xim.bpl)
    (hi : i < eh.toNat) (hj : j < ew.toNat) (hk : k < xim.bits_per_pixel / 8) :
    (∀ x, (rgb2gdk_bytes xim.bits_per_pixel .GDK_MSB_FIRST x).length =
        xim.bits_per_pixel / 8 ∧
      (rgb2gdk_bytes xim.bits_per_pixel .GDK_LSB_FIRST x).length = xim.bits_per_pixel / 8 ∧
      be_value (rgb2gdk_bytes xim.bits_per_pixel .GDK_MSB_FIRST x) =
        x % 2 ^ xim.bits_per_pixel ∧
      le_value (rgb2gdk_bytes xim.bits_per_pixel .GDK_LSB_FIRST x) =
        x % 2 ^ xim.bits_per_pixel) ∧
    rgb2gdk_lip eh (xim.bpl : Int) i = (eh - 1 - (i : Int)) * (xim.bpl : Int) ∧
    ∃ (xim2 : GdkImage) (c : cdCtxCanvas) (buf : XiData),
      rgb2gdkImage E ctx ew eh P by_ bx bw bh iw = (some xim2, c) ∧
      c.xidata = some buf ∧
      buf.mem ((eh - 1 - (i : Int)) * (xim.bpl : Int) +
          ((j * (xim.bits_per_pixel / 8) + k : Nat) : Int)) =
        (rgb2gdk_bytes xim.bits_per_pixel xim.byte_order
          (rgb2gdk_xcol (get_data_buffer ctx (eh * (xim.bpl : Int)) E.alloc).2 E.direct_color
            E.cdgdkDirectColorTable
            (rgb2gdk_channels E (get_data_buffer ctx (eh * (xim.bpl : Int)) E.alloc).2 P
              ((E.zoomTable eh bh by_).getD i 0 * iw + (E.zoomTable ew bw bx).getD j 0) j
              (eh - i - 1)).1
            (rgb2gdk_channels E (get_data_buffer ctx (eh * (xim.bpl : Int)) E.alloc).2 P
              ((E.zoomTable eh bh by_).getD i 0 * iw + (E.zoomTable ew bw bx).getD j 0) j
              (eh - i - 1)).2.1
            (rgb2gdk_channels E (get_data_buffer ctx (eh * (xim.bpl : Int)) E.alloc).2 P
              ((E.zoomTable eh bh by_).getD i 0 * iw + (E.zoomTable ew bw bx).getD j 0) j
              (eh - i - 1)).2.2)).getD k 0 ∧
      xim2.mem ((eh - 1 - (i : Int)) * (xim.bpl : Int) +
          ((j * (xim.bits_per_pixel / 8) + k : Nat) : Int)) =
        buf.mem ((eh - 1 - (i : Int)) * (xim.bpl : Int) +
          ((j * (xim.bits_per_pixel / 8) + k : Nat) : Int)) := by
  have hlip : rgb2gdk_lip eh (xim.bpl : Int) i = (eh - 1 - (i : Int)) * (xim.bpl : Int) := by
    unfold rgb2gdk_lip
    ring
  refine ⟨fun x => rgb2gdk_bytes_spec _ x hbpp, hlip, ?_⟩
  have hrow := fun i => rgb2gdk_row_bytes_spec E
    (get_data_buffer ctx (eh * (xim.bpl : Int)) E.alloc).2 P xim (E.zoomTable ew bw bx)
    (E.zoomTable eh bh by_) ew eh iw i hbpp
  have hidx : j * (xim.bits_per_pixel / 8) + k < ew.toNat * (xim.bits_per_pixel / 8) := by
    have h1 : (j + 1) * (xim.bits_per_pixel / 8) ≤ ew.toNat * (xim.bits_per_pixel / 8) :=
      Nat.mul_le_mul_right _ hj
    have h2 : (j + 1) * (xim.bits_per_pixel / 8) =
        j * (xim.bits_per_pixel / 8) + xim.bits_per_pixel / 8 := by ring
    omega
  have hmem := rgb2gdk_rows_mem
    (fun i => rgb2gdk_row_bytes E (get_data_buffer ctx (eh * (xim.bpl : Int)) E.alloc).2 P xim
      (E.zoomTable ew bw bx) (E.zoomTable eh bh by_) ew eh iw i)
    eh (xim.bpl : Int) imagedata.mem
    (fun i => by rw [(hrow i).1]; exact_mod_cast hfit)
    eh.toNat i (j * (xim.bits_per_pixel / 8) + k) hi (by rw [(hrow i).1]; exact hidx)
  rw [(hrow i).2 j k hj hk, hlip] at hmem
  have hnb : ¬ (xim.bits_per_pixel ≠ 8 ∧ xim.bits_per_pixel ≠ 16 ∧ xim.bits_per_pixel ≠ 24 ∧
      xim.bits_per_pixel ≠ 32) := by
    rcases hbpp with h | h | h | h <;> simp [h]
  simp only [rgb2gdkImage, hx, hnb, if_false, hbuf]
  refine ⟨_, _, _, rfl, rfl, hmem, ?_⟩
  have hrange : 0 ≤ (eh - 1 - (i : Int)) * (xim.bpl : Int) +
        ((j * (xim.bits_per_pixel / 8) + k : Nat) : Int) ∧
      (eh - 1 - (i : Int)) * (xim.bpl : Int) +
        ((j * (xim.bits_per_pixel / 8) + k : Nat) : Int) < eh * (xim.bpl : Int) := by
    have hi2 : (i : Int) + 1 ≤ eh := by omega
    have hb0 : (0 : Int) ≤ (xim.bpl : Int) := Int.natCast_nonneg _
    have hmul : 0 ≤ (eh - 1 - (i : Int)) * (xim.bpl : Int) :=
      mul_nonneg (by omega) hb0
    have hmul2 : (eh - 1 - (i : Int)) * (xim.bpl : Int) ≤ (eh - 1) * (xim.bpl : Int) := by
      nlinarith
    have ht : ((j * (xim.bits_per_pixel / 8) + k : Nat) : Int) < (xim.bpl : Int) := by
      exact_mod_cast lt_of_lt_of_le hidx hfit
    have hexp : eh * (xim.bpl : Int) = (eh - 1) * (xim.bpl : Int) + (xim.bpl : Int) := by ring
    constructor
    · have : (0 : Int) ≤ ((j * (xim.bits_per_pixel / 8) + k : Nat) : Int) :=
        Int.natCast_nonneg _
      omega
    · omega
  simp only [hrange, and_self, if_true]

/-- Witness of `rgb2gdkImage_pixel_bytes`: a 2 x 2 image of 32 bits per pixel, LSB first,
8 bytes per line, of constant colour (200, 100, 0) on the masks 0xFF0000, 0x00FF00,
0x0000FF: byte 2 of the pixel of column 1 in zoom row 1 is at offset 6 of the scratch
buffer and holds the red channel 200. -/
theorem rgb2gdkImage_pixel_bytes_witness :
    ∃ (xim2 : GdkImage) (c : cdCtxCanvas) (buf : XiData),
      rgb2gdkImage (rgb_env 32) ctx888 2 2 (rgb_planes none) 0 0 2 2 2 = (some xim2, c) ∧
      c.xidata = some buf ∧ buf.mem 6 = 200 ∧ xim2.mem 6 = buf.mem 6 := by
  obtain ⟨xim2, c, buf, h1, h2, h3, h4⟩ :=
    (rgb2gdkImage_pixel_bytes (rgb_env 32) ctx888 2 2 (rgb_planes none) 0 0 2 2 2
      { byte_order := .GDK_LSB_FIRST, depth := 24, bpp := 4, bpl := 8, bits_per_pixel := 32,
        mem := fun _ => 0 }
      { addr := 4096, mem := fun _ => 0 } 1 1 2 rfl (by decide) rfl (by decide) (by decide)
      (by decide) (by decide)).2.2
  exact ⟨xim2, c, buf, h1, h2, h3.trans (by decide), h4⟩

/-! ## Properties of the affine compositors -/

/-- The offset of a pixel of the destination box lies in `[0, ew*eh)`. -/
theorem matrix_doff_range (M : MatrixEnv) (t_x t_y : Int)
    (hx1 : M.t_xmin ≤ t_x) (hx2 : t_x ≤ M.t_xmax) (hy1 : M.t_ymin ≤ t_y)
    (hy2 : t_y ≤ M.t_ymax) :
    0 ≤ matrix_doff M t_x t_y ∧ matrix_doff M t_x t_y < matrix_ew M * matrix_eh M := by
  unfold matrix_doff matrix_ew matrix_eh
  have hw : 0 < M.t_xmax - M.t_xmin + 1 := by omega
  have h1 : 0 ≤ (t_y - M.t_ymin) * (M.t_xmax - M.t_xmin + 1) :=
    mul_nonneg (by omega) (by omega)
  have h2 : (t_y - M.t_ymin) * (M.t_xmax - M.t_xmin + 1) ≤
      (M.t_ymax - M.t_ymin) * (M.t_xmax - M.t_xmin + 1) :=
    mul_le_mul_of_nonneg_right (by omega) (by omega)
  have h3 : (M.t_xmax - M.t_xmin + 1) * (M.t_ymax - M.t_ymin + 1) =
      (M.t_ymax - M.t_ymin) * (M.t_xmax - M.t_xmin + 1) + (M.t_xmax - M.t_xmin + 1) := by ring
  constructor
  · omega
  · rw [h3]; omega

/-- Two pixels of the destination box with the same offset are the same pixel. -/
theorem matrix_doff_inj (M : MatrixEnv) (t_x t_y u_x u_y : Int)
    (hx1 : M.t_xmin ≤ t_x) (hx2 : t_x ≤ M.t_xmax) (ux1 : M.t_xmin ≤ u_x)
    (ux2 : u_x ≤ M.t_xmax) (h : matrix_doff M t_x t_y = matrix_doff M u_x u_y) :
    t_x = u_x ∧ t_y = u_y := by
  unfold matrix_doff matrix_ew at h
  have hy : t_y = u_y := by
    by_contra hne
    rcases lt_or_gt_of_ne hne with hlt | hgt
    · have : (t_y - M.t_ymin) * (M.t_xmax - M.t_xmin + 1) + (M.t_xmax - M.t_xmin + 1) ≤
          (u_y - M.t_ymin) * (M.t_xmax - M.t_xmin + 1) := by nlinarith
      omega
    · have : (u_y - M.t_ymin) * (M.t_xmax - M.t_xmin + 1) + (M.t_xmax - M.t_xmin + 1) ≤
          (t_y - M.t_ymin) * (M.t_xmax - M.t_xmin + 1) := by nlinarith
      omega
  subst hy
  exact ⟨by omega, rfl⟩

theorem byte_stores_untouched (a : Int) :
    ∀ (stores : List (Int × Nat)) (mem : Int → Nat),
      (∀ s, s ∈ stores → s.1 ≠ a) → byte_stores mem stores a = mem a := by
  intro stores
  induction stores with
  | nil => intro mem _; rfl
  | cons s rest ih =>
    intro mem h
    unfold byte_stores
    simp only [List.foldl_cons]
    have := ih (fun k => if k = s.1 then s.2 % 256 else mem k)
      (fun s2 hs2 => h s2 (List.mem_cons_of_mem _ hs2))
    unfold byte_stores at this
    rw [this]
    have hne : a ≠ s.1 := fun e => h s (List.mem_cons_self _ _) e.symm
    simp only [hne, if_false]

/-- When every store to offset `a` stores `v`, and there is one, the byte at `a` is `v`
at the end. -/
theorem byte_stores_value (a : Int) (v : Nat) :
    ∀ (stores : List (Int × Nat)) (mem : Int → Nat),
      (∀ s, s ∈ stores → s.1 = a → s.2 = v) → (∃ s, s ∈ stores ∧ s.1 = a) →
      byte_stores mem stores a = v % 256 := by
  intro stores
  induction stores with
  | nil =>
    intro mem _ hex
    obtain ⟨s, hs, _⟩ := hex
    cases hs
  | cons s rest ih =>
    intro mem hall hex
    by_cases hrest : ∃ s2, s2 ∈ rest ∧ s2.1 = a
    · have := ih (fun k => if k = s.1 then s.2 % 256 else mem k)
        (fun s2 hs2 => hall s2 (List.mem_cons_of_mem _ hs2)) hrest
      unfold byte_stores at this ⊢
      simp only [List.foldl_cons]
      exact this
    · have hun := byte_stores_untouched a rest (fun k => if k = s.1 then s.2 % 256 else mem k)
        (fun s2 hs2 e => hrest ⟨s2, hs2, e⟩)
      unfold byte_stores at hun ⊢
      simp only [List.foldl_cons]
      rw [hun]
      obtain ⟨s3, hs3, e3⟩ := hex
      rcases List.mem_cons.mp hs3 with h | h
      · subst h
        have hv := hall s3 (List.mem_cons_self _ _) e3
        simp only [e3, if_true, hv]
      · exact absurd ⟨s3, h, e3⟩ hrest

/-- The stores of the scanning loops are those of the pixels of the destination box that
pass the extent test. -/
theorem mem_matrix_stores (M : MatrixEnv) (xmin xmax ymin ymax : Int)
    (pixel : ℚ × ℚ → Int → List (Int × Nat)) (s : Int × Nat) :
    s ∈ matrix_stores M xmin xmax ymin ymax pixel ↔
      ∃ t_x t_y, M.t_xmin ≤ t_x ∧ t_x ≤ M.t_xmax ∧ M.t_ymin ≤ t_y ∧ t_y ≤ M.t_ymax ∧
        matrix_test (M.inverse t_x t_y) xmin xmax ymin ymax = true ∧
        s ∈ pixel (M.inverse t_x t_y) (matrix_doff M t_x t_y) := by
  unfold matrix_stores
  simp only [List.mem_flatMap, List.mem_range]
  constructor
  · rintro ⟨ry, hry, rx, hrx, hs⟩
    by_cases ht : matrix_test (M.inverse (M.t_xmin + (rx : Int)) (M.t_ymin + (ry : Int)))
        xmin xmax ymin ymax = true
    · rw [if_pos ht] at hs
      unfold matrix_ew at hrx
      unfold matrix_eh at hry
      exact ⟨M.t_xmin + rx, M.t_ymin + ry, by omega, by omega, by omega, by omega, ht, hs⟩
    · rw [if_neg ht] at hs
      cases hs
  · rintro ⟨t_x, t_y, hx1, hx2, hy1, hy2, ht, hs⟩
    refine ⟨(t_y - M.t_ymin).toNat, ?_, (t_x - M.t_xmin).toNat, ?_, ?_⟩
    · unfold matrix_eh; omega
    · unfold matrix_ew; omega
    · have e1 : M.t_xmin + (((t_x - M.t_xmin).toNat : Nat) : Int) = t_x := by omega
      have e2 : M.t_ymin + (((t_y - M.t_ymin).toNat : Nat) : Int) = t_y := by omega
      rw [e1, e2, if_pos ht]
      exact hs

/-- One destination plane of an affine compositor, at offset `base` of the block: after
the scanning loop the byte of a pixel of the destination box is the interpolated value
when the pixel passes the extent test, and is untouched otherwise. -/
theorem matrix_plane_spec (M : MatrixEnv) (xmin xmax ymin ymax : Int)
    (pixel : ℚ × ℚ → Int → List (Int × Nat)) (base : Int) (val : ℚ × ℚ → Nat)
    (dst0 : Int → Nat)
    (H1 : ∀ i doff, (base + doff, val i) ∈ pixel i doff)
    (H2 : ∀ i doff s, s ∈ pixel i doff → ∀ doff0, 0 ≤ doff →
      doff < matrix_ew M * matrix_eh M → 0 ≤ doff0 → doff0 < matrix_ew M * matrix_eh M →
      s.1 = base + doff0 → doff = doff0 ∧ s.2 = val i)
    (t_x t_y : Int) (hx1 : M.t_xmin ≤ t_x) (hx2 : t_x ≤ M.t_xmax) (hy1 : M.t_ymin ≤ t_y)
    (hy2 : t_y ≤ M.t_ymax) :
    byte_stores dst0 (matrix_stores M xmin xmax ymin ymax pixel)
        (base + matrix_doff M t_x t_y) =
      if matrix_test (M.inverse t_x t_y) xmin xmax ymin ymax = true then
        val (M.inverse t_x t_y) % 256
      else dst0 (base + matrix_doff M t_x t_y) := by
  obtain ⟨r1, r2⟩ := matrix_doff_range M t_x t_y hx1 hx2 hy1 hy2
  have hsame : ∀ s, s ∈ matrix_stores M xmin xmax ymin ymax pixel →
      s.1 = base + matrix_doff M t_x t_y →
      matrix_test (M.inverse t_x t_y) xmin xmax ymin ymax = true ∧
        s.2 = val (M.inverse t_x t_y) := by
    intro s hs he
    obtain ⟨u_x, u_y, ux1, ux2, uy1, uy2, ut, hsp⟩ :=
      (mem_matrix_stores M xmin xmax ymin ymax pixel s).mp hs
    obtain ⟨q1, q2⟩ := matrix_doff_range M u_x u_y ux1 ux2 uy1 uy2
    obtain ⟨e1, e2⟩ := H2 _ _ s hsp (matrix_doff M t_x t_y) q1 q2 r1 r2 he
    obtain ⟨ex, ey⟩ := matrix_doff_inj M u_x u_y t_x t_y ux1 ux2 hx1 hx2 e1
    subst ex ey
    exact ⟨ut, e2⟩
  by_cases ht : matrix_test (M.inverse t_x t_y) xmin xmax ymin ymax = true
  · rw [if_pos ht]
    apply byte_stores_value
    · intro s hs he
      exact (hsame s hs he).2
    · exact ⟨(base + matrix_doff M t_x t_y, val (M.inverse t_x t_y)),
        (mem_matrix_stores M xmin xmax ymin ymax pixel _).mpr
          ⟨t_x, t_y, hx1, hx2, hy1, hy2, ht, H1 _ _⟩, rfl⟩
  · rw [if_neg ht]
    apply byte_stores_untouched
    intro s hs he
    exact ht (hsame s hs he).1

/-- The plane `dst_index` after the scanning loop of `cdputimagerectmap_matrix`. -/
theorem cdputimagerectmap_matrix_fill_spec (M : MatrixEnv) (index : Int → Nat)
    (xmin xmax ymin ymax : Int) (blk : Nat) (hblock : M.alloc.block = some blk)
    (t_x t_y : Int) (hx1 : M.t_xmin ≤ t_x) (hx2 : t_x ≤ M.t_xmax) (hy1 : M.t_ymin ≤ t_y)
    (hy2 : t_y ≤ M.t_ymax) :
    ∃ dst : Int → Nat,
      cdputimagerectmap_matrix_fill M index xmin xmax ymin ymax = some dst ∧
      dst (matrix_doff M t_x t_y) =
        if matrix_test (M.inverse t_x t_y) xmin xmax ymin ymax = true then
          M.zero_order index (M.inverse t_x t_y).1 (M.inverse t_x t_y).2 % 256
        else 0 := by
  obtain ⟨r1, r2⟩ := matrix_doff_range M t_x t_y hx1 hx2 hy1 hy2
  simp only [cdputimagerectmap_matrix_fill, hblock]
  refine ⟨_, rfl, ?_⟩
  have h := matrix_plane_spec M xmin xmax ymin ymax
    (fun i doff => [(doff, M.zero_order index i.1 i.2)]) 0
    (fun i => M.zero_order index i.1 i.2)
    (fun k => if 0 ≤ k ∧ k < matrix_ew M * matrix_eh M then 0 else M.alloc.fresh k)
    (fun i doff => by simp)
    (fun i doff s hs doff0 _ _ _ _ he => by
      simp only [List.mem_singleton] at hs
      subst hs
      simp only [zero_add] at he
      exact ⟨he, rfl⟩)
    t_x t_y hx1 hx2 hy1 hy2
  simp only [zero_add] at h
  rw [h]
  simp only [r1, r2, and_self, if_true]

theorem cdputimagerectrgba_matrix_pixel_mem (M : MatrixEnv) (r g b : Int → Nat)
    (a : Option (Int → Nat)) (size : Int) (i : ℚ × ℚ) (doff : Int) (s : Int × Nat) :
    s ∈ cdputimagerectrgba_matrix_pixel M r g b a size i doff ↔
      s = (doff, M.bilinear r i.1 i.2) ∨ s = (size + doff, M.bilinear g i.1 i.2) ∨
      s = (size + size + doff, M.bilinear b i.1 i.2) ∨
      ∃ al, a = some al ∧ s = (size + size + size + doff, M.bilinear al i.1 i.2) := by
  unfold cdputimagerectrgba_matrix_pixel
  cases a <;> simp

/-- The planes `dst_r`, `dst_g`, `dst_b` and `dst_a` after the scanning loop of
`cdputimagerectrgba_matrix`. -/
theorem cdputimagerectrgba_matrix_fill_spec (M : MatrixEnv) (r g b : Int → Nat)
    (a : Option (Int → Nat)) (xmin xmax ymin ymax : Int) (blk : Nat)
    (hblock : M.alloc.block = some blk)
    (t_x t_y : Int) (hx1 : M.t_xmin ≤ t_x) (hx2 : t_x ≤ M.t_xmax) (hy1 : M.t_ymin ≤ t_y)
    (hy2 : t_y ≤ M.t_ymax) :
    ∃ dst : Int → Nat,
      cdputimagerectrgba_matrix_fill M r g b a xmin xmax ymin ymax = some dst ∧
      dst (matrix_doff M t_x t_y) =
        (if matrix_test (M.inverse t_x t_y) xmin xmax ymin ymax = true then
          M.bilinear r (M.inverse t_x t_y).1 (M.inverse t_x t_y).2 % 256
        else 0) ∧
      dst (matrix_ew M * matrix_eh M + matrix_doff M t_x t_y) =
        (if matrix_test (M.inverse t_x t_y) xmin xmax ymin ymax = true then
          M.bilinear g (M.inverse t_x t_y).1 (M.inverse t_x t_y).2 % 256
        else 0) ∧
      dst (matrix_ew M * matrix_eh M + matrix_ew M * matrix_eh M + matrix_doff M t_x t_y) =
        (if matrix_test (M.inverse t_x t_y) xmin xmax ymin ymax = true then
          M.bilinear b (M.inverse t_x t_y).1 (M.inverse t_x t_y).2 % 256
        else 0) ∧
      (∀ al, a = some al →
        dst (matrix_ew M * matrix_eh M + matrix_ew M * matrix_eh M +
            matrix_ew M * matrix_eh M + matrix_doff M t_x t_y) =
          (if matrix_test (M.inverse t_x t_y) xmin xmax ymin ymax = true then
            M.bilinear al (M.inverse t_x t_y).1 (M.inverse t_x t_y).2 % 256
          else 0)) := by
  obtain ⟨r1, r2⟩ := matrix_doff_range M t_x t_y hx1 hx2 hy1 hy2
  simp only [cdputimagerectrgba_matrix_fill, hblock]
  have hplane := fun (base : Int) (val : ℚ × ℚ → Nat) H1 H2 =>
    matrix_plane_spec M xmin xmax ymin ymax
      (cdputimagerectrgba_matrix_pixel M r g b a (matrix_ew M * matrix_eh M)) base val
      (fun k => if 0 ≤ k ∧ k < (if a.isSome = true then 4 else 3) *
        (matrix_ew M * matrix_eh M) then 0 else M.alloc.fresh k)
      H1 H2 t_x t_y hx1 hx2 hy1 hy2
  have hnc : (3 : Int) ≤ (if a.isSome = true then 4 else 3) := by split_ifs <;> omega
  refine ⟨_, rfl, ?_, ?_, ?_, ?_⟩
  · have h := hplane 0 (fun i => M.bilinear r i.1 i.2)
      (fun i doff => by
        rw [cdputimagerectrgba_matrix_pixel_mem]
        exact Or.inl (by simp))
      (fun i doff s hs doff0 _ _ _ _ he => by
        rw [cdputimagerectrgba_matrix_pixel_mem] at hs
        rcases hs with hs | hs | hs | ⟨al, _, hs⟩ <;> subst hs <;>
          simp only [zero_add] at he <;> first | exact ⟨he, rfl⟩ | (exfalso; omega))
    simp only [zero_add] at h
    rw [h]
    have hin : 0 ≤ matrix_doff M t_x t_y ∧ matrix_doff M t_x t_y <
        (if a.isSome = true then 4 else 3) * (matrix_ew M * matrix_eh M) := by
      constructor
      · exact r1
      · nlinarith
    simp only [hin, and_self, if_true]
  · have h := hplane (matrix_ew M * matrix_eh M) (fun i => M.bilinear g i.1 i.2)
      (fun i doff => by
        rw [cdputimagerectrgba_matrix_pixel_mem]
        exact Or.inr (Or.inl rfl))
      (fun i doff s hs doff0 _ _ _ _ he => by
        rw [cdputimagerectrgba_matrix_pixel_mem] at hs
        rcases hs with hs | hs | hs | ⟨al, _, hs⟩ <;> subst hs <;>
          simp only at he <;> first | exact ⟨by omega, rfl⟩ | (exfalso; omega))
    rw [h]
    have hin : 0 ≤ matrix_ew M * matrix_eh M + matrix_doff M t_x t_y ∧
        matrix_ew M * matrix_eh M + matrix_doff M t_x t_y <
          (if a.isSome = true then 4 else 3) * (matrix_ew M * matrix_eh M) := by
      constructor
      · omega
      · nlinarith
    simp only [hin, and_self, if_true]
  · have h := hplane (matrix_ew M * matrix_eh M + matrix_ew M * matrix_eh M)
      (fun i => M.bilinear b i.1 i.2)
      (fun i doff => by
        rw [cdputimagerectrgba_matrix_pixel_mem]
        exact Or.inr (Or.inr (Or.inl rfl)))
      (fun i doff s hs doff0 _ _ _ _ he => by
        rw [cdputimagerectrgba_matrix_pixel_mem] at hs
        rcases hs with hs | hs | hs | ⟨al, _, hs⟩ <;> subst hs <;>
          simp only at he <;> first | exact ⟨by omega, rfl⟩ | (exfalso; omega))
    rw [h]
    have hin : 0 ≤ matrix_ew M * matrix_eh M + matrix_ew M * matrix_eh M +
          matrix_doff M t_x t_y ∧
        matrix_ew M * matrix_eh M + matrix_ew M * matrix_eh M + matrix_doff M t_x t_y <
          (if a.isSome = true then 4 else 3) * (matrix_ew M * matrix_eh M) := by
      constructor
      · omega
      · nlinarith
    simp only [hin, and_self, if_true]
  · intro al hal
    subst hal
    have h := hplane (matrix_ew M * matrix_eh M + matrix_ew M * matrix_eh M +
        matrix_ew M * matrix_eh M)
      (fun i => M.bilinear al i.1 i.2)
      (fun i doff => by
        rw [cdputimagerectrgba_matrix_pixel_mem]
        exact Or.inr (Or.inr (Or.inr ⟨al, rfl, rfl⟩)))
      (fun i doff s hs doff0 _ _ _ _ he => by
        rw [cdputimagerectrgba_matrix_pixel_mem] at hs
        rcases hs with hs | hs | hs | ⟨al2, hal2, hs⟩
        · subst hs; simp only at he; exfalso; omega
        · subst hs; simp only at he; exfalso; omega
        · subst hs; simp only at he; exfalso; omega
        · subst hs
          have := Option.some.inj hal2
          subst this
          simp only at he
          exact ⟨by omega, rfl⟩)
    rw [h]
    have hin : 0 ≤ matrix_ew M * matrix_eh M + matrix_ew M * matrix_eh M +
          matrix_ew M * matrix_eh M + matrix_doff M t_x t_y ∧
        matrix_ew M * matrix_eh M + matrix_ew M * matrix_eh M + matrix_ew M * matrix_eh M +
          matrix_doff M t_x t_y <
          (if (some al).isSome = true then 4 else 3) * (matrix_ew M * matrix_eh M) := by
      simp only [Option.isSome_some, if_true]
      constructor <;> omega
    simp only [hin, and_self, if_true]

/-- C29: in the affine compositors `cdputimagerectrgba_matrix` and
`cdputimagerectmap_matrix`, for a pixel `(t_x, t_y)` of the destination box the offset
`doff = (t_x - t_xmin) + (t_y - t_ymin) * ew` lies in `[0, ew*eh)`, another pixel of the
box has another offset, and after the scanning loop the byte of the pixel in each
destination plane is the interpolated value when the inverse-mapped coordinate passes
the extent test and the 0 of the initialisation when it fails. -/
theorem matrix_compositors_doff (M : MatrixEnv) (index r g b : Int → Nat)
    (a : Option (Int → Nat)) (xmin xmax ymin ymax : Int) (blk : Nat)
    (hblock : M.alloc.block = some blk)
    (t_x t_y : Int) (hx1 : M.t_xmin ≤ t_x) (hx2 : t_x ≤ M.t_xmax) (hy1 : M.t_ymin ≤ t_y)
    (hy2 : t_y ≤ M.t_ymax) :
    (0 ≤ matrix_doff M t_x t_y ∧ matrix_doff M t_x t_y < matrix_ew M * matrix_eh M) ∧
    (∀ u_x u_y, M.t_xmin ≤ u_x → u_x ≤ M.t_xmax → M.t_ymin ≤ u_y → u_y ≤ M.t_ymax →
      matrix_doff M u_x u_y = matrix_doff M t_x t_y → u_x = t_x ∧ u_y = t_y) ∧
    (∃ dst : Int → Nat,
      cdputimagerectmap_matrix_fill M index xmin xmax ymin ymax = some dst ∧
      dst (matrix_doff M t_x t_y) =
        if matrix_test (M.inverse t_x t_y) xmin xmax ymin ymax = true then
          M.zero_order index (M.inverse t_x t_y).1 (M.inverse t_x t_y).2 % 256
        else 0) ∧
    (∃ dst : Int → Nat,
      cdputimagerectrgba_matrix_fill M r g b a xmin xmax ymin ymax = some dst ∧
      dst (matrix_doff M t_x t_y) =
        (if matrix_test (M.inverse t_x t_y) xmin xmax ymin ymax = true then
          M.bilinear r (M.inverse t_x t_y).1 (M.inverse t_x t_y).2 % 256
        else 0) ∧
      dst (matrix_ew M * matrix_eh M + matrix_doff M t_x t_y) =
        (if matrix_test (M.inverse t_x t_y) xmin xmax ymin ymax = true then
          M.bilinear g (M.inverse t_x t_y).1 (M.inverse t_x t_y).2 % 256
        else 0) ∧
      dst (matrix_ew M * matrix_eh M + matrix_ew M * matrix_eh M + matrix_doff M t_x t_y) =
        (if matrix_test (M.inverse t_x t_y) xmin xmax ymin ymax = true then
          M.bilinear b (M.inverse t_x t_y).1 (M.inverse t_x t_y).2 % 256
        else 0) ∧
      (∀ al, a = some al →
        dst (matrix_ew M * matrix_eh M + matrix_ew M * matrix_eh M +
            matrix_ew M * matrix_eh M + matrix_doff M t_x t_y) =
          (if matrix_test (M.inverse t_x t_y) xmin xmax ymin ymax = true then
            M.bilinear al (M.inverse t_x t_y).1 (M.inverse t_x t_y).2 % 256
          else 0))) :=
  ⟨matrix_doff_range M t_x t_y hx1 hx2 hy1 hy2,
   fun u_x u_y ux1 ux2 _ _ he => matrix_doff_inj M u_x u_y t_x t_y ux1 ux2 hx1 hx2 he,
   cdputimagerectmap_matrix_fill_spec M index xmin xmax ymin ymax blk hblock t_x t_y
     hx1 hx2 hy1 hy2,
   cdputimagerectrgba_matrix_fill_spec M r g b a xmin xmax ymin ymax blk hblock t_x t_y
     hx1 hx2 hy1 hy2⟩

/-- Witness of `matrix_compositors_doff`: in a destination area of 3 x 2 pixels at
(10, 20) mapped on a source of 2 x 2 pixels, the pixel (12, 20) has offset 2 and its
inverse-mapped coordinate 2.5 fails the extent test, so its byte of `dst_index` is 0. -/
theorem matrix_compositors_doff_witness :
    matrix_doff matrix_env 12 20 = 2 ∧ matrix_ew matrix_env * matrix_eh matrix_env = 6 ∧
    ∃ dst : Int → Nat,
      cdputimagerectmap_matrix_fill matrix_env (fun k => k.toNat + 1) 0 1 0 1 = some dst ∧
      dst 2 = 0 := by
  refine ⟨by decide, by decide, ?_⟩
  obtain ⟨dst, h1, h2⟩ := (matrix_compositors_doff matrix_env (fun k => k.toNat + 1)
    (fun _ => 0) (fun _ => 0) (fun _ => 0) none 0 1 0 1 4096 rfl 12 20
    (by decide) (by decide) (by decide) (by decide)).2.2.1
  refine ⟨dst, h1, ?_⟩
  have hd : matrix_doff matrix_env 12 20 = 2 := by decide
  rw [hd] at h2
  rw [h2]
  have ht : matrix_test (matrix_env.inverse 12 20) 0 1 0 1 = false := by
    simp [matrix_test, matrix_env]
    norm_num
  rw [ht]
  rfl

/-! ## The palette size of `map2gdkImage` -/

theorem foldl_max_spec (f : Nat → Int) :
    ∀ (l : List Nat) (p0 : Int),
      p0 ≤ l.foldl (fun p j => if f j > p then f j else p) p0 ∧
      (∀ j, j ∈ l → f j ≤ l.foldl (fun p j => if f j > p then f j else p) p0) ∧
      (l.foldl (fun p j => if f j > p then f j else p) p0 = p0 ∨
        ∃ j, j ∈ l ∧ l.foldl (fun p j => if f j > p then f j else p) p0 = f j) := by
  intro l
  induction l with
  | nil => intro p0; exact ⟨le_refl _, fun j hj => (by cases hj), Or.inl rfl⟩
  | cons a rest ih =>
    intro p0
    simp only [List.foldl_cons]
    obtain ⟨h1, h2, h3⟩ := ih (if f a > p0 then f a else p0)
    have hp : p0 ≤ (if f a > p0 then f a else p0) ∧ f a ≤ (if f a > p0 then f a else p0) := by
      split_ifs <;> constructor <;> omega
    refine ⟨by omega, ?_, ?_⟩
    · intro j hj
      rcases List.mem_cons.mp hj with h | h
      · subst h; omega
      · exact h2 j h
    · rcases h3 with h | ⟨j, hj, h⟩
      · by_cases hc : f a > p0
        · right
          refine ⟨a, List.mem_cons_self _ _, ?_⟩
          rw [h, if_pos hc]
        · left
          rw [h, if_neg hc]
      · exact Or.inr ⟨j, List.mem_cons_of_mem _ hj, h⟩

theorem foldl_max2_spec (f : Nat → Nat → Int) (lj : List Nat) :
    ∀ (li : List Nat) (p0 : Int),
      p0 ≤ li.foldl (fun p i => lj.foldl (fun p j => if f i j > p then f i j else p) p) p0 ∧
      (∀ i j, i ∈ li → j ∈ lj →
        f i j ≤ li.foldl (fun p i => lj.foldl (fun p j => if f i j > p then f i j else p) p)
          p0) ∧
      (li.foldl (fun p i => lj.foldl (fun p j => if f i j > p then f i j else p) p) p0 = p0 ∨
        ∃ i j, i ∈ li ∧ j ∈ lj ∧
          li.foldl (fun p i => lj.foldl (fun p j => if f i j > p then f i j else p) p) p0 =
            f i j) := by
  intro li
  induction li with
  | nil => intro p0; exact ⟨le_refl _, fun i j hi => (by cases hi), Or.inl rfl⟩
  | cons a rest ih =>
    intro p0
    simp only [List.foldl_cons]
    obtain ⟨g1, g2, g3⟩ := foldl_max_spec (f a) lj p0
    obtain ⟨h1, h2, h3⟩ := ih (lj.foldl (fun p j => if f a j > p then f a j else p) p0)
    refine ⟨by omega, ?_, ?_⟩
    · intro i j hi hj
      rcases List.mem_cons.mp hi with h | h
      · subst h
        have := g2 j hj
        omega
      · exact h2 i j h hj
    · rcases h3 with h | ⟨i, j, hi, hj, h⟩
      · rcases g3 with g | ⟨j, hj, g⟩
        · left; rw [h, g]
        · right
          exact ⟨a, j, List.mem_cons_self _ _, hj, by rw [h, g]⟩
      · exact Or.inr ⟨i, j, List.mem_cons_of_mem _ hi, hj, h⟩

/-- The palette size of `map2gdkImage` is one more than the largest index of the scanned
sub-rectangle. -/
theorem map2gdk_pal_size_max (index : Int → Nat) (by_ bx bw bh iw : Int) :
    (∀ i j : Nat, i < bh.toNat → j < bw.toNat →
      (index (((i : Int) + by_) * iw + (j : Int) + bx) : Int) <
        map2gdk_pal_size index by_ bx bw bh iw) ∧
    (map2gdk_pal_size index by_ bx bw bh iw = 1 ∨
      ∃ i j : Nat, i < bh.toNat ∧ j < bw.toNat ∧
        map2gdk_pal_size index by_ bx bw bh iw =
          (index (((i : Int) + by_) * iw + (j : Int) + bx) : Int) + 1) := by
  obtain ⟨-, h2, h3⟩ := foldl_max2_spec
    (fun (i j : Nat) => ((index (((i : Int) + by_) * iw + (j : Int) + bx) : Nat) : Int))
    (List.range bw.toNat) (List.range bh.toNat) 0
  unfold map2gdk_pal_size
  refine ⟨?_, ?_⟩
  · intro i j hi hj
    have := h2 i j (List.mem_range.mpr hi) (List.mem_range.mpr hj)
    simp only at this ⊢
    omega
  · rcases h3 with h | ⟨i, j, hi, hj, h⟩
    · left
      simp only at h ⊢
      omega
    · right
      refine ⟨i, j, List.mem_range.mp hi, List.mem_range.mp hj, ?_⟩
      simp only at h ⊢
      omega

/-- C30: with the source indices being bytes, the palette size computed by `map2gdkImage`
is between 1 and 256 and is one more than the largest index found in rows `[by, by+bh)`
and columns `[bx, bx+bw)` of the source (1 when that rectangle is empty); so when the
zoom tables only yield rows in `[by, by+bh)` and columns in `[bx, bx+bw)`, the index
looked up for column `j` of zoom row `i` is below the palette size, inside the range the
palette loop has filled. -/
theorem map2gdk_pal_size_covers (index : Int → Nat) (by_ bx bw bh iw : Int)
    (fx fy : List Int) (i j : Nat) (hbyte : ∀ s, index s < 256)
    (hfy : ∀ r, r ∈ fy → by_ ≤ r ∧ r < by_ + bh) (hfx : ∀ c, c ∈ fx → bx ≤ c ∧ c < bx + bw)
    (hi : i < fy.length) (hj : j < fx.length) :
    1 ≤ map2gdk_pal_size index by_ bx bw bh iw ∧
    map2gdk_pal_size index by_ bx bw bh iw ≤ 256 ∧
    (∀ i j : Nat, i < bh.toNat → j < bw.toNat →
      (index (((i : Int) + by_) * iw + (j : Int) + bx) : Int) <
        map2gdk_pal_size index by_ bx bw bh iw) ∧
    (map2gdk_pal_size index by_ bx bw bh iw = 1 ∨
      ∃ i j : Nat, i < bh.toNat ∧ j < bw.toNat ∧
        map2gdk_pal_size index by_ bx bw bh iw =
          (index (((i : Int) + by_) * iw + (j : Int) + bx) : Int) + 1) ∧
    (index (map2gdk_src fx fy iw i j) : Int) < map2gdk_pal_size index by_ bx bw bh iw ∧
    index (map2gdk_src fx fy iw i j) ∈
      List.range (map2gdk_pal_size index by_ bx bw bh iw).toNat := by
  obtain ⟨m1, m2⟩ := map2gdk_pal_size_max index by_ bx bw bh iw
  have hpos := map2gdk_pal_size_pos index by_ bx bw bh iw
  have hle : map2gdk_pal_size index by_ bx bw bh iw ≤ 256 := by
    rcases m2 with h | ⟨i2, j2, -, -, h⟩
    · omega
    · have := hbyte (((i2 : Int) + by_) * iw + (j2 : Int) + bx)
      omega
  have hlook : (index (map2gdk_src fx fy iw i j) : Int) <
      map2gdk_pal_size index by_ bx bw bh iw := by
    have hr := hfy (fy.getD i 0) (by
      rw [List.getD_eq_getElem _ _ hi]
      exact List.getElem_mem _)
    have hc := hfx (fx.getD j 0) (by
      rw [List.getD_eq_getElem _ _ hj]
      exact List.getElem_mem _)
    have := m1 (fy.getD i 0 - by_).toNat (fx.getD j 0 - bx).toNat (by omega) (by omega)
    have e1 : (((fy.getD i 0 - by_).toNat : Nat) : Int) + by_ = fy.getD i 0 := by omega
    have e2 : (((fx.getD j 0 - bx).toNat : Nat) : Int) = fx.getD j 0 - bx := by omega
    rw [e1, e2] at this
    unfold map2gdk_src
    have e3 : fy.getD i 0 * iw + (fx.getD j 0 - bx) + bx = fy.getD i 0 * iw + fx.getD j 0 := by
      ring
    rw [e3] at this
    exact this
  refine ⟨hpos, hle, m1, m2, hlook, ?_⟩
  rw [List.mem_range]
  omega

/-- Witness of `map2gdk_pal_size_covers`: a source row of two pixels with the indices 0
and 1, for which the palette size is 2. -/
theorem map2gdk_pal_size_covers_witness :
    map2gdk_pal_size two_index 0 0 2 1 2 = 2 ∧
    (two_index (map2gdk_src (cdGetZoomTable 2 2 0) (cdGetZoomTable 1 1 0) 2 0 1) : Int) <
      map2gdk_pal_size two_index 0 0 2 1 2 :=
  ⟨by decide,
   (map2gdk_pal_size_covers two_index 0 0 2 1 2 (cdGetZoomTable 2 2 0) (cdGetZoomTable 1 1 0)
      0 1
      (by
        intro s
        unfold two_index
        split_ifs <;> omega)
      (by decide) (by decide) (by decide) (by decide)).2.2.2.2.1⟩

/-! ## The true-colour resolver and the packed pixel -/

theorem highbit_bounds (ul : Nat) : -1 ≤ highbit ul ∧ highbit ul ≤ 31 := by
  obtain ⟨h1, h2⟩ := highbit_low32 ul
  by_cases h0 : ul % 2 ^ 32 = 0
  · rw [h1 h0]; omega
  · obtain ⟨h, e, hle, -, -⟩ := h2 (Nat.pos_of_ne_zero h0)
    rw [e]; omega

/-- The shift of one channel in `rgb2gdkImage`, followed by the AND with the mask, is the
placement of the channel in the mask as the specification words it. -/
theorem rgb2gdk_shift_spec (c mask : Nat) (hc : c < 256) :
    rgb2gdk_shift c (7 - highbit mask) &&& mask = spec_channel_in_mask c mask := by
  obtain ⟨hb1, hb2⟩ := highbit_bounds mask
  unfold rgb2gdk_shift spec_channel_in_mask
  by_cases h7 : highbit mask < 7
  · have hn : ¬ (7 - highbit mask < 0) := by omega
    rw [if_neg hn, if_pos h7]
  · rw [if_neg h7]
    by_cases h8 : 7 - highbit mask < 0
    · rw [if_pos h8]
      have hsh : (-(7 - highbit mask)).toNat = (highbit mask - 7).toNat := by omega
      rw [hsh]
      have hle : (highbit mask - 7).toNat ≤ 24 := by omega
      have hnowrap : (c <<< (highbit mask - 7).toNat) % 2 ^ ULONG_BITS =
          c <<< (highbit mask - 7).toNat := by
        apply Nat.mod_eq_of_lt
        rw [Nat.shiftLeft_eq]
        have h1 : 2 ^ (highbit mask - 7).toNat ≤ 2 ^ 24 :=
          Nat.pow_le_pow_right (by decide) hle
        have h2 : c * 2 ^ (highbit mask - 7).toNat < 256 * 2 ^ 24 := by
          calc c * 2 ^ (highbit mask - 7).toNat ≤ c * 2 ^ 24 := Nat.mul_le_mul_left _ h1
            _ < 256 * 2 ^ 24 := Nat.mul_lt_mul_of_pos_right hc (by norm_num)
        have h3 : (256 : Nat) * 2 ^ 24 ≤ 2 ^ ULONG_BITS := by simp [ULONG_BITS]
        omega
      rw [hnowrap]
    · rw [if_neg h8]
      have e1 : (7 - highbit mask).toNat = 0 := by omega
      have e2 : (highbit mask - 7).toNat = 0 := by omega
      rw [e1, e2]
      simp

/-- The value packed inline by `rgb2gdkImage` on a non-direct-colour visual is the device
pixel value as the specification words it. -/
theorem rgb2gdk_xcol_spec (ctx : cdCtxCanvas) (table : Nat → Nat) (r g b : Nat)
    (hr : r < 256) (hg : g < 256) (hb : b < 256) :
    rgb2gdk_xcol ctx false table r g b = spec_truecolor_pixel ctx.vis r g b := by
  have hx : rgb2gdk_xcol ctx false table r g b =
      (rgb2gdk_shift r (7 - highbit ctx.vis.red_mask) &&& ctx.vis.red_mask) |||
      (rgb2gdk_shift g (7 - highbit ctx.vis.green_mask) &&& ctx.vis.green_mask) |||
      (rgb2gdk_shift b (7 - highbit ctx.vis.blue_mask) &&& ctx.vis.blue_mask) := by
    simp [rgb2gdk_xcol]
  rw [hx, rgb2gdk_shift_spec r _ hr, rgb2gdk_shift_spec g _ hg, rgb2gdk_shift_spec b _ hb]
  rfl

/-- An 8-bit channel placed in a mask of `k ≥ 8` contiguous bits at bit `p`: the channel
fills the top 8 bits of the field. -/
theorem spec_channel_wide (c k p : Nat) (hc : c < 256) (hk8 : 8 ≤ k) (hp : p + k ≤ 32) :
    spec_channel_in_mask c ((2 ^ k - 1) <<< p) = c <<< (p + k - 8) := by
  have hc8 : ∀ i, 8 ≤ i → c.testBit i = false := by
    intro i hi
    apply Nat.testBit_lt_two_pow
    exact lt_of_lt_of_le hc (by
      have : 2 ^ 8 ≤ 2 ^ i := Nat.pow_le_pow_right (by decide) hi
      omega)
  unfold spec_channel_in_mask
  rw [highbit_contiguous_mask k p (by omega) hp]
  have hn : ¬ (((p + k - 1 : Nat) : Int) < 7) := by omega
  have hsh : (((p + k - 1 : Nat) : Int) - 7).toNat = p + k - 8 := by omega
  rw [if_neg hn, hsh]
  apply Nat.eq_of_testBit_eq
  intro i
  simp only [Nat.testBit_and, Nat.testBit_shiftLeft, Nat.testBit_two_pow_sub_one]
  by_cases hi : p + k - 8 ≤ i
  · by_cases hik : i - (p + k - 8) < 8
    · have h1 : p ≤ i := by omega
      have h2 : i - p < k := by omega
      simp [hi, h1, h2]
    · have := hc8 (i - (p + k - 8)) (by omega)
      simp [this]
  · simp [hi]

/-- The shift of `truecolor_get_rgb` brings that field back to bits 8..15. -/
theorem truecolor_shift_wide (c k p : Nat) (hc : c < 256) (hk8 : 8 ≤ k) (hp : p + k ≤ 32) :
    truecolor_shift (c <<< (p + k - 8)) ((15 : Int) - highbit ((2 ^ k - 1) <<< p)) = c * 256 := by
  rw [highbit_contiguous_mask k p (by omega) hp]
  unfold truecolor_shift
  by_cases hs : (15 : Int) - ((p + k - 1 : Nat) : Int) < 0
  · have hsh : (-((15 : Int) - ((p + k - 1 : Nat) : Int))).toNat = p + k - 16 := by omega
    rw [if_pos hs, hsh, Nat.shiftLeft_eq, Nat.shiftRight_eq_div_pow]
    have hpow : 2 ^ (p + k - 8) = 2 ^ 8 * 2 ^ (p + k - 16) := by
      rw [← pow_add]; congr 1; omega
    rw [hpow, ← Nat.mul_assoc, Nat.mul_div_cancel _ (Nat.two_pow_pos _)]
    norm_num
  · have hsh : ((15 : Int) - ((p + k - 1 : Nat) : Int)).toNat = 16 - (p + k) := by omega
    rw [if_neg hs, hsh, Nat.shiftLeft_eq, Nat.shiftLeft_eq, Nat.mul_assoc, ← pow_add]
    have he : p + k - 8 + (16 - (p + k)) = 8 := by omega
    rw [he]
    apply Nat.mod_eq_of_lt
    have : (2 : Nat) ^ ULONG_BITS = 18446744073709551616 := by simp [ULONG_BITS]
    rw [this]
    omega

theorem or3_fields (A B C m1 m2 m3 : Nat) (h12 : m1 &&& m2 = 0) (h13 : m1 &&& m3 = 0)
    (h23 : m2 &&& m3 = 0) :
    ((A &&& m1) ||| (B &&& m2) ||| (C &&& m3)) &&& m1 = A &&& m1 ∧
    ((A &&& m1) ||| (B &&& m2) ||| (C &&& m3)) &&& m2 = B &&& m2 ∧
    ((A &&& m1) ||| (B &&& m2) ||| (C &&& m3)) &&& m3 = C &&& m3 := by
  have key : ∀ i, (m1.testBit i && m2.testBit i) = false ∧
      (m1.testBit i && m3.testBit i) = false ∧ (m2.testBit i && m3.testBit i) = false := by
    intro i
    have d12 : (m1 &&& m2).testBit i = false := by rw [h12]; simp
    have d13 : (m1 &&& m3).testBit i = false := by rw [h13]; simp
    have d23 : (m2 &&& m3).testBit i = false := by rw [h23]; simp
    simp only [Nat.testBit_and] at d12 d13 d23
    exact ⟨d12, d13, d23⟩
  refine ⟨?_, ?_, ?_⟩ <;>
  · apply Nat.eq_of_testBit_eq
    intro i
    obtain ⟨d12, d13, d23⟩ := key i
    simp only [Nat.testBit_and, Nat.testBit_or]
    generalize A.testBit i = x1
    generalize B.testBit i = x2
    generalize C.testBit i = x3
    generalize m1.testBit i = y1 at d12 d13 ⊢
    generalize m2.testBit i = y2 at d12 d23 ⊢
    generalize m3.testBit i = y3 at d13 d23 ⊢
    cases x1 <;> cases x2 <;> cases x3 <;> cases y1 <;> cases y2 <;> cases y3 <;> simp_all

/-- The inverse resolver `truecolor_get_rgb` on the packed pixel of `(r, g, b)`, for
masks that are pairwise disjoint runs of at least 8 contiguous bits below bit 32 and the
shifts `15 - highbit(mask)`: each channel reaches the 16-to-8-bit reduction as
`256 * channel`. -/
theorem truecolor_get_rgb_packed (M : CdMacros) (ctx : cdCtxCanvas) (table : Nat → Nat)
    (r g b kr pr kg pg kb pb : Nat) (hr : r < 256) (hg : g < 256) (hb : b < 256)
    (hkr : 8 ≤ kr ∧ pr + kr ≤ 32) (hkg : 8 ≤ kg ∧ pg + kg ≤ 32) (hkb : 8 ≤ kb ∧ pb + kb ≤ 32)
    (hmr : ctx.vis.red_mask = (2 ^ kr - 1) <<< pr)
    (hmg : ctx.vis.green_mask = (2 ^ kg - 1) <<< pg)
    (hmb : ctx.vis.blue_mask = (2 ^ kb - 1) <<< pb)
    (hrg : ctx.vis.red_mask &&& ctx.vis.green_mask = 0)
    (hrb : ctx.vis.red_mask &&& ctx.vis.blue_mask = 0)
    (hgb : ctx.vis.green_mask &&& ctx.vis.blue_mask = 0) :
    truecolor_get_rgb M (cdgdkCreateCanvas_shifts ctx) (rgb2gdk_xcol ctx false table r g b) =
      (M.cdCOLOR16TO8 (r * 256) % 256, M.cdCOLOR16TO8 (g * 256) % 256,
        M.cdCOLOR16TO8 (b * 256) % 256) := by
  have hx : rgb2gdk_xcol ctx false table r g b =
      (rgb2gdk_shift r (7 - highbit ctx.vis.red_mask) &&& ctx.vis.red_mask) |||
      (rgb2gdk_shift g (7 - highbit ctx.vis.green_mask) &&& ctx.vis.green_mask) |||
      (rgb2gdk_shift b (7 - highbit ctx.vis.blue_mask) &&& ctx.vis.blue_mask) := by
    simp [rgb2gdk_xcol]
  obtain ⟨f1, f2, f3⟩ := or3_fields (rgb2gdk_shift r (7 - highbit ctx.vis.red_mask))
    (rgb2gdk_shift g (7 - highbit ctx.vis.green_mask))
    (rgb2gdk_shift b (7 - highbit ctx.vis.blue_mask)) _ _ _ hrg hrb hgb
  rw [← hx] at f1 f2 f3
  rw [rgb2gdk_shift_spec r _ hr, hmr, spec_channel_wide r kr pr hr hkr.1 hkr.2] at f1
  rw [rgb2gdk_shift_spec g _ hg, hmg, spec_channel_wide g kg pg hg hkg.1 hkg.2] at f2
  rw [rgb2gdk_shift_spec b _ hb, hmb, spec_channel_wide b kb pb hb hkb.1 hkb.2] at f3
  unfold truecolor_get_rgb cdgdkCreateCanvas_shifts
  simp only
  rw [hmr, hmg, hmb, f1, f2, f3, truecolor_shift_wide r kr pr hr hkr.1 hkr.2,
    truecolor_shift_wide g kg pg hg hkg.1 hkg.2, truecolor_shift_wide b kb pb hb hkb.1 hkb.2]

/-! ## The bytes of the 24/32-bit indexed branch in the whole function -/

theorem Store.bytes_length (host_lsb : Bool) (s : Store) :
    (s.bytes host_lsb).length = s.size := by
  unfold Store.bytes
  cases host_lsb <;> simp

/-- A byte no store of the list covers keeps its content. -/
theorem apply_stores_untouched (host_lsb : Bool) (k : Int) :
    ∀ (stores : List Store) (mem : Int → Nat),
      (∀ s, s ∈ stores → ¬ (s.off ≤ k ∧ k < s.off + ((s.bytes host_lsb).length : Int))) →
      apply_stores host_lsb mem stores k = mem k := by
  intro stores
  induction stores with
  | nil => intro mem _; rfl
  | cons s rest ih =>
    intro mem h
    unfold apply_stores
    simp only [List.foldl_cons]
    have := ih (write_bytes mem s.off (s.bytes host_lsb))
      (fun s2 hs2 => h s2 (List.mem_cons_of_mem _ hs2))
    unfold apply_stores at this
    rw [this]
    unfold write_bytes
    rw [if_neg (h s (List.mem_cons_self _ _))]

/-- C23: the bytes the claim describes are not what `map2gdkImage` leaves.  The store
statements of the 24/32-bit branch do lay a value out as claimed (3 or 4 bytes carrying
`xcol mod 2^24` in either byte order, the extra byte 0), but the function faults at the
NULL table before reaching them, whatever its arguments; and with storage behind the
table, for two rows of one 24-bit pixel with the colours 0x111111 and 0x222222, the
stores of both rows go to the offsets 0, 1, 2 with the bytes of the last colour
resolved: the buffer holds 0x22 0x22 0x22 there and the allocator's bytes (0) everywhere
else, so the pixel of zoom row 0 is nowhere, and the returned image holds none of the
bytes. -/
theorem map2gdkImage_24_32_bytes_lost :
    (∀ (E : MapEnv) (ctx : cdCtxCanvas) (ew eh : Int) (index : Int → Nat) (colors : Int → Nat)
        (by_ bx bw bh iw : Int),
      map2gdkImage E ctx ew eh index colors by_ bx bw bh iw = .error .null_store) ∧
    (∀ (do32 : Bool) (xcol : Nat),
      (map2gdk_bytes_24 do32 .GDK_MSB_FIRST xcol).length = (if do32 then 4 else 3) ∧
      (map2gdk_bytes_24 do32 .GDK_LSB_FIRST xcol).length = (if do32 then 4 else 3) ∧
      be_value (map2gdk_bytes_24 do32 .GDK_MSB_FIRST xcol) = xcol % 2 ^ 24 ∧
      le_value (map2gdk_bytes_24 do32 .GDK_LSB_FIRST xcol) = xcol % 2 ^ 24 ∧
      (map2gdk_bytes_24 true .GDK_MSB_FIRST xcol).getD 0 1 = 0 ∧
      (map2gdk_bytes_24 true .GDK_LSB_FIRST xcol).getD 3 1 = 0) ∧
    (∃ (st : MatchState) (xim : GdkImage) (c : cdCtxCanvas) (buf : XiData),
      map2gdk_fill_table (map_env 24) two_colors (some fun _ => none)
        { ctx := ctx888, tmpClr := (map_env 24).tmpClr0, table := fun _ => none }
        (List.range 2) = .ok st ∧
      map2gdk_stores_24 (map2gdk_lookup (map_env 24) st) two_index (cdGetZoomTable 1 1 0)
          (cdGetZoomTable 2 2 0)
          { byte_order := .GDK_LSB_FIRST, depth := 24, bpp := 32, bpl := 0,
            bits_per_pixel := 24, mem := fun _ => 0 } 1 2 1 =
        [⟨0, 1, 0x22⟩, ⟨1, 1, 0x22⟩, ⟨2, 1, 0x22⟩, ⟨0, 1, 0x22⟩, ⟨1, 1, 0x22⟩, ⟨2, 1, 0x22⟩] ∧
      map2gdkImage_from (map_env 24) (some fun _ => none) ctx888 1 2 two_index two_colors
        0 0 1 2 1 = .ok (some xim, c) ∧
      c.xidata = some buf ∧
      buf.mem 0 = 0x22 ∧ buf.mem 1 = 0x22 ∧ buf.mem 2 = 0x22 ∧
      (∀ k, k < 0 ∨ 3 ≤ k → buf.mem k = 0) ∧
      (∀ k, xim.mem k = 0) ∧
      ((map_env 24).cdgdkGetPixel ctx888 (two_colors (two_index 0))).1.pixel = 0x111111 ∧
      two_index (map2gdk_src (cdGetZoomTable 1 1 0) (cdGetZoomTable 2 2 0) 1 0 0) = 0) := by
  refine ⟨map2gdkImage_faults, map2gdk_bytes_24_spec, ?_⟩
  refine ⟨_, _, _, _, rfl, by decide, rfl, rfl, by decide, by decide, by decide, ?_,
    fun _ => rfl, by decide, by decide⟩
  intro k hk
  apply apply_stores_untouched
  intro s hs
  generalize hS : map2gdk_stores_24 _ _ _ _ _ _ _ _ = S at hs
  have hv : S =
      [⟨0, 1, 0x22⟩, ⟨1, 1, 0x22⟩, ⟨2, 1, 0x22⟩, ⟨0, 1, 0x22⟩, ⟨1, 1, 0x22⟩, ⟨2, 1, 0x22⟩] := by
    rw [← hS]
    decide
  rw [hv] at hs
  simp only [List.mem_cons, List.mem_singleton, List.not_mem_nil, or_false] at hs
  rcases hs with h | h | h | h | h | h <;> subst h <;>
    rw [Store.bytes_length] <;> simp only [Nat.cast_one] <;> omega

/-! ## What the true-colour resolver returns -/

/-- C8 amended: the `GdkColor` returned by `truecolor_get_pixel` carries the three 16-bit
channel intensities `cdCOLOR8TO16` of the red, green and blue parts of `rgb` and nothing
else: its `pixel` member is the one the uninitialised local held, and the result does
not depend on the canvas (the visual masks are not read).  With the macros as usually
defined the 24-bit colour is recovered from the three channels.  The device pixel value
of the specification (the OR of the channels, each aligned on the highest set bit of its
mask and ANDed with the mask) is what `rgb2gdkImage` computes inline for 8-bit channels
on a non-direct-colour visual. -/
theorem truecolor_get_pixel_channels (M : CdMacros) (ctx : cdCtxCanvas) (clrRGB : GdkColor)
    (rgb : Nat) (table : Nat → Nat) (r g b : Nat) (hr : r < 256) (hg : g < 256)
    (hb : b < 256) :
    (truecolor_get_pixel M ctx clrRGB rgb).red = M.cdCOLOR8TO16 (M.cdRed rgb) % 65536 ∧
    (truecolor_get_pixel M ctx clrRGB rgb).green = M.cdCOLOR8TO16 (M.cdGreen rgb) % 65536 ∧
    (truecolor_get_pixel M ctx clrRGB rgb).blue = M.cdCOLOR8TO16 (M.cdBlue rgb) % 65536 ∧
    (truecolor_get_pixel M ctx clrRGB rgb).pixel = clrRGB.pixel ∧
    (∀ ctx2 : cdCtxCanvas,
      truecolor_get_pixel M ctx2 clrRGB rgb = truecolor_get_pixel M ctx clrRGB rgb) ∧
    ((truecolor_get_pixel usual_macros ctx clrRGB rgb).red / 257 * 65536 +
      (truecolor_get_pixel usual_macros ctx clrRGB rgb).green / 257 * 256 +
      (truecolor_get_pixel usual_macros ctx clrRGB rgb).blue / 257 = rgb % 2 ^ 24) ∧
    rgb2gdk_xcol ctx false table r g b = spec_truecolor_pixel ctx.vis r g b := by
  refine ⟨rfl, rfl, rfl, rfl, fun _ => rfl, ?_, rgb2gdk_xcol_spec ctx table r g b hr hg hb⟩
  have e1 : ∀ x, x < 256 → x * 257 % 65536 / 257 = x := by
    intro x hx
    omega
  simp only [truecolor_get_pixel, usual_macros, byte_of_shift, byte_low]
  rw [e1 _ (Nat.mod_lt _ (by decide)), e1 _ (Nat.mod_lt _ (by decide)),
    e1 _ (Nat.mod_lt _ (by decide))]
  have p16 : (2 : Nat) ^ 16 = 65536 := by norm_num
  have p8 : (2 : Nat) ^ 8 = 256 := by norm_num
  have p24 : (2 : Nat) ^ 24 = 16777216 := by norm_num
  rw [Nat.shiftRight_eq_div_pow, Nat.shiftRight_eq_div_pow, p16, p8, p24]
  omega

/-- Witness of `truecolor_get_pixel_channels`: white on the masks 0xFF0000, 0x00FF00,
0x0000FF; the channels are 0xFFFF each and the value packed inline is 0xFFFFFF. -/
theorem truecolor_get_pixel_channels_witness :
    (truecolor_get_pixel usual_macros ctx888 { pixel := 7, red := 0, green := 0, blue := 0 }
      0xFFFFFF).red = usual_macros.cdCOLOR8TO16 (usual_macros.cdRed 0xFFFFFF) % 65536 ∧
    (truecolor_get_pixel usual_macros ctx888 { pixel := 7, red := 0, green := 0, blue := 0 }
      0xFFFFFF) = { pixel := 7, red := 0xFFFF, green := 0xFFFF, blue := 0xFFFF } ∧
    rgb2gdk_xcol ctx888 false (fun i => i) 255 255 255 =
      spec_truecolor_pixel ctx888.vis 255 255 255 :=
  ⟨(truecolor_get_pixel_channels usual_macros ctx888
      { pixel := 7, red := 0, green := 0, blue := 0 } 0xFFFFFF (fun i => i) 255 255 255
      (by decide) (by decide) (by decide)).1,
   by decide,
   (truecolor_get_pixel_channels usual_macros ctx888
      { pixel := 7, red := 0, green := 0, blue := 0 } 0xFFFFFF (fun i => i) 255 255 255
      (by decide) (by decide) (by decide)).2.2.2.2.2.2⟩

/-- C9 as stated fails.  Through the `pixel` member of `truecolor_get_pixel`, whatever
the macros, the canvas and the content of the uninitialised local, white and black do
not come back as (255, 255, 255) and (0, 0, 0); and through the packed pixel 0xFFFFFF of
white on the masks 0xFF0000, 0x00FF00, 0x0000FF, with the shifts `15 - highbit(mask)`
and the reduction `x / 257`, `truecolor_get_rgb` returns (254, 254, 254). -/
theorem truecolor_roundtrip_not_exact :
    (∀ (M : CdMacros) (ctx : cdCtxCanvas) (clrRGB : GdkColor),
      ¬ (truecolor_get_rgb M ctx (truecolor_get_pixel M ctx clrRGB 0xFFFFFF).pixel =
            (255, 255, 255) ∧
          truecolor_get_rgb M ctx (truecolor_get_pixel M ctx clrRGB 0x000000).pixel =
            (0, 0, 0))) ∧
    rgb2gdk_xcol ctx888 false (fun i => i) 255 255 255 = 0xFFFFFF ∧
    (cdgdkCreateCanvas_shifts ctx888).rshift = -8 ∧
    (cdgdkCreateCanvas_shifts ctx888).gshift = 0 ∧
    (cdgdkCreateCanvas_shifts ctx888).bshift = 8 ∧
    truecolor_get_rgb usual_macros (cdgdkCreateCanvas_shifts ctx888)
      (rgb2gdk_xcol ctx888 false (fun i => i) 255 255 255) = (254, 254, 254) :=
  ⟨fun M ctx clrRGB => (truecolor_roundtrip_loses_rgb M ctx clrRGB).2, by decide, by decide,
    by decide, by decide, by decide⟩

/-- C9 amended: on masks that are pairwise disjoint runs of at least 8 contiguous bits
below bit 32, with the shifts `15 - highbit(mask)`, `truecolor_get_rgb` applied to the
packed pixel of 8-bit `(r, g, b)` (the value `rgb2gdkImage` packs) brings each channel to
the 16-to-8-bit reduction as `256 * channel` and returns
`(cdCOLOR16TO8(256 r), cdCOLOR16TO8(256 g), cdCOLOR16TO8(256 b))` as bytes: this is
`(r, g, b)` when the reduction maps `256 c` to `c`, and `(256 r / 257, 256 g / 257,
256 b / 257)` with the reduction `x / 257`.  Applied to the `pixel` member of
`truecolor_get_pixel` it returns a triple that does not depend on the colour. -/
theorem truecolor_get_rgb_of_packed_pixel (M : CdMacros) (ctx : cdCtxCanvas)
    (table : Nat → Nat) (r g b kr pr kg pg kb pb : Nat) (hr : r < 256) (hg : g < 256)
    (hb : b < 256) (hkr : 8 ≤ kr ∧ pr + kr ≤ 32) (hkg : 8 ≤ kg ∧ pg + kg ≤ 32)
    (hkb : 8 ≤ kb ∧ pb + kb ≤ 32)
    (hmr : ctx.vis.red_mask = (2 ^ kr - 1) <<< pr)
    (hmg : ctx.vis.green_mask = (2 ^ kg - 1) <<< pg)
    (hmb : ctx.vis.blue_mask = (2 ^ kb - 1) <<< pb)
    (hrg : ctx.vis.red_mask &&& ctx.vis.green_mask = 0)
    (hrb : ctx.vis.red_mask &&& ctx.vis.blue_mask = 0)
    (hgb : ctx.vis.green_mask &&& ctx.vis.blue_mask = 0) :
    truecolor_get_rgb M (cdgdkCreateCanvas_shifts ctx) (rgb2gdk_xcol ctx false table r g b) =
      (M.cdCOLOR16TO8 (r * 256) % 256, M.cdCOLOR16TO8 (g * 256) % 256,
        M.cdCOLOR16TO8 (b * 256) % 256) ∧
    ((∀ c, c < 256 → M.cdCOLOR16TO8 (c * 256) % 256 = c) →
      truecolor_get_rgb M (cdgdkCreateCanvas_shifts ctx)
        (rgb2gdk_xcol ctx false table r g b) = (r, g, b)) ∧
    truecolor_get_rgb usual_macros (cdgdkCreateCanvas_shifts ctx)
        (rgb2gdk_xcol ctx false table r g b) =
      (r * 256 / 257, g * 256 / 257, b * 256 / 257) ∧
    (∀ (clrRGB : GdkColor) (rgb : Nat),
      truecolor_get_rgb M (cdgdkCreateCanvas_shifts ctx)
          (truecolor_get_pixel M (cdgdkCreateCanvas_shifts ctx) clrRGB rgb).pixel =
        truecolor_get_rgb M (cdgdkCreateCanvas_shifts ctx) clrRGB.pixel) := by
  have h := truecolor_get_rgb_packed M ctx table r g b kr pr kg pg kb pb hr hg hb hkr hkg hkb
    hmr hmg hmb hrg hrb hgb
  have hu := truecolor_get_rgb_packed usual_macros ctx table r g b kr pr kg pg kb pb hr hg hb
    hkr hkg hkb hmr hmg hmb hrg hrb hgb
  refine ⟨h, ?_, ?_, fun _ _ => rfl⟩
  · intro hex
    rw [h, hex r hr, hex g hg, hex b hb]
  · rw [hu]
    simp only [usual_macros, Prod.mk.injEq]
    refine ⟨?_, ?_, ?_⟩ <;> omega

/-- Witness of `truecolor_get_rgb_of_packed_pixel`: the colour (0x12, 0x34, 0x56) on the
masks 0xFF0000, 0x00FF00, 0x0000FF comes back as (17, 51, 85) with the reduction
`x / 257`. -/
theorem truecolor_get_rgb_of_packed_pixel_witness :
    truecolor_get_rgb usual_macros (cdgdkCreateCanvas_shifts ctx888)
        (rgb2gdk_xcol ctx888 false (fun i => i) 0x12 0x34 0x56) =
      (0x12 * 256 / 257, 0x34 * 256 / 257, 0x56 * 256 / 257) ∧
    (0x12 * 256 / 257, 0x34 * 256 / 257, 0x56 * 256 / 257) = (17, 51, 85) :=
  ⟨(truecolor_get_rgb_of_packed_pixel usual_macros ctx888 (fun i => i) 0x12 0x34 0x56
      8 16 8 8 8 0 (by decide) (by decide) (by decide) (by decide) (by decide) (by decide)
      (by decide) (by decide) (by decide) (by decide) (by decide) (by decide)).2.2.1,
   by decide⟩

end CdGdk
